import Mathlib

/-!
Verification of the DownloadsOrganizer program (`organizer_safe.py`).

The Python source is shallowly embedded below.  Strings are modelled as
Lean `String`/`List Char`; the filesystem is an association list from
resolved absolute paths (lists of components) to metadata; the single
pass `process_once` is a fold over the (materialised) directory listing,
threading the filesystem state and recording an event trace.  Time is a
pair of parameters fixed for the pass: `now : DT` (for `datetime.now()`)
and `tnow : Int` (epoch seconds, for `time.time()`); `st_mtime` values
are `Int`.  The OS is modelled POSIX-style: path separator `/`,
`os.path.expandvars` expanding `$NAME` and `\x7bNAME\x7d`-style references from
an explicit environment list, `resolve` as syntactic normalisation
against an explicit current working directory (no symlinks).
-/

namespace DOrg

/-! ## Decimal rendering of naturals (Python `str(i)` / f-strings) -/

/-- Least-significant-first decimal digits of `n`, with fuel (structural). -/
def digitsRev : Nat → Nat → List Nat
  | 0, _ => []
  | f + 1, n => if n = 0 then [] else n % 10 :: digitsRev f (n / 10)

/-- Decimal rendering of a natural number, as Python's `str`/f-string does. -/
def natRepr (n : Nat) : String :=
  if n = 0 then "0" else (((digitsRev n n).map Nat.digitChar).reverse).asString

/-! ## Substring search and replacement (Python `str.replace`, `in`) -/

/-- Boolean list-prefix test on characters. -/
def preCharB : List Char → List Char → Bool
  | [], _ => true
  | _ :: _, [] => false
  | a :: as, b :: bs => if a = b then preCharB as bs else false

/-- One left-to-right, non-overlapping pass replacing every occurrence of
`pat` (nonempty) by `rep`, as Python `str.replace` does.  Each step consumes
at least one character, so fuel equal to the list length completes the
scan. -/
def replaceGo (pat rep : List Char) : Nat → List Char → List Char
  | 0, l => l
  | _ + 1, [] => []
  | f + 1, c :: rest =>
    if preCharB pat (c :: rest) then
      rep ++ replaceGo pat rep f ((c :: rest).drop pat.length)
    else
      c :: replaceGo pat rep f rest

/-- Python `s.replace(pat, rep)` for nonempty `pat` (the program only ever
replaces nonempty placeholder keys and single characters). -/
def replaceAll (pat rep s : String) : String :=
  if pat.data = [] then s else (replaceGo pat.data rep.data s.data.length s.data).asString

/-- Substring containment on character lists (Python `pat in s`). -/
def hasSubL (pat : List Char) : List Char → Bool
  | [] => pat.isEmpty
  | c :: rest => preCharB pat (c :: rest) || hasSubL pat rest

/-- Substring containment (Python `pat in s`). -/
def hasSub (pat s : String) : Bool :=
  hasSubL pat.data s.data

/-- Python `str.lower` (ASCII model). -/
def toLowerStr (s : String) : String :=
  (s.data.map Char.toLower).asString

/-- Python `str.startswith` / pathlib's leading-`/` test. -/
def startsWithStr (s pre : String) : Bool :=
  preCharB pre.data s.data

/-- Python `str.endswith`. -/
def endsWithStr (s suf : String) : Bool :=
  preCharB suf.data.reverse s.data.reverse

/-- Lexicographic comparison of character lists by code point. -/
def lexLe : List Char → List Char → Bool
  | [], _ => true
  | _ :: _, [] => false
  | a :: as, b :: bs => if a = b then lexLe as bs else decide (a < b)

/-- Python string ordering (`sorted`), code-point lexicographic. -/
def strLe (a b : String) : Bool :=
  lexLe a.data b.data

/-- Split a character list at every occurrence of `sep`. -/
def splitCharGo (sep : Char) (acc : List Char) : List Char → List String
  | [] => [acc.reverse.asString]
  | c :: rest =>
    if c = sep then acc.reverse.asString :: splitCharGo sep [] rest
    else splitCharGo sep (c :: acc) rest

/-- Split a string on a separator character (`str.split('/')`). -/
def splitChar (sep : Char) (s : String) : List String :=
  splitCharGo sep [] s.data

/-- Keep the first occurrence of every name (set-like deduplication). -/
def dedupGo (seen : List String) : List String → List String
  | [] => []
  | a :: rest => if seen.contains a then dedupGo seen rest else a :: dedupGo (a :: seen) rest

/-- Deduplicate a list of names, keeping first occurrences. -/
def dedupNames (l : List String) : List String :=
  dedupGo [] l

/-! ## Timestamps -/

/-- A `datetime.now()` value: the calendar/clock fields the program formats. -/
structure DT where
  year : Nat
  month : Nat
  day : Nat
  hour : Nat
  minute : Nat
  second : Nat
deriving DecidableEq, Repr

/-- Zero-pad to two digits (`strftime` `%m`, `%d`, `%H`, `%M`, `%S`). -/
def pad2 (n : Nat) : String :=
  if n < 10 then "0" ++ natRepr n else natRepr n

/-- Zero-pad to four digits (`strftime` `%Y`). -/
def pad4 (n : Nat) : String :=
  if n < 10 then "000" ++ natRepr n
  else if n < 100 then "00" ++ natRepr n
  else if n < 1000 then "0" ++ natRepr n
  else natRepr n

/-- `dt.strftime("%Y%m%d")`. -/
def fmtDate (dt : DT) : String :=
  pad4 dt.year ++ pad2 dt.month ++ pad2 dt.day

/-- `dt.strftime("%H%M%S")`. -/
def fmtTime (dt : DT) : String :=
  pad2 dt.hour ++ pad2 dt.minute ++ pad2 dt.second

/-! ## Environment expansion (`os.path.expandvars`, `os.path.expanduser`) -/

/-- Lookup in the modelled process environment. -/
def envLookup (env : List (String × String)) (n : String) : Option String :=
  (env.find? (fun p => p.1 == n)).map (·.2)

/-- ASCII word character, as in the `\w` of `posixpath.expandvars`. -/
def isWordChar (c : Char) : Bool :=
  c.isAlphanum || c == '_'

/-- `posixpath.expandvars`: expand `$NAME` and brace-delimited `$`-references
from the environment; unknown references are left in place; no recursive
re-expansion of substituted values. -/
def expandVarsGo (env : List (String × String)) : Nat → List Char → List Char
  | 0, l => l
  | _ + 1, [] => []
  | f + 1, c :: rest =>
    if c = '$' then
      match rest with
      | '{' :: r2 =>
        let nm := r2.takeWhile (· ≠ '}')
        let r3 := r2.dropWhile (· ≠ '}')
        if r3.isEmpty then '$' :: '{' :: expandVarsGo env f r2
        else
          match envLookup env nm.asString with
          | some v => v.data ++ expandVarsGo env f r3.tail
          | none => '$' :: '{' :: (nm ++ '}' :: expandVarsGo env f r3.tail)
      | c2 :: _ =>
        if isWordChar c2 then
          let nm := rest.takeWhile isWordChar
          let r3 := rest.dropWhile isWordChar
          match envLookup env nm.asString with
          | some v => v.data ++ expandVarsGo env f r3
          | none => '$' :: (nm ++ expandVarsGo env f r3)
        else '$' :: expandVarsGo env f rest
      | [] => ['$']
    else c :: expandVarsGo env f rest

/-- `posixpath.expandvars` over the character list: every scanning step
consumes at least one character, so fuel `length + 1` always completes the
scan. -/
def expandVarsL (env : List (String × String)) (l : List Char) : List Char :=
  expandVarsGo env (l.length + 1) l

/-- `posixpath.expanduser` restricted to the modelled environment: a leading
bare `~` is replaced by `$HOME` when set; `~user` forms (which need the
password database) and a missing `HOME` leave the path unchanged. -/
def expandUserL (env : List (String × String)) (l : List Char) : List Char :=
  match l with
  | [] => []
  | c :: rest =>
    if c = '~' then
      let user := rest.takeWhile (· ≠ '/')
      let tail := rest.dropWhile (· ≠ '/')
      if user = [] then
        match envLookup env "HOME" with
        | some h =>
          let hh := (h.data.reverse.dropWhile (· = '/')).reverse
          if hh = [] && tail = [] then ['/'] else hh ++ tail
        | none => c :: rest
      else c :: rest
    else c :: rest

/-! ## Paths -/

/-- A parsed `pathlib.PurePosixPath`: an absolute flag plus components
(empty and `.` components dropped at parse time, as pathlib does). -/
structure PyPath where
  absolute : Bool
  comps : List String
deriving DecidableEq, Repr

/-- A resolved absolute path: its components from the root. -/
abbrev AbsPath := List String

/-- `pathlib.Path(s)` (POSIX flavour). -/
def parsePath (s : String) : PyPath :=
  ⟨startsWithStr s "/", (splitChar '/' s).filter (fun c => c ≠ "" && c ≠ ".")⟩

/-- Append a further path component or relative path, as `p / s` does:
an absolute right operand replaces the left one. -/
def pathJoin (p : PyPath) (s : String) : PyPath :=
  let q := parsePath s
  if q.absolute then q else ⟨p.absolute, p.comps ++ q.comps⟩

/-- Collapse `..` components (what `Path.resolve` does syntactically in a
symlink-free tree). -/
def normalize (l : List String) : AbsPath :=
  l.foldl (fun acc c => if c = ".." then acc.dropLast else acc ++ [c]) []

/-- `Path.resolve()` against the process working directory `cwd`
(symlink-free model, `strict=False`). -/
def resolveP (cwd : AbsPath) (p : PyPath) : AbsPath :=
  normalize (if p.absolute then p.comps else cwd ++ p.comps)

/-- Join a resolved directory with a further path string, as the OS does when
the program opens `dir / s`: an absolute `s` wins outright. -/
def joinUnder (d : AbsPath) (s : String) : AbsPath :=
  let q := parsePath s
  if q.absolute then normalize q.comps else normalize (d ++ q.comps)

/-! ## `expand_path` (source lines 38-50) -/

/-- The placeholder substitutions of `expand_path`, in the order of the
`repl` dict of the source. -/
def pathRepl (dt : DT) : List (String × String) :=
  [("{YYYY}", pad4 dt.year), ("{MM}", pad2 dt.month), ("{DD}", pad2 dt.day),
   ("{date}", fmtDate dt), ("{time}", fmtTime dt)]

/-- The string produced by `expand_path` before wrapping into `Path`:
placeholder substitution, then `os.path.expandvars`, then
`os.path.expanduser`. -/
def expandPathStr (env : List (String × String)) (p : String) (dt : DT) : String :=
  let p1 := (pathRepl dt).foldl (fun s kv => replaceAll kv.1 kv.2 s) p
  let p2 := (expandVarsL env p1.data).asString
  (expandUserL env p2.data).asString

/-- `expand_path(p, dt)` of the source: the expanded string parsed as a path. -/
def expand_path (env : List (String × String)) (p : String) (dt : DT) : PyPath :=
  parsePath (expandPathStr env p dt)

/-! ## pathlib `stem`/`suffix` and `os.path.splitext` -/

/-- Index (from the left) of the last `.` in the list, if any. -/
def lastDotIdx (l : List Char) : Option Nat :=
  match l.reverse.findIdx? (· = '.') with
  | some j => some (l.length - 1 - j)
  | none => none

/-- `PurePath.suffix`: the final extension with its dot, present only when
the last dot is neither the first nor the last character of the name. -/
def pySuffix (s : String) : String :=
  match lastDotIdx s.data with
  | some i => if 0 < i && i + 1 < s.data.length then (s.data.drop i).asString else ""
  | none => ""

/-- `PurePath.stem`: the name without `pySuffix`. -/
def pyStem (s : String) : String :=
  match lastDotIdx s.data with
  | some i => if 0 < i && i + 1 < s.data.length then (s.data.take i).asString else s
  | none => s

/-- `src.suffix.lower().lstrip(".")`, the extension form the program uses. -/
def extOf (s : String) : String :=
  ((toLowerStr (pySuffix s)).data.dropWhile (· = '.')).asString

/-- `os.path.splitext` on a bare file name (no separators): split at the
last dot provided some earlier character is not a dot. -/
def splitextPy (s : String) : String × String :=
  match lastDotIdx s.data with
  | some i =>
    if (s.data.take i).any (· ≠ '.') then ((s.data.take i).asString, (s.data.drop i).asString)
    else (s, "")
  | none => (s, "")

/-! ## `fnmatch.fnmatch` (POSIX: no case folding) -/

/-- Membership of `c` in a bracket-expression body (ranges `a-z` and
literals), as `fnmatch.translate` interprets it. -/
def bracketMember (c : Char) : List Char → Bool
  | a :: '-' :: b :: rest =>
    if (a ≤ c && c ≤ b : Bool) then true else bracketMember c rest
  | a :: rest => if a = c then true else bracketMember c rest
  | [] => false

/-- Shell-style pattern match with fuel: `*` any sequence, `?` any single
character, bracket expressions with optional leading `!` negation and a
literal `]` first; an unterminated `[` matches itself literally.  Every
recursive call strictly decreases `|pattern| + |string|`, so the wrapper's
fuel always suffices. -/
def fnmatchGo : Nat → List Char → List Char → Bool
  | 0, _, _ => false
  | _ + 1, [], s => s.isEmpty
  | f + 1, '*' :: ps, s =>
    (fnmatchGo f ps s ||
      match s with
      | [] => false
      | _ :: s2 => fnmatchGo f ('*' :: ps) s2)
  | f + 1, '?' :: ps, s =>
    (match s with
     | [] => false
     | _ :: s2 => fnmatchGo f ps s2)
  | f + 1, '[' :: ps, s =>
    (let neg := ps.head? = some '!'
     let body := if neg then ps.tail else ps
     -- a `]` directly after `[` (or `[!`) is a literal member of the set
     let keep := if body.head? = some ']' then body.take 1 else []
     let rest0 := if body.head? = some ']' then body.tail else body
     let chunk := keep ++ rest0.takeWhile (· ≠ ']')
     let after := rest0.dropWhile (· ≠ ']')
     match after with
     | ']' :: ps2 =>
       (match s with
        | [] => false
        | c :: s2 =>
          let inSet := bracketMember c chunk
          if (if neg then !inSet else inSet) then fnmatchGo f ps2 s2 else false)
     | _ =>
       -- unterminated bracket: `[` is a literal
       (match s with
        | '[' :: s2 => fnmatchGo f ps s2
        | _ => false))
  | f + 1, p :: ps, s =>
    (match s with
     | c :: s2 => if p = c then fnmatchGo f ps s2 else false
     | [] => false)

/-- `fnmatch.fnmatch(name, pat)` on POSIX (where `normcase` is the
identity). -/
def fnmatchStr (name pat : String) : Bool :=
  fnmatchGo (pat.data.length + name.data.length + 1) pat.data name.data

/-! ## Rules and configuration (section 6 keys, source `r.get`/`cfg.get`) -/

/-- A configured rule.  `rename = ""` models an absent or empty value (the
source's `rule.get("rename") or "{stem}"` treats both alike); likewise
`to_dir = ""` is an absent destination in the exclusion builder. -/
structure Rule where
  name : String := ""
  match_ext : List String := []
  match_mime : List String := []
  match_glob : List String := []
  match_all : Bool := false
  to_dir : String := ""
  rename : String := ""
  ensure_unique : Bool := true
deriving DecidableEq, Repr

/-- The configuration mapping with its source defaults. -/
structure Config where
  watch_dir : String
  min_age_sec : Int := 10
  ignore_ext : List String := []
  ignore_names : List String := []
  managed_marker : String := ".dorg_managed"
  collect_unmanaged_dirs : Bool := false
  unmanaged_dirs_exclude : List String := []
  unmanaged_dir_target : Option String := none
  rules : List Rule := []
deriving DecidableEq, Repr

/-- The source's default for `unmanaged_dir_target` (lines 171 and 228). -/
def defaultUnmanagedTarget : String := "%USERPROFILE%/Downloads/_Folders/{YYYY}-{MM}"

/-! ## `match_rule` (source lines 52-72) -/

/-- The rule loop of `match_rule`: per rule, extension set, then MIME
prefixes, then globs, then the catch-all flag, returning on the first hit. -/
def matchRuleGo (name ext : String) (mime : Option String) : List Rule → Option Rule
  | [] => none
  | r :: rs =>
    if !(r.match_ext.map toLowerStr).isEmpty && (r.match_ext.map toLowerStr).contains ext then
      some r
    else if !(r.match_mime.map toLowerStr).isEmpty &&
        (match mime with
         | some m => (r.match_mime.map toLowerStr).any (fun q => startsWithStr (toLowerStr m) q)
         | none => false) then
      some r
    else if r.match_glob.any (fun g => fnmatchStr name g) then some r
    else if r.match_all then some r
    else matchRuleGo name ext mime rs

/-- `match_rule(src, rules)`: the extension is
`src.suffix.lower().lstrip(".")`, the MIME type is guessed from the bare
file name (`mimetypes.guess_type`, modelled by the parameter `guess`). -/
def match_rule (guess : String → Option String) (name : String) (rules : List Rule) : Option Rule :=
  matchRuleGo name (extOf name) (guess name) rules

/-! ## `build_target_name` (source lines 74-89) -/

/-- The characters the filename expansion replaces by `_`. -/
def badChars : List Char := ['<', '>', ':', '"', '/', '\\', '|', '?', '*']

/-- `build_target_name(src, rule, dt, counter)`: substitute the rename
placeholders, sanitise forbidden characters, then append the lowercased
source extension when nonempty. -/
def build_target_name (srcName : String) (rule : Rule) (dt : DT) (counter : Nat) : String :=
  let stem := pyStem srcName
  let ext := extOf srcName
  let repl := [("{stem}", stem), ("{ext}", ext), ("{date}", fmtDate dt),
               ("{time}", fmtTime dt), ("{counter}", if counter ≠ 0 then natRepr counter else "")]
  let nm0 := if rule.rename = "" then "{stem}" else rule.rename
  let nm1 := repl.foldl (fun s kv => replaceAll kv.1 kv.2 s) nm0
  let nm2 := badChars.foldl (fun s c => replaceAll (String.singleton c) "_" s) nm1
  nm2 ++ (if ext ≠ "" then "." ++ ext else "")

/-! ## Candidate filters (source lines 91-111) -/

/-- `is_candidate_file`, with the two filesystem observations it makes as
explicit arguments: `isFile` is the `path.is_file()` answer and `mtime` the
result of the later `stat` (`none` models the file vanishing in between,
the caught `FileNotFoundError`). -/
def is_candidate_file_core (isFile : Bool) (name : String) (min_age_sec : Int)
    (ignore_ext ignore_names : List String) (mtime : Option Int) (tnow : Int) : Bool :=
  if !isFile then false
  else if ignore_names.contains name then false
  else if ignore_ext.any (fun ie => endsWithStr (toLowerStr name) (toLowerStr ie)) then false
  else
    match mtime with
    | none => false
    | some m => tnow - m ≥ min_age_sec

/-- `is_candidate_dir`, analogously. -/
def is_candidate_dir_core (isDir : Bool) (min_age_sec : Int) (mtime : Option Int) (tnow : Int) : Bool :=
  if !isDir then false
  else
    match mtime with
    | none => false
    | some m => tnow - m ≥ min_age_sec

/-! ## The filesystem model -/

/-- Kind of a filesystem entry. -/
inductive FKind
  | file
  | dir
deriving DecidableEq, Repr

/-- Metadata of an entry: its kind and `st_mtime` (epoch seconds). -/
structure FInfo where
  kind : FKind
  mtime : Int
deriving DecidableEq, Repr

/-- A snapshot filesystem: entries keyed by resolved absolute path. -/
structure FS where
  entries : List (AbsPath × FInfo)
deriving DecidableEq, Repr

/-- Boolean path-component test: `a` is a (not necessarily proper)
component-wise ancestor of `b`. -/
def preB : AbsPath → AbsPath → Bool
  | [], _ => true
  | _ :: _, [] => false
  | a :: as, b :: bs => if a = b then preB as bs else false

/-- `a` is a proper ancestor of `b` (`a in b.parents` for resolved paths). -/
def strictPreB (a b : AbsPath) : Bool :=
  if a = b then false else preB a b

def FS.lookup (fs : FS) (p : AbsPath) : Option FInfo :=
  (fs.entries.find? (fun e => e.1 == p)).map (·.2)

/-- `Path.exists()`. -/
def FS.existsP (fs : FS) (p : AbsPath) : Bool :=
  (fs.lookup p).isSome

/-- `Path.is_file()`. -/
def FS.isFile (fs : FS) (p : AbsPath) : Bool :=
  match fs.lookup p with
  | some i => i.kind = FKind.file
  | none => false

/-- `Path.is_dir()`. -/
def FS.isDir (fs : FS) (p : AbsPath) : Bool :=
  match fs.lookup p with
  | some i => i.kind = FKind.dir
  | none => false

/-- `stat().st_mtime`, `none` when the path does not exist. -/
def FS.mtimeOf (fs : FS) (p : AbsPath) : Option Int :=
  (fs.lookup p).map (·.mtime)

/-- Insertion into a sorted list of names. -/
def insSorted (a : String) : List String → List String
  | [] => [a]
  | b :: bs => if strLe a b then a :: b :: bs else b :: insSorted a bs

/-- Insertion sort, for the `sorted(...)` of the pass. -/
def sortNames (l : List String) : List String :=
  l.foldr insSorted []

/-- `sorted(d.iterdir())` as bare names: the deduplicated, sorted child
names of `d`. -/
def FS.childNames (fs : FS) (d : AbsPath) : List String :=
  sortNames (dedupNames (fs.entries.filterMap (fun e =>
    if e.1.length = d.length + 1 && preB d e.1 then e.1.getLast? else none)))

/-- Remove the whole subtree rooted at `p`. -/
def FS.removeTree (fs : FS) (p : AbsPath) : FS :=
  ⟨fs.entries.filter (fun e => !(preB p e.1))⟩

/-- Create or overwrite the single entry at `p`. -/
def FS.addEntry (fs : FS) (p : AbsPath) (i : FInfo) : FS :=
  ⟨(p, i) :: fs.entries.filter (fun e => !(e.1 == p))⟩

/-- `os.rename(src, dst)`: the subtree at `src` is re-rooted at `dst`,
replacing whatever was at `dst`. -/
def FS.renameTree (fs : FS) (src dst : AbsPath) : FS :=
  ⟨(fs.entries.filterMap (fun e =>
      if preB src e.1 then some (dst ++ e.1.drop src.length, e.2) else none)) ++
    fs.entries.filter (fun e => !(preB src e.1) && !(preB dst e.1))⟩

/-- `shutil.move(src, dst)`: when `dst` is an existing directory the source
is moved inside it, otherwise it is renamed onto `dst`. -/
def shutilMove (fs : FS) (src dst : AbsPath) : FS :=
  let realDst := if fs.isDir dst then dst ++ [src.getLastD ""] else dst
  fs.renameTree src realDst

/-- The nonempty ancestors of `p`, shortest first. -/
def nonemptyInits (p : AbsPath) : List AbsPath :=
  (List.range p.length).map (fun i => p.take (i + 1))

/-- `p.mkdir(parents=True, exist_ok=True)`: create every missing ancestor
as a directory timestamped `t`. -/
def FS.mkdirParents (fs : FS) (p : AbsPath) (t : Int) : FS :=
  (nonemptyInits p).foldl
    (fun acc q => if acc.existsP q then acc else acc.addEntry q ⟨FKind.dir, t⟩) fs

/-! ## `mark_managed_dir` / `is_managed_dir` (source lines 113-120) -/

/-- `mark_managed_dir`: best-effort `touch(exist_ok=True)` of the marker;
failures (marker path is a directory, missing parent) are swallowed. -/
def mark_managed_dir (fs : FS) (dstDirR : AbsPath) (marker : String) (t : Int) : FS :=
  let mp := joinUnder dstDirR marker
  match fs.lookup mp with
  | some i => if i.kind = FKind.dir then fs else fs.addEntry mp ⟨FKind.file, t⟩
  | none => if fs.isDir mp.dropLast then fs.addEntry mp ⟨FKind.file, t⟩ else fs

/-- `is_managed_dir(path, marker)`: existence of `path / marker`. -/
def is_managed_dir (fs : FS) (dR : AbsPath) (marker : String) : Bool :=
  fs.existsP (joinUnder dR marker)

/-! ## `move_with_unique` / `move_dir_with_unique` (source lines 122-143) -/

/-- The disambiguated name `f"{stem}_{i}{ext}"`. -/
def sfxName (stem ext : String) (i : Nat) : String :=
  stem ++ "_" ++ natRepr i ++ ext

/-- The `while candidate.exists()` loop: starting at index `i`, return the
first index whose candidate is not taken (fuel bounds the iterations; one
more than the number of existing entries always suffices). -/
def probeIdx (taken : Nat → Bool) : Nat → Nat → Nat
  | 0, i => i
  | f + 1, i => if taken i then probeIdx taken f (i + 1) else i

/-- `move_with_unique(src, dst_dir, target_name, ensure_unique)`:
create the destination directory, probe `name`, `stem_1.ext`, ... while the
candidate exists (when `ensure_unique`), then `shutil.move` and return the
final path. -/
def move_with_unique (fs : FS) (cwd : AbsPath) (srcR : AbsPath) (dstDir : PyPath)
    (targetName : String) (ensureUnique : Bool) (t : Int) : FS × AbsPath :=
  let dstR := resolveP cwd dstDir
  let fs1 := fs.mkdirParents dstR t
  let cand0 := joinUnder dstR targetName
  let se := splitextPy (cand0.getLastD "")
  let candAt : Nat → AbsPath := fun i =>
    if i = 0 then cand0 else joinUnder dstR (sfxName se.1 se.2 i)
  let finalPath :=
    if ensureUnique then
      candAt (probeIdx (fun i => fs1.existsP (candAt i)) (fs1.entries.length + 1) 0)
    else cand0
  (shutilMove fs1 srcR finalPath, finalPath)

/-- `move_dir_with_unique(src, dst_dir, ensure_unique)`: like the file
mover but suffixing the whole directory name, no extension split. -/
def move_dir_with_unique (fs : FS) (cwd : AbsPath) (srcR : AbsPath) (dstDir : PyPath)
    (t : Int) (ensureUnique : Bool) : FS × AbsPath :=
  let dstR := resolveP cwd dstDir
  let fs1 := fs.mkdirParents dstR t
  let nm := srcR.getLastD ""
  let candAt : Nat → AbsPath := fun i =>
    if i = 0 then joinUnder dstR nm else joinUnder dstR (nm ++ "_" ++ natRepr i)
  let finalPath :=
    if ensureUnique then
      candAt (probeIdx (fun i => fs1.existsP (candAt i)) (fs1.entries.length + 1) 0)
    else candAt 0
  (shutilMove fs1 srcR finalPath, finalPath)

/-! ## `build_unmanaged_exclude_paths` (source lines 145-178) -/

/-- The per-pass exclusion set: configured names under the watch dir, the
top segment of every rule destination that resolves under the watch dir
(failures contribute nothing), and the resolved archive root. -/
def build_unmanaged_exclude_paths (cfg : Config) (env : List (String × String))
    (cwd : AbsPath) (now : DT) (wd : AbsPath) : List AbsPath :=
  let a := cfg.unmanaged_dirs_exclude.map (fun n => joinUnder wd n)
  let b := cfg.rules.filterMap (fun r =>
    if r.to_dir = "" then none
    else
      let p := resolveP cwd (expand_path env r.to_dir now)
      if preB wd p then
        match p.drop wd.length with
        | [] => none
        | t :: _ => some (wd ++ [t])
      else none)
  let c := [resolveP cwd (expand_path env (cfg.unmanaged_dir_target.getD defaultUnmanagedTarget) now)]
  a ++ b ++ c

/-- `_skip_by_excludes(dr)`: `dr` equals, is a proper ancestor of, or is a
proper descendant of, some excluded path. -/
def skipByExcludes (excl : List AbsPath) (dR : AbsPath) : Bool :=
  excl.any (fun ep => dR = ep || strictPreB dR ep || strictPreB ep dR)

/-! ## `process_once` (source lines 181-251) -/

/-- Observable actions of one pass. -/
inductive Event
  | listDir (p : AbsPath)
  | movedFile (srcR : AbsPath) (dstDirR : AbsPath) (desired : String) (finalR : AbsPath)
  | marked (dR : AbsPath)
  | movedDir (srcR : AbsPath) (finalR : AbsPath)
deriving DecidableEq, Repr

/-- Pass state: filesystem, processed count, event trace. -/
abbrev PassSt := FS × Nat × List Event

/-- The body of the file loop (source lines 196-211) for one listing entry. -/
def filePhaseStep (cfg : Config) (env : List (String × String)) (cwd : AbsPath)
    (guess : String → Option String) (now : DT) (tnow : Int) (wR : AbsPath)
    (dry : Bool) (st : PassSt) (n : String) : PassSt :=
  let fs := st.1
  let pR := wR ++ [n]
  if !(is_candidate_file_core (fs.isFile pR) n cfg.min_age_sec cfg.ignore_ext
        cfg.ignore_names (fs.mtimeOf pR) tnow) then st
  else
    match match_rule guess n cfg.rules with
    | none => st
    | some r =>
      let outDir := expand_path env r.to_dir now
      let nm := build_target_name n r now 0
      if dry then (fs, st.2.1 + 1, st.2.2)
      else
        let mv := move_with_unique fs cwd pR outDir nm r.ensure_unique tnow
        let fs2 := mark_managed_dir mv.1 (resolveP cwd outDir) cfg.managed_marker tnow
        (fs2, st.2.1 + 1,
          st.2.2 ++ [Event.movedFile pR (resolveP cwd outDir) nm mv.2,
                     Event.marked (resolveP cwd outDir)])

/-- The body of the directory loop (source lines 230-249) for one entry. -/
def dirPhaseStep (cfg : Config) (cwd : AbsPath) (tnow : Int) (wd : AbsPath)
    (excl : List AbsPath) (targetRoot : PyPath) (dry : Bool) (st : PassSt) (n : String) : PassSt :=
  let fs := st.1
  let dR := wd ++ [n]
  if !(is_candidate_dir_core (fs.isDir dR) cfg.min_age_sec (fs.mtimeOf dR) tnow) then st
  else if cfg.ignore_names.contains n then st
  else if startsWithStr n "." then st
  else if is_managed_dir fs dR cfg.managed_marker then st
  else if skipByExcludes excl dR then st
  else if dry then (fs, st.2.1 + 1, st.2.2)
  else
    let mv := move_dir_with_unique fs cwd dR targetRoot tnow true
    (mv.1, st.2.1 + 1, st.2.2 ++ [Event.movedDir dR mv.2])

/-- `process_once(cfg, dry)`: validate the watch directory, run the file
phase over its sorted listing, then (when enabled) recompute exclusions and
run the directory sweep over a fresh sorted listing. -/
def process_once (cfg : Config) (env : List (String × String)) (cwd : AbsPath)
    (guess : String → Option String) (now : DT) (tnow : Int) (fs : FS) (dry : Bool) : PassSt :=
  let watch := expand_path env cfg.watch_dir now
  let wR := resolveP cwd watch
  if !fs.existsP wR then (fs, 0, [])
  else
    let names := fs.childNames wR
    let st1 := names.foldl (filePhaseStep cfg env cwd guess now tnow wR dry)
      (fs, 0, [Event.listDir wR])
    if cfg.collect_unmanaged_dirs then
      let excl := build_unmanaged_exclude_paths cfg env cwd now wR
      let targetRoot := expand_path env (cfg.unmanaged_dir_target.getD defaultUnmanagedTarget) now
      let names2 := st1.1.childNames wR
      names2.foldl (dirPhaseStep cfg cwd tnow wR excl targetRoot dry)
        (st1.1, st1.2.1, st1.2.2 ++ [Event.listDir wR])
    else st1

/-! ## Claim-facing derived definitions -/

/-- Value of a digit list read least-significant-first. -/
def fromDigitsRev : List Nat → Nat
  | [] => 0
  | d :: rest => d + 10 * fromDigitsRev rest

/-- A rule accepts a file iff its extension set, a MIME prefix, a glob, or
the catch-all flag matches: the plain disjunction of `match_rule`'s four
per-rule predicates, given the already-computed extension and MIME type. -/
def ruleHitC (name ext : String) (mime : Option String) (r : Rule) : Bool :=
  (r.match_ext.map toLowerStr).contains ext ||
  (match mime with
   | some m => (r.match_mime.map toLowerStr).any (fun q => startsWithStr (toLowerStr m) q)
   | none => false) ||
  r.match_glob.any (fun g => fnmatchStr name g) ||
  r.match_all

/-- A rule accepts a file, with extension and MIME derived from its name as
`match_rule` derives them. -/
def ruleHit (guess : String → Option String) (name : String) (r : Rule) : Bool :=
  ruleHitC name (extOf name) (guess name) r

/-- `build_target_name` with the `{counter}` replacement hard-wired to the
empty string. -/
def buildTargetNameZero (srcName : String) (rule : Rule) (dt : DT) : String :=
  let stem := pyStem srcName
  let ext := extOf srcName
  let repl := [("{stem}", stem), ("{ext}", ext), ("{date}", fmtDate dt),
               ("{time}", fmtTime dt), ("{counter}", "")]
  let nm0 := if rule.rename = "" then "{stem}" else rule.rename
  let nm1 := repl.foldl (fun s kv => replaceAll kv.1 kv.2 s) nm0
  let nm2 := badChars.foldl (fun s c => replaceAll (String.singleton c) "_" s) nm1
  nm2 ++ (if ext ≠ "" then "." ++ ext else "")

/-- Number of directory-listing events in a trace. -/
def countListDir (tr : List Event) : Nat :=
  tr.countP (fun e => match e with | Event.listDir _ => true | _ => false)

/-- The desired (pre-disambiguation) target name carried by a file-move
event. -/
def eventDesired : Event → Option String
  | Event.movedFile _ _ d _ => some d
  | _ => none

/-- The declarative skip condition of the unmanaged-directory sweep for the
watch-directory entry `n`: fails the age/candidate check, ignored name,
hidden name, already marked managed, or related to an excluded path. -/
def dirSkipCond (cfg : Config) (fs : FS) (tnow : Int) (excl : List AbsPath)
    (wd : AbsPath) (n : String) : Bool :=
  !(is_candidate_dir_core (fs.isDir (wd ++ [n])) cfg.min_age_sec (fs.mtimeOf (wd ++ [n])) tnow) ||
  cfg.ignore_names.contains n ||
  startsWithStr n "." ||
  is_managed_dir fs (wd ++ [n]) cfg.managed_marker ||
  skipByExcludes excl (wd ++ [n])

/-- A valid single path segment: nonempty, not a dot link, and free of the
separator. -/
def validSeg (s : String) : Bool :=
  s ≠ "" && s ≠ "." && s ≠ ".." && !s.data.contains '/'

/-- Every entry path of the snapshot consists of valid segments (what holds
of any snapshot taken from a real filesystem). -/
def FS.wf (fs : FS) : Bool :=
  fs.entries.all (fun e => e.1.all validSeg)

/-- No rule destination resolves to, below, or above the watch directory:
the configured destinations live in an unrelated part of the tree. -/
def rulesAvoidWatch (cfg : Config) (env : List (String × String)) (cwd : AbsPath)
    (now : DT) (wR : AbsPath) : Bool :=
  cfg.rules.all (fun r =>
    !(preB wR (resolveP cwd (expand_path env r.to_dir now))) &&
    !(preB (resolveP cwd (expand_path env r.to_dir now)) wR))

/-- The managed-marker setting is a plain file name: one valid relative
path segment. -/
def markerIsName (cfg : Config) : Bool :=
  validSeg cfg.managed_marker

/-- Every target name the pass would build (for a listed source name and a
configured rule) is a valid single path segment. -/
def renamesOk (cfg : Config) (now : DT) (names : List String) : Bool :=
  names.all (fun n => cfg.rules.all (fun r => validSeg (build_target_name n r now 0)))

/-- The file-phase decision of one listing entry, evaluated against a fixed
snapshot: the candidate check passes and some rule matches. -/
def fileHit (cfg : Config) (guess : String → Option String) (tnow : Int)
    (fs : FS) (wR : AbsPath) (n : String) : Bool :=
  is_candidate_file_core (fs.isFile (wR ++ [n])) n cfg.min_age_sec cfg.ignore_ext
    cfg.ignore_names (fs.mtimeOf (wR ++ [n])) tnow &&
  (match_rule guess n cfg.rules).isSome

/-- The directory-phase decision of one listing entry, evaluated against a
fixed snapshot: the candidate check passes and none of the skip tests fires. -/
def dirHit (cfg : Config) (tnow : Int) (excl : List AbsPath) (fs : FS)
    (wR : AbsPath) (n : String) : Bool :=
  is_candidate_dir_core (fs.isDir (wR ++ [n])) cfg.min_age_sec
    (fs.mtimeOf (wR ++ [n])) tnow &&
  !(cfg.ignore_names.contains n) && !(startsWithStr n ".") &&
  !(is_managed_dir fs (wR ++ [n]) cfg.managed_marker) &&
  !(skipByExcludes excl (wR ++ [n]))

/-- Whether a string contains a recognized destination-path placeholder. -/
def hasPathPlaceholder (s : String) : Bool :=
  ["{YYYY}", "{MM}", "{DD}", "{date}", "{time}"].any (fun k => hasSub k s)

/-- Invariant of the real file phase: below the watch directory, `g` agrees
with the pass's starting snapshot `base` except that the subtrees of the
already-moved entries `M` are gone. -/
def fsAgreeOutside (base : FS) (wR : AbsPath) (M : List String) (g : FS) : Prop :=
  ∀ q : AbsPath, wR <+: q → q ≠ wR →
    ((∃ m ∈ M, (wR ++ [m]) <+: q) → g.lookup q = none) ∧
    ((∀ m ∈ M, ¬ (wR ++ [m]) <+: q) → g.lookup q = base.lookup q)

/-- Invariant of the real directory phase: for every not-yet-processed,
non-excluded entry, the two filesystem reads its decision makes are
unchanged from the phase's starting snapshot `base`. -/
def dirReadsAgree (base : FS) (wR : AbsPath) (mk : String) (excl : List AbsPath)
    (M : List String) (g : FS) : Prop :=
  ∀ n, n ∉ M → skipByExcludes excl (wR ++ [n]) = false →
    g.lookup (wR ++ [n]) = base.lookup (wR ++ [n]) ∧
    g.lookup ((wR ++ [n]) ++ [mk]) = base.lookup ((wR ++ [n]) ++ [mk])

/-! # Lemmas and claim theorems -/

theorem asString_data (s : String) : s.data.asString = s := by
  cases s
  rfl

theorem preCharB_iff (a : List Char) : ∀ b, preCharB a b = true ↔ a <+: b := by
  induction a with
  | nil =>
    intro b
    simp [preCharB]
  | cons x xs ih =>
    intro b
    cases b with
    | nil =>
      simp [preCharB]
    | cons y ys =>
      by_cases h : x = y
      · subst h
        simp [preCharB, ih, List.cons_prefix_cons]
      · simp [preCharB, h, List.cons_prefix_cons]

theorem preCharB_append (a t : List Char) : preCharB a (a ++ t) = true :=
  (preCharB_iff a (a ++ t)).mpr (List.prefix_append a t)

/-- C9: a file that vanishes between the directory listing and the `stat`
call (the `stat` observation is `none`) is not a candidate; the decision is
a total boolean function, so no error propagates. -/
theorem vanished_file_not_candidate (isFile : Bool) (name : String) (ma : Int)
    (ie inn : List String) (tnow : Int) :
    is_candidate_file_core isFile name ma ie inn none tnow = false := by
  unfold is_candidate_file_core
  repeat' split
  all_goals simp_all

/-- C7 counterexample: a dot-named file — here the managed-marker sentinel
name itself — that is a regular file, old enough, and not in the ignore
lists, is accepted by the file-eligibility check, so the claimed dotfile
exclusion does not exist for files. -/
theorem dotfile_accepted_cex :
    is_candidate_file_core true ".dorg_managed" 10 [] [] (some 0) 100 = true := by decide

/-- C7 (amended): the file-eligibility decision is exactly the conjunction
of the regular-file check, the ignore-names check, the ignore-extension
suffix check, and the age threshold; it applies no dotfile or marker
exclusion (that exclusion exists only in the directory sweep). -/
theorem is_candidate_file_characterization (isFile : Bool) (name : String) (ma : Int)
    (ie inn : List String) (mt : Option Int) (tnow : Int) :
    is_candidate_file_core isFile name ma ie inn mt tnow =
      (isFile && !inn.contains name &&
        !(ie.any (fun x => endsWithStr (toLowerStr name) (toLowerStr x))) &&
        (mt.map (fun m => decide (tnow - m ≥ ma))).getD false) := by
  unfold is_candidate_file_core
  cases isFile <;> cases mt <;>
    by_cases h1 : inn.contains name <;>
      by_cases h2 : ie.any (fun x => endsWithStr (toLowerStr name) (toLowerStr x)) <;>
        simp [h1, h2]

theorem guard_and_contains (l : List String) (x : String) :
    (!l.isEmpty && l.contains x) = l.contains x := by
  cases l <;> simp

theorem guard_and_match (l : List String) (o : Option String) (g : String → String → Bool) :
    (!l.isEmpty &&
      (match o with
       | some m => l.any (g m)
       | none => false)) =
      (match o with
       | some m => l.any (g m)
       | none => false) := by
  cases l <;> cases o <;> simp

theorem ifChainFour {α : Type} (a b c d : Bool) (x y : α) :
    (if a then x else if b then x else if c then x else if d then x else y) =
      (if ((a || b) || c) || d then x else y) := by
  cases a <;> cases b <;> cases c <;> cases d <;> rfl

theorem matchRuleGo_cons (name ext : String) (mime : Option String) (r : Rule) (rs : List Rule) :
    matchRuleGo name ext mime (r :: rs) =
      if ruleHitC name ext mime r then some r else matchRuleGo name ext mime rs := by
  simp only [matchRuleGo, ruleHitC,
    guard_and_contains (r.match_ext.map toLowerStr) ext,
    guard_and_match (r.match_mime.map toLowerStr) mime
      (fun m q => startsWithStr (toLowerStr m) q)]
  exact ifChainFour _ _ _ _ _ _

/-- C1: rule matching returns the first rule (in configured list order) for
which any of the four match predicates — extension set, MIME prefix, glob,
catch-all — succeeds; an earlier rule always beats a later one, and the
search stops at that first accepting rule (`List.find?` semantics). -/
theorem match_rule_first_hit (guess : String → Option String) (name : String) (rules : List Rule) :
    match_rule guess name rules = rules.find? (ruleHit guess name) := by
  unfold match_rule
  induction rules with
  | nil => rfl
  | cons r rs ih =>
    rw [matchRuleGo_cons, ih]
    by_cases h : ruleHit guess name r = true
    · rw [List.find?_cons_of_pos _ h]
      exact if_pos h
    · rw [List.find?_cons_of_neg _ (by simpa using h)]
      exact if_neg h

/-! ## Replacement lemmas -/

theorem dataAppend (s t : String) : (s ++ t).data = s.data ++ t.data := by
  cases s
  cases t
  rfl

theorem endsWithStr_append (x t : String) : endsWithStr (x ++ t) t = true := by
  unfold endsWithStr
  rw [dataAppend, List.reverse_append]
  exact preCharB_append _ _

theorem replaceGo_single (b r : Char) :
    ∀ (fuel : Nat) (l : List Char), l.length ≤ fuel →
      replaceGo [b] [r] fuel l = l.map (fun c => if c = b then r else c) := by
  intro fuel
  induction fuel with
  | zero =>
    intro l hl
    rw [Nat.le_zero] at hl
    rw [List.length_eq_zero] at hl
    subst hl
    rfl
  | succ f ih =>
    intro l hl
    cases l with
    | nil => rfl
    | cons c rest =>
      simp only [List.length_cons, Nat.succ_le_succ_iff] at hl
      by_cases h : b = c
      · subst h
        simp [replaceGo, preCharB, ih rest hl]
      · simp [replaceGo, preCharB, h, Ne.symm h, ih rest hl]

theorem replaceAll_singleton_data (c r : Char) (s : String) :
    (replaceAll (String.singleton c) (String.singleton r) s).data =
      s.data.map (fun ch => if ch = c then r else ch) := by
  unfold replaceAll
  have hne : (String.singleton c).data = [c] := rfl
  rw [hne]
  simp only [reduceCtorEq, if_neg]
  show (replaceGo [c] [r] s.data.length s.data).asString.data = _
  rw [replaceGo_single c r s.data.length s.data (le_refl _)]
  rfl

theorem foldl_sanitize_data (cs : List Char) :
    ∀ s : String,
      (cs.foldl (fun t c => replaceAll (String.singleton c) "_" t) s).data =
        s.data.map (fun ch => if ch ∈ cs then '_' else ch) := by
  induction cs with
  | nil =>
    intro s
    simp
  | cons c cs' ih =>
    intro s
    have h1 : (replaceAll (String.singleton c) "_" s).data =
        s.data.map (fun ch => if ch = c then '_' else ch) :=
      replaceAll_singleton_data c '_' s
    simp only [List.foldl_cons]
    rw [ih (replaceAll (String.singleton c) "_" s)]
    rw [h1, List.map_map]
    apply List.map_congr_left
    intro ch _
    by_cases hc : ch = c
    · subst hc
      by_cases hm : ch ∈ cs' <;> simp [hm]
    · by_cases hm : ch ∈ cs' <;> simp [hc, hm]

/-- C3 counterexample: for source name `x.a*b` (legal on a POSIX
filesystem) with the default rename template, the built target name is
`x.a*b`: it contains `*`, one of the characters the claim says never
appears, because the unconditionally appended source extension is not
sanitised. -/
theorem build_target_name_badchar_cex :
    build_target_name "x.a*b" {} ⟨2026, 10, 12, 3, 4, 5⟩ 0 = "x.a*b" ∧
      '*' ∈ (build_target_name "x.a*b" {} ⟨2026, 10, 12, 3, 4, 5⟩ 0).data ∧
      '*' ∈ badChars := by decide

/-- C3 (amended): the expanded target name always ends in `.<ext>` when the
source extension is nonempty, and the part before the appended extension is
sanitised, so the result contains no forbidden character provided the
source extension itself contains none (the appended extension is not
sanitised). -/
theorem build_target_name_shape (srcName : String) (rule : Rule) (dt : DT) (counter : Nat) :
    (extOf srcName ≠ "" →
      endsWithStr (build_target_name srcName rule dt counter) ("." ++ extOf srcName) = true) ∧
    ((∀ c ∈ badChars, c ∉ (extOf srcName).data) →
      ∀ c ∈ badChars, c ∉ (build_target_name srcName rule dt counter).data) := by
  constructor
  · intro hext
    unfold build_target_name
    simp only [if_pos hext]
    exact endsWithStr_append _ _
  · intro hextOk c hc
    unfold build_target_name
    simp only [dataAppend]
    intro hmem
    rcases List.mem_append.mp hmem with hmem | hmem
    · rw [foldl_sanitize_data] at hmem
      rcases List.mem_map.mp hmem with ⟨ch, _, hch⟩
      by_cases hb : ch ∈ badChars
      · rw [if_pos hb] at hch
        subst hch
        have : ('_' : Char) ∉ badChars := by decide
        exact this hc
      · rw [if_neg hb] at hch
        subst hch
        exact hb hc
    · by_cases hext : extOf srcName ≠ ""
      · rw [if_pos hext, dataAppend] at hmem
        rcases List.mem_append.mp hmem with hdot | hmem
        · have hdotOnly : ("." : String).data = ['.'] := rfl
          rw [hdotOnly] at hdot
          have hcne : c ≠ '.' := by
            have hall : ∀ x ∈ badChars, x ≠ '.' := by decide
            exact hall c hc
          simp only [List.mem_singleton] at hdot
          exact hcne hdot
        · exact hextOk c hc hmem
      · rw [if_neg hext] at hmem
        simp at hmem

/-! ## Expansion-identity lemmas (for C6) -/

theorem replaceGo_not_sub (pat rep : List Char) :
    ∀ (fuel : Nat) (l : List Char), hasSubL pat l = false →
      replaceGo pat rep fuel l = l := by
  intro fuel
  induction fuel with
  | zero =>
    intro l _
    rfl
  | succ f ih =>
    intro l hl
    cases l with
    | nil => rfl
    | cons c rest =>
      simp only [hasSubL, Bool.or_eq_false_iff] at hl
      simp only [replaceGo, hl.1, Bool.false_eq_true, if_false]
      rw [ih rest hl.2]

theorem replaceAll_not_sub (pat rep s : String) (h : hasSub pat s = false) :
    replaceAll pat rep s = s := by
  unfold replaceAll
  by_cases hp : pat.data = []
  · rw [if_pos hp]
  · rw [if_neg hp]
    unfold hasSub at h
    rw [replaceGo_not_sub pat.data rep.data s.data.length s.data h]
    exact asString_data s

theorem expandVarsGo_no_dollar (env : List (String × String)) :
    ∀ (fuel : Nat) (l : List Char), '$' ∉ l → expandVarsGo env fuel l = l := by
  intro fuel
  induction fuel with
  | zero =>
    intro l _
    rfl
  | succ f ih =>
    intro l hl
    cases l with
    | nil => rfl
    | cons c rest =>
      have hc : ¬(c = '$') := fun he => hl (he ▸ List.mem_cons_self c rest)
      have hrest : '$' ∉ rest := fun hm => hl (List.mem_cons_of_mem c hm)
      simp only [expandVarsGo, if_neg hc]
      rw [ih rest hrest]

theorem expandUserL_not_tilde (env : List (String × String)) (l : List Char)
    (h : preCharB ['~'] l = false) : expandUserL env l = l := by
  cases l with
  | nil => rfl
  | cons c rest =>
    have hc : ¬(c = '~') := by
      intro hec
      rw [preCharB, if_pos hec.symm] at h
      simp [preCharB] at h
    simp only [expandUserL, if_neg hc]

/-- C6 counterexample: the input `~` contains no recognized placeholder,
yet path expansion — which also performs the home-directory expansion —
returns `/home/u`, not the input unchanged. -/
theorem expand_tilde_cex :
    hasPathPlaceholder "~" = false ∧
      expandPathStr [("HOME", "/home/u")] "~" ⟨2026, 1, 2, 3, 4, 5⟩ = "/home/u" ∧
      expandPathStr [("HOME", "/home/u")] "~" ⟨2026, 1, 2, 3, 4, 5⟩ ≠ "~" := by decide

/-- C6 (amended): path expansion returns an input unchanged — and is hence
idempotent on it — when it contains no recognized placeholder, no `$`
environment-variable reference, and no leading `~`; at a fixed timestamp
and environment the expansion is a pure function, hence deterministic. -/
theorem expandPathStr_unchanged (env : List (String × String)) (p : String) (dt : DT)
    (h1 : hasPathPlaceholder p = false)
    (h2 : '$' ∉ p.data)
    (h3 : startsWithStr p "~" = false) :
    expandPathStr env p dt = p ∧ expandPathStr env (expandPathStr env p dt) dt = p := by
  have hmain : expandPathStr env p dt = p := by
    simp only [hasPathPlaceholder, List.any_cons, List.any_nil, Bool.or_eq_false_iff] at h1
    unfold expandPathStr pathRepl
    simp only [List.foldl_cons, List.foldl_nil]
    rw [replaceAll_not_sub _ _ _ h1.1, replaceAll_not_sub _ _ _ h1.2.1,
      replaceAll_not_sub _ _ _ h1.2.2.1, replaceAll_not_sub _ _ _ h1.2.2.2.1,
      replaceAll_not_sub _ _ _ h1.2.2.2.2.1]
    show (expandUserL env (expandVarsL env p.data).asString.data).asString = p
    unfold expandVarsL
    rw [expandVarsGo_no_dollar env _ p.data h2]
    rw [show (p.data.asString).data = p.data from rfl]
    rw [expandUserL_not_tilde env p.data h3]
    exact asString_data p
  exact ⟨hmain, by rw [hmain, hmain]⟩

/-- C6 amended-claim witness: a plain relative path with no placeholders,
references, or leading `~` is returned unchanged, twice over. -/
theorem expandPathStr_unchanged_witness :
    expandPathStr [("HOME", "/h")] "plain/dir" ⟨2026, 10, 12, 3, 4, 5⟩ = "plain/dir" ∧
      expandPathStr [("HOME", "/h")]
        (expandPathStr [("HOME", "/h")] "plain/dir" ⟨2026, 10, 12, 3, 4, 5⟩)
        ⟨2026, 10, 12, 3, 4, 5⟩ = "plain/dir" :=
  expandPathStr_unchanged [("HOME", "/h")] "plain/dir" ⟨2026, 10, 12, 3, 4, 5⟩
    (by decide) (by decide) (by decide)

/-! ## Decimal-rendering injectivity (for C2) -/

theorem fromDigitsRev_digitsRev :
    ∀ (fuel n : Nat), n ≤ fuel → fromDigitsRev (digitsRev fuel n) = n := by
  intro fuel
  induction fuel with
  | zero =>
    intro n hn
    interval_cases n
    rfl
  | succ f ih =>
    intro n hn
    by_cases h0 : n = 0
    · subst h0
      rfl
    · have hdiv : n / 10 ≤ f := by
        have h1 : n / 10 < n := Nat.div_lt_self (Nat.pos_of_ne_zero h0) (by omega)
        omega
      simp only [digitsRev, if_neg h0, fromDigitsRev]
      rw [ih (n / 10) hdiv]
      omega

theorem digitsRev_lt_ten :
    ∀ (fuel n d : Nat), d ∈ digitsRev fuel n → d < 10 := by
  intro fuel
  induction fuel with
  | zero =>
    intro n d hd
    simp [digitsRev] at hd
  | succ f ih =>
    intro n d hd
    by_cases h0 : n = 0
    · subst h0
      simp [digitsRev] at hd
    · simp only [digitsRev, if_neg h0, List.mem_cons] at hd
      rcases hd with hd | hd
      · subst hd
        exact Nat.mod_lt n (by omega)
      · exact ih (n / 10) d hd

theorem digitChar_inj_lt (a b : Nat) (ha : a < 10) (hb : b < 10)
    (h : Nat.digitChar a = Nat.digitChar b) : a = b := by
  have key : ∀ x : Fin 10, ∀ y : Fin 10,
      Nat.digitChar x.val = Nat.digitChar y.val → x = y := by decide
  have := key ⟨a, ha⟩ ⟨b, hb⟩ h
  exact congrArg Fin.val this

theorem map_digitChar_inj :
    ∀ (l1 l2 : List Nat), (∀ d ∈ l1, d < 10) → (∀ d ∈ l2, d < 10) →
      l1.map Nat.digitChar = l2.map Nat.digitChar → l1 = l2 := by
  intro l1
  induction l1 with
  | nil =>
    intro l2 _ _ h
    cases l2 with
    | nil => rfl
    | cons b bs => simp at h
  | cons a as ih =>
    intro l2 h1 h2 h
    cases l2 with
    | nil => simp at h
    | cons b bs =>
      simp only [List.map_cons, List.cons.injEq] at h
      have ha := h1 a (List.mem_cons_self a as)
      have hb := h2 b (List.mem_cons_self b bs)
      have hab := digitChar_inj_lt a b ha hb h.1
      subst hab
      rw [ih bs (fun d hd => h1 d (List.mem_cons_of_mem a hd))
        (fun d hd => h2 d (List.mem_cons_of_mem a hd)) h.2]

theorem digitsRev_ne_nil (n : Nat) (h : n ≠ 0) : digitsRev n n ≠ [] := by
  cases n with
  | zero => exact absurd rfl h
  | succ m =>
    simp [digitsRev, h]

theorem natRepr_inj (m n : Nat) (h : natRepr m = natRepr n) : m = n := by
  unfold natRepr at h
  by_cases hm : m = 0 <;> by_cases hn : n = 0
  · omega
  · rw [if_pos hm, if_neg hn] at h
    have hd : ((digitsRev n n).map Nat.digitChar).reverse = ['0'] :=
      (congrArg String.data h).symm
    have h0 : fromDigitsRev (digitsRev n n) = n := fromDigitsRev_digitsRev n n (le_refl n)
    have hmap : (digitsRev n n).map Nat.digitChar = ['0'] := by
      have h2 := List.reverse_eq_iff.mp hd
      simpa using h2
    have hlist : digitsRev n n = [0] :=
      map_digitChar_inj (digitsRev n n) [0]
        (fun d hd => digitsRev_lt_ten n n d hd) (by simp) (by simpa using hmap)
    rw [hlist] at h0
    simp [fromDigitsRev] at h0
    omega
  · rw [if_neg hm, if_pos hn] at h
    have hd : ((digitsRev m m).map Nat.digitChar).reverse = ['0'] :=
      congrArg String.data h
    have h0 : fromDigitsRev (digitsRev m m) = m := fromDigitsRev_digitsRev m m (le_refl m)
    have hmap : (digitsRev m m).map Nat.digitChar = ['0'] := by
      have h2 := List.reverse_eq_iff.mp hd
      simpa using h2
    have hlist : digitsRev m m = [0] :=
      map_digitChar_inj (digitsRev m m) [0]
        (fun d hd => digitsRev_lt_ten m m d hd) (by simp) (by simpa using hmap)
    rw [hlist] at h0
    simp [fromDigitsRev] at h0
    omega
  · rw [if_neg hm, if_neg hn] at h
    have hd : ((digitsRev m m).map Nat.digitChar).reverse =
        ((digitsRev n n).map Nat.digitChar).reverse := congrArg String.data h
    have hmap : (digitsRev m m).map Nat.digitChar = (digitsRev n n).map Nat.digitChar :=
      List.reverse_injective hd
    have hlist : digitsRev m m = digitsRev n n :=
      map_digitChar_inj _ _ (fun d hd => digitsRev_lt_ten m m d hd)
        (fun d hd => digitsRev_lt_ten n n d hd) hmap
    have h1 : fromDigitsRev (digitsRev m m) = m := fromDigitsRev_digitsRev m m (le_refl m)
    have h2 : fromDigitsRev (digitsRev n n) = n := fromDigitsRev_digitsRev n n (le_refl n)
    rw [hlist, h2] at h1
    omega

theorem natRepr_ne_empty (n : Nat) : natRepr n ≠ "" := by
  unfold natRepr
  by_cases h : n = 0
  · rw [if_pos h]
    decide
  · rw [if_neg h]
    intro he
    have := congrArg String.data he
    simp only [show ("" : String).data = [] from rfl] at this
    have hne := digitsRev_ne_nil n h
    have : (digitsRev n n).map Nat.digitChar = [] := by
      have h2 := this
      rw [show (((digitsRev n n).map Nat.digitChar).reverse).asString.data =
        ((digitsRev n n).map Nat.digitChar).reverse from rfl] at h2
      rw [List.reverse_eq_nil_iff] at h2
      exact h2
    simp only [List.map_eq_nil_iff] at this
    exact hne this

theorem natRepr_chars (n : Nat) (c : Char) (hc : c ∈ (natRepr n).data) :
    c ∈ ['0', '1', '2', '3', '4', '5', '6', '7', '8', '9'] := by
  unfold natRepr at hc
  by_cases h : n = 0
  · rw [if_pos h] at hc
    simp at hc
    simp [hc]
  · rw [if_neg h] at hc
    rw [show (((digitsRev n n).map Nat.digitChar).reverse).asString.data =
      ((digitsRev n n).map Nat.digitChar).reverse from rfl] at hc
    rw [List.mem_reverse] at hc
    rcases List.mem_map.mp hc with ⟨d, hd, hdc⟩
    have hlt := digitsRev_lt_ten n n d hd
    have key : ∀ x : Fin 10,
        Nat.digitChar x.val ∈ ['0', '1', '2', '3', '4', '5', '6', '7', '8', '9'] := by decide
    have := key ⟨d, hlt⟩
    rw [hdc] at this
    exact this

/-- C3 amended-claim witness at a concrete input: `We<ird.TXT` with a
date-stamping rename template ends in `.txt` and contains no forbidden
character. -/
theorem build_target_name_shape_witness :
    endsWithStr (build_target_name "We<ird.TXT" { rename := "{stem}_{date}" } ⟨2026, 10, 12, 3, 4, 5⟩ 0)
      ("." ++ extOf "We<ird.TXT") = true ∧
    ∀ c ∈ badChars,
      c ∉ (build_target_name "We<ird.TXT" { rename := "{stem}_{date}" } ⟨2026, 10, 12, 3, 4, 5⟩ 0).data :=
  ⟨(build_target_name_shape "We<ird.TXT" { rename := "{stem}_{date}" } ⟨2026, 10, 12, 3, 4, 5⟩ 0).1
      (by decide),
   (build_target_name_shape "We<ird.TXT" { rename := "{stem}_{date}" } ⟨2026, 10, 12, 3, 4, 5⟩ 0).2
      (by decide)⟩

/-! ## Path-normalisation and single-segment lemmas -/

theorem str_ext (s t : String) (h : s.data = t.data) : s = t := by
  cases s
  cases t
  exact congrArg String.mk h

theorem str_data_ne_nil (s : String) (h : s ≠ "") : s.data ≠ [] := by
  intro hd
  exact h (str_ext s "" hd)

theorem foldl_norm_no_dotdot :
    ∀ (l acc : List String), ".." ∉ l →
      l.foldl (fun acc c => if c = ".." then acc.dropLast else acc ++ [c]) acc = acc ++ l := by
  intro l
  induction l with
  | nil =>
    intro acc _
    simp
  | cons c rest ih =>
    intro acc hl
    have hc : ¬(c = "..") := fun he => hl (he ▸ List.mem_cons_self c rest)
    simp only [List.foldl_cons, if_neg hc]
    rw [ih (acc ++ [c]) (fun hm => hl (List.mem_cons_of_mem c hm))]
    simp

theorem normalize_eq_self (l : List String) (h : ".." ∉ l) : normalize l = l := by
  unfold normalize
  rw [foldl_norm_no_dotdot l [] h]
  simp

theorem foldl_norm_no_dotdot_out :
    ∀ (l acc : List String), ".." ∉ acc →
      ".." ∉ l.foldl (fun acc c => if c = ".." then acc.dropLast else acc ++ [c]) acc := by
  intro l
  induction l with
  | nil =>
    intro acc hacc
    simpa using hacc
  | cons c rest ih =>
    intro acc hacc
    simp only [List.foldl_cons]
    by_cases hc : c = ".."
    · rw [if_pos hc]
      exact ih _ (fun hm => hacc ((List.dropLast_sublist acc).mem hm))
    · rw [if_neg hc]
      refine ih _ (fun hm => ?_)
      rcases List.mem_append.mp hm with hm | hm
      · exact hacc hm
      · simp at hm
        exact hc hm.symm

theorem normalize_no_dotdot (l : List String) : ".." ∉ normalize l :=
  foldl_norm_no_dotdot_out l [] (by simp)

theorem normalize_idem (l : List String) : normalize (normalize l) = normalize l :=
  normalize_eq_self _ (normalize_no_dotdot l)

theorem normalize_append_single (l : List String) (x : String) (hx : x ≠ "..") :
    normalize (l ++ [x]) = normalize l ++ [x] := by
  unfold normalize
  rw [List.foldl_append]
  simp [hx]

theorem resolveP_normalized (cwd : AbsPath) (p : PyPath) :
    normalize (resolveP cwd p) = resolveP cwd p := by
  unfold resolveP
  exact normalize_idem _

theorem splitCharGo_no_sep (sep : Char) :
    ∀ (l acc : List Char), sep ∉ l →
      splitCharGo sep acc l = [(acc.reverse ++ l).asString] := by
  intro l
  induction l with
  | nil =>
    intro acc _
    simp [splitCharGo]
  | cons c rest ih =>
    intro acc hl
    have hc : ¬(c = sep) := fun he => hl (he ▸ List.mem_cons_self c rest)
    simp only [splitCharGo, if_neg hc]
    rw [ih (c :: acc) (fun hm => hl (List.mem_cons_of_mem c hm))]
    simp

theorem parsePath_simple (s : String) (h1 : '/' ∉ s.data) (h2 : s ≠ "") (h3 : s ≠ ".") :
    parsePath s = ⟨false, [s]⟩ := by
  unfold parsePath splitChar
  rw [splitCharGo_no_sep '/' s.data [] h1]
  have habs : startsWithStr s "/" = false := by
    unfold startsWithStr
    cases hd : s.data with
    | nil => exact absurd hd (str_data_ne_nil s h2)
    | cons c rest =>
      have hc : ¬('/' = c) := by
        intro he
        exact h1 (hd ▸ he ▸ List.mem_cons_self c rest)
      simp [preCharB, hc]
  rw [habs]
  simp only [List.reverse_nil, List.nil_append, asString_data]
  simp [List.filter, h2, h3]

theorem joinUnder_single (d : AbsPath) (hd : normalize d = d) (s : String)
    (h1 : '/' ∉ s.data) (h2 : s ≠ "") (h3 : s ≠ ".") (h4 : s ≠ "..") :
    joinUnder d s = d ++ [s] := by
  unfold joinUnder
  rw [parsePath_simple s h1 h2 h3]
  simp only [Bool.false_eq_true, if_false]
  rw [normalize_append_single d s h4, hd]

theorem sfxName_data (st ex : String) (i : Nat) :
    (sfxName st ex i).data = st.data ++ '_' :: ((natRepr i).data ++ ex.data) := by
  unfold sfxName
  rw [dataAppend, dataAppend, dataAppend]
  simp [show ("_" : String).data = ['_'] from rfl]

theorem sfxName_inj (st ex : String) (i j : Nat) (h : sfxName st ex i = sfxName st ex j) :
    i = j := by
  have hd := congrArg String.data h
  rw [sfxName_data, sfxName_data] at hd
  have h1 := List.append_cancel_left hd
  simp only [List.cons.injEq, true_and] at h1
  have h2 := List.append_cancel_right h1
  exact natRepr_inj i j (str_ext _ _ h2)

theorem sfxName_ne_plain (st ex : String) (i : Nat) : sfxName st ex i ≠ st ++ ex := by
  intro h
  have hd := congrArg (fun s => s.data.length) h
  simp only [sfxName_data, dataAppend, List.length_append, List.length_cons] at hd
  omega

theorem sfxName_chars (st ex : String) (i : Nat) (c : Char)
    (hc : c ∈ (sfxName st ex i).data) :
    c ∈ st.data ∨ c = '_' ∨ c ∈ (natRepr i).data ∨ c ∈ ex.data := by
  rw [sfxName_data] at hc
  rcases List.mem_append.mp hc with hc | hc
  · exact Or.inl hc
  · rcases List.mem_cons.mp hc with hc | hc
    · exact Or.inr (Or.inl hc)
    · rcases List.mem_append.mp hc with hc | hc
      · exact Or.inr (Or.inr (Or.inl hc))
      · exact Or.inr (Or.inr (Or.inr hc))

theorem sfxName_has_underscore (st ex : String) (i : Nat) :
    '_' ∈ (sfxName st ex i).data := by
  rw [sfxName_data]
  simp

theorem probeIdx_spec (taken : Nat → Bool) :
    ∀ (fuel start : Nat),
      (∃ j, start ≤ j ∧ j < start + fuel ∧ taken j = false) →
      taken (probeIdx taken fuel start) = false ∧
      start ≤ probeIdx taken fuel start ∧
      ∀ j, start ≤ j → j < probeIdx taken fuel start → taken j = true := by
  intro fuel
  induction fuel with
  | zero =>
    intro start hex
    rcases hex with ⟨j, hj1, hj2, _⟩
    omega
  | succ f ih =>
    intro start hex
    by_cases ht : taken start = true
    · rcases hex with ⟨j, hj1, hj2, hj3⟩
      have hjne : j ≠ start := by
        intro he
        rw [he, ht] at hj3
        cases hj3
      have hex' : ∃ j, start + 1 ≤ j ∧ j < start + 1 + f ∧ taken j = false :=
        ⟨j, by omega, by omega, hj3⟩
      obtain ⟨ha, hb, hc⟩ := ih (start + 1) hex'
      have hres : probeIdx taken (f + 1) start = probeIdx taken f (start + 1) := by
        simp [probeIdx, ht]
      rw [hres]
      refine ⟨ha, by omega, fun k hk1 hk2 => ?_⟩
      by_cases hks : k = start
      · rw [hks]
        exact ht
      · exact hc k (by omega) hk2
    · have ht' : taken start = false := by
        cases h : taken start
        · rfl
        · exact absurd h ht
      have hres : probeIdx taken (f + 1) start = start := by
        simp [probeIdx, ht']
      rw [hres]
      exact ⟨ht', le_refl _, fun k hk1 hk2 => by omega⟩

theorem existsP_iff (fs : FS) (p : AbsPath) :
    fs.existsP p = true ↔ p ∈ fs.entries.map Prod.fst := by
  unfold FS.existsP FS.lookup
  constructor
  · intro h
    have hs : (fs.entries.find? (fun e => e.1 == p)).isSome = true := by
      cases hf : fs.entries.find? (fun e => e.1 == p) with
      | none => rw [hf] at h; simp at h
      | some e => rfl
    rw [List.find?_isSome] at hs
    rcases hs with ⟨e, he, hp⟩
    rw [List.mem_map]
    exact ⟨e, he, by simpa using hp⟩
  · intro h
    rcases List.mem_map.mp h with ⟨e, he, hp⟩
    have hs : (fs.entries.find? (fun e => e.1 == p)).isSome = true :=
      List.find?_isSome.mpr ⟨e, he, by simp [hp]⟩
    cases hf : fs.entries.find? (fun e => e.1 == p) with
    | none => rw [hf] at hs; simp at hs
    | some e2 => simp [hf]

theorem existsP_false_of_not_mem (fs : FS) (p : AbsPath)
    (h : p ∉ fs.entries.map Prod.fst) : fs.existsP p = false := by
  cases he : fs.existsP p
  · rfl
  · exact absurd ((existsP_iff fs p).mp he) h

theorem exists_skip_index (keys : List AbsPath) (cand : Nat → AbsPath)
    (hinj : ∀ i j, cand i = cand j → i = j) :
    ∃ k, k ≤ keys.length ∧ cand k ∉ keys := by
  by_contra hcon
  push_neg at hcon
  have hsub : ((List.range (keys.length + 1)).map cand) ⊆ keys := by
    intro x hx
    rcases List.mem_map.mp hx with ⟨i, hi, rfl⟩
    exact hcon i (Nat.lt_succ_iff.mp (List.mem_range.mp hi))
  have hnd : ((List.range (keys.length + 1)).map cand).Nodup :=
    List.Nodup.map_on (fun i _ j _ hij => hinj i j hij) (List.nodup_range _)
  have h1 : ((List.range (keys.length + 1)).map cand).toFinset.card = keys.length + 1 := by
    rw [List.toFinset_card_of_nodup hnd]
    simp
  have h2 : ((List.range (keys.length + 1)).map cand).toFinset ⊆ keys.toFinset := by
    intro x hx
    rw [List.mem_toFinset] at hx ⊢
    exact hsub hx
  have h3 := Finset.card_le_card h2
  have h4 := keys.toFinset_card_le
  omega

theorem splitextPy_concat (s : String) :
    (splitextPy s).1 ++ (splitextPy s).2 = s := by
  unfold splitextPy
  cases h : lastDotIdx s.data with
  | none =>
    simp only
    apply str_ext
    rw [dataAppend]
    simp
  | some i =>
    by_cases hcond : (s.data.take i).any (· ≠ '.')
    · simp only [if_pos hcond]
      apply str_ext
      rw [dataAppend]
      show s.data.take i ++ s.data.drop i = s.data
      exact List.take_append_drop i s.data
    · simp only [if_neg hcond]
      apply str_ext
      rw [dataAppend]
      simp

theorem splitextPy_some (s : String) (i : Nat) (h : lastDotIdx s.data = some i) :
    splitextPy s =
      if (s.data.take i).any (· ≠ '.') then
        ((s.data.take i).asString, (s.data.drop i).asString)
      else (s, "") := by
  unfold splitextPy
  rw [h]

theorem splitextPy_none (s : String) (h : lastDotIdx s.data = none) :
    splitextPy s = (s, "") := by
  unfold splitextPy
  rw [h]

theorem splitextPy_chars_1 (s : String) (c : Char) (hc : c ∈ (splitextPy s).1.data) :
    c ∈ s.data := by
  cases h : lastDotIdx s.data with
  | none =>
    rw [splitextPy_none s h] at hc
    exact hc
  | some i =>
    rw [splitextPy_some s i h] at hc
    by_cases hcond : (s.data.take i).any (· ≠ '.')
    · rw [if_pos hcond] at hc
      exact List.take_subset i s.data hc
    · rw [if_neg hcond] at hc
      exact hc

theorem splitextPy_chars_2 (s : String) (c : Char) (hc : c ∈ (splitextPy s).2.data) :
    c ∈ s.data := by
  cases h : lastDotIdx s.data with
  | none =>
    rw [splitextPy_none s h] at hc
    simp at hc
  | some i =>
    rw [splitextPy_some s i h] at hc
    by_cases hcond : (s.data.take i).any (· ≠ '.')
    · rw [if_pos hcond] at hc
      exact List.drop_subset i s.data hc
    · rw [if_neg hcond] at hc
      simp at hc

/-- C2: `move_with_unique` with `ensure_unique` never overwrites: the final
path does not exist at probe time; when the desired name is free it is used
with no suffix; otherwise the final name carries the smallest unused
numeric suffix `_k` with `k ≥ 1` (inserted before the extension), every
smaller suffix from 1 up being taken — for any number of pre-existing
collisions in the snapshot. -/
theorem move_with_unique_no_overwrite (fs : FS) (cwd srcR : AbsPath) (dstDir : PyPath)
    (name : String) (t : Int)
    (h1 : '/' ∉ name.data) (h2 : name ≠ "") (h3 : name ≠ ".") (h4 : name ≠ "..") :
    ((fs.mkdirParents (resolveP cwd dstDir) t).existsP
        (move_with_unique fs cwd srcR dstDir name true t).2 = false) ∧
    ((fs.mkdirParents (resolveP cwd dstDir) t).existsP (resolveP cwd dstDir ++ [name]) = false →
      (move_with_unique fs cwd srcR dstDir name true t).2 = resolveP cwd dstDir ++ [name]) ∧
    ((fs.mkdirParents (resolveP cwd dstDir) t).existsP (resolveP cwd dstDir ++ [name]) = true →
      ∃ k, 1 ≤ k ∧
        (move_with_unique fs cwd srcR dstDir name true t).2 =
          resolveP cwd dstDir ++ [sfxName (splitextPy name).1 (splitextPy name).2 k] ∧
        (fs.mkdirParents (resolveP cwd dstDir) t).existsP
          (resolveP cwd dstDir ++ [sfxName (splitextPy name).1 (splitextPy name).2 k]) = false ∧
        ∀ j, 1 ≤ j → j < k →
          (fs.mkdirParents (resolveP cwd dstDir) t).existsP
            (resolveP cwd dstDir ++ [sfxName (splitextPy name).1 (splitextPy name).2 j]) = true) := by
  have hD : normalize (resolveP cwd dstDir) = resolveP cwd dstDir :=
    resolveP_normalized cwd dstDir
  have hc0 : joinUnder (resolveP cwd dstDir) name = resolveP cwd dstDir ++ [name] :=
    joinUnder_single _ hD name h1 h2 h3 h4
  have hlast : (joinUnder (resolveP cwd dstDir) name).getLastD "" = name := by
    rw [hc0]
    exact List.getLastD_concat _ _ _
  have hst : (splitextPy ((joinUnder (resolveP cwd dstDir) name).getLastD "")).1 =
      (splitextPy name).1 := by rw [hlast]
  have hex : (splitextPy ((joinUnder (resolveP cwd dstDir) name).getLastD "")).2 =
      (splitextPy name).2 := by rw [hlast]
  have hconc : (splitextPy name).1 ++ (splitextPy name).2 = name := splitextPy_concat name
  have hsfx_simple : ∀ i : Nat,
      joinUnder (resolveP cwd dstDir) (sfxName (splitextPy name).1 (splitextPy name).2 i) =
        resolveP cwd dstDir ++ [sfxName (splitextPy name).1 (splitextPy name).2 i] := by
    intro i
    apply joinUnder_single _ hD
    · intro hmem
      rcases sfxName_chars _ _ i '/' hmem with hcc | hcc | hcc | hcc
      · exact h1 (splitextPy_chars_1 name '/' hcc)
      · exact absurd hcc (by decide)
      · have h9 := natRepr_chars i '/' hcc
        exact absurd h9 (by decide)
      · exact h1 (splitextPy_chars_2 name '/' hcc)
    · intro he
      have hu := sfxName_has_underscore (splitextPy name).1 (splitextPy name).2 i
      rw [he] at hu
      exact absurd hu (by decide)
    · intro he
      have hu := sfxName_has_underscore (splitextPy name).1 (splitextPy name).2 i
      rw [he] at hu
      exact absurd hu (by decide)
    · intro he
      have hu := sfxName_has_underscore (splitextPy name).1 (splitextPy name).2 i
      rw [he] at hu
      exact absurd hu (by decide)
  have hval : ∀ i : Nat,
      (if i = 0 then joinUnder (resolveP cwd dstDir) name
       else joinUnder (resolveP cwd dstDir) (sfxName (splitextPy name).1 (splitextPy name).2 i)) =
        resolveP cwd dstDir ++ [if i = 0 then name
          else sfxName (splitextPy name).1 (splitextPy name).2 i] := by
    intro i
    by_cases hi : i = 0
    · rw [if_pos hi, if_pos hi, hc0]
    · rw [if_neg hi, if_neg hi]
      exact hsfx_simple i
  have hnminj : ∀ i j : Nat,
      (if i = 0 then name else sfxName (splitextPy name).1 (splitextPy name).2 i) =
        (if j = 0 then name else sfxName (splitextPy name).1 (splitextPy name).2 j) →
      i = j := by
    intro i j hij
    by_cases hi : i = 0 <;> by_cases hj : j = 0
    · omega
    · rw [if_pos hi, if_neg hj] at hij
      exact absurd (hij.symm.trans hconc.symm) (sfxName_ne_plain _ _ j)
    · rw [if_neg hi, if_pos hj] at hij
      exact absurd (hij.trans hconc.symm) (sfxName_ne_plain _ _ i)
    · rw [if_neg hi, if_neg hj] at hij
      exact sfxName_inj _ _ i j hij
  -- the definitional shape of the unique-mode mover
  have hres2 : (move_with_unique fs cwd srcR dstDir name true t).2 =
      (if (probeIdx (fun i => (fs.mkdirParents (resolveP cwd dstDir) t).existsP
            (if i = 0 then joinUnder (resolveP cwd dstDir) name
             else joinUnder (resolveP cwd dstDir)
               (sfxName (splitextPy ((joinUnder (resolveP cwd dstDir) name).getLastD "")).1
                 (splitextPy ((joinUnder (resolveP cwd dstDir) name).getLastD "")).2 i)))
          ((fs.mkdirParents (resolveP cwd dstDir) t).entries.length + 1) 0) = 0
       then joinUnder (resolveP cwd dstDir) name
       else joinUnder (resolveP cwd dstDir)
         (sfxName (splitextPy ((joinUnder (resolveP cwd dstDir) name).getLastD "")).1
           (splitextPy ((joinUnder (resolveP cwd dstDir) name).getLastD "")).2
           (probeIdx (fun i => (fs.mkdirParents (resolveP cwd dstDir) t).existsP
             (if i = 0 then joinUnder (resolveP cwd dstDir) name
              else joinUnder (resolveP cwd dstDir)
                (sfxName (splitextPy ((joinUnder (resolveP cwd dstDir) name).getLastD "")).1
                  (splitextPy ((joinUnder (resolveP cwd dstDir) name).getLastD "")).2 i)))
             ((fs.mkdirParents (resolveP cwd dstDir) t).entries.length + 1) 0))) := rfl
  rw [hst, hex] at hres2
  -- free index exists within the fuel bound
  obtain ⟨kf, hkf_le, hkf_nm⟩ := exists_skip_index
    ((fs.mkdirParents (resolveP cwd dstDir) t).entries.map Prod.fst)
    (fun i => resolveP cwd dstDir ++ [if i = 0 then name
      else sfxName (splitextPy name).1 (splitextPy name).2 i])
    (fun i j hij => hnminj i j (by
      have := List.append_cancel_left hij
      simpa using this))
  rw [List.length_map] at hkf_le
  have hkf_free : (fs.mkdirParents (resolveP cwd dstDir) t).existsP
      (resolveP cwd dstDir ++ [if kf = 0 then name
        else sfxName (splitextPy name).1 (splitextPy name).2 kf]) = false :=
    existsP_false_of_not_mem _ _ hkf_nm
  have hex_free : ∃ j, 0 ≤ j ∧
      j < 0 + ((fs.mkdirParents (resolveP cwd dstDir) t).entries.length + 1) ∧
      (fun i => (fs.mkdirParents (resolveP cwd dstDir) t).existsP
        (if i = 0 then joinUnder (resolveP cwd dstDir) name
         else joinUnder (resolveP cwd dstDir)
           (sfxName (splitextPy name).1 (splitextPy name).2 i))) j = false := by
    refine ⟨kf, Nat.zero_le _, by omega, ?_⟩
    show (fs.mkdirParents (resolveP cwd dstDir) t).existsP
      (if kf = 0 then joinUnder (resolveP cwd dstDir) name
       else joinUnder (resolveP cwd dstDir)
         (sfxName (splitextPy name).1 (splitextPy name).2 kf)) = false
    rw [hval kf]
    by_cases hkf0 : kf = 0
    · simp only [if_pos hkf0] at hkf_free ⊢
      exact hkf_free
    · simp only [if_neg hkf0] at hkf_free ⊢
      exact hkf_free
  obtain ⟨hfree, _, hmin⟩ := probeIdx_spec
    (fun i => (fs.mkdirParents (resolveP cwd dstDir) t).existsP
      (if i = 0 then joinUnder (resolveP cwd dstDir) name
       else joinUnder (resolveP cwd dstDir)
         (sfxName (splitextPy name).1 (splitextPy name).2 i)))
    ((fs.mkdirParents (resolveP cwd dstDir) t).entries.length + 1) 0 hex_free
  -- name the chosen index
  generalize hk0 : probeIdx
    (fun i => (fs.mkdirParents (resolveP cwd dstDir) t).existsP
      (if i = 0 then joinUnder (resolveP cwd dstDir) name
       else joinUnder (resolveP cwd dstDir)
         (sfxName (splitextPy name).1 (splitextPy name).2 i)))
    ((fs.mkdirParents (resolveP cwd dstDir) t).entries.length + 1) 0 = k0 at hres2 hfree hmin
  have hfree2 : (fs.mkdirParents (resolveP cwd dstDir) t).existsP
      (resolveP cwd dstDir ++ [if k0 = 0 then name
        else sfxName (splitextPy name).1 (splitextPy name).2 k0]) = false := by
    rw [← hval k0]
    exact hfree
  have hmin2 : ∀ j, j < k0 →
      (fs.mkdirParents (resolveP cwd dstDir) t).existsP
        (resolveP cwd dstDir ++ [if j = 0 then name
          else sfxName (splitextPy name).1 (splitextPy name).2 j]) = true := by
    intro j hj
    rw [← hval j]
    exact hmin j (Nat.zero_le _) hj
  rw [hval k0] at hres2
  refine ⟨?_, ?_, ?_⟩
  · rw [hres2]
    exact hfree2
  · intro hbase
    have hk00 : k0 = 0 := by
      by_contra hne
      have hcontra : (fs.mkdirParents (resolveP cwd dstDir) t).existsP
          (resolveP cwd dstDir ++ [name]) = true := hmin2 0 (by omega)
      rw [hbase] at hcontra
      cases hcontra
    rw [hres2, hk00]
    simp
  · intro hbase
    have hk0ne : k0 ≠ 0 := by
      intro he
      rw [he] at hfree2
      have hcontra : (fs.mkdirParents (resolveP cwd dstDir) t).existsP
          (resolveP cwd dstDir ++ [name]) = false := hfree2
      rw [hbase] at hcontra
      cases hcontra
    refine ⟨k0, by omega, ?_, ?_, ?_⟩
    · rw [hres2]
      simp [hk0ne]
    · rw [if_neg hk0ne] at hfree2
      exact hfree2
    · intro j hj1 hj2
      have hj := hmin2 j hj2
      have hjne : j ≠ 0 := by omega
      rw [if_neg hjne] at hj
      exact hj

/-- C2 witness: with `n.txt` and `n_1.txt` already present in `/d`, moving
another file there under the desired name `n.txt` lands on the fresh
`n_2.txt` and overwrites nothing. -/
theorem move_with_unique_no_overwrite_witness :
    ((FS.mk [(["d"], ⟨FKind.dir, 0⟩), (["d", "n.txt"], ⟨FKind.file, 0⟩),
        (["d", "n_1.txt"], ⟨FKind.file, 0⟩), (["s"], ⟨FKind.dir, 0⟩),
        (["s", "x.txt"], ⟨FKind.file, 0⟩)]).mkdirParents
          (resolveP ["c"] (parsePath "/d")) 50).existsP
      (move_with_unique
        (FS.mk [(["d"], ⟨FKind.dir, 0⟩), (["d", "n.txt"], ⟨FKind.file, 0⟩),
          (["d", "n_1.txt"], ⟨FKind.file, 0⟩), (["s"], ⟨FKind.dir, 0⟩),
          (["s", "x.txt"], ⟨FKind.file, 0⟩)])
        ["c"] ["s", "x.txt"] (parsePath "/d") "n.txt" true 50).2 = false ∧
    (move_with_unique
      (FS.mk [(["d"], ⟨FKind.dir, 0⟩), (["d", "n.txt"], ⟨FKind.file, 0⟩),
        (["d", "n_1.txt"], ⟨FKind.file, 0⟩), (["s"], ⟨FKind.dir, 0⟩),
        (["s", "x.txt"], ⟨FKind.file, 0⟩)])
      ["c"] ["s", "x.txt"] (parsePath "/d") "n.txt" true 50).2 = ["d", "n_2.txt"] :=
  ⟨(move_with_unique_no_overwrite
      (FS.mk [(["d"], ⟨FKind.dir, 0⟩), (["d", "n.txt"], ⟨FKind.file, 0⟩),
        (["d", "n_1.txt"], ⟨FKind.file, 0⟩), (["s"], ⟨FKind.dir, 0⟩),
        (["s", "x.txt"], ⟨FKind.file, 0⟩)])
      ["c"] ["s", "x.txt"] (parsePath "/d") "n.txt" 50
      (by decide) (by decide) (by decide) (by decide)).1,
   by decide⟩

/-! ## Trace-shape lemmas for the pass -/

theorem foldl_trace_ext (step : PassSt → String → PassSt) (Q : Event → Prop)
    (hstep : ∀ st n, ∃ l, (step st n).2.2 = st.2.2 ++ l ∧ ∀ e ∈ l, Q e) :
    ∀ (names : List String) (st : PassSt),
      ∃ l, (names.foldl step st).2.2 = st.2.2 ++ l ∧ ∀ e ∈ l, Q e := by
  intro names
  induction names with
  | nil =>
    intro st
    exact ⟨[], by simp, by simp⟩
  | cons n ns ih =>
    intro st
    obtain ⟨l1, hl1, hq1⟩ := hstep st n
    obtain ⟨l2, hl2, hq2⟩ := ih (step st n)
    refine ⟨l1 ++ l2, ?_, ?_⟩
    · rw [List.foldl_cons, hl2, hl1, List.append_assoc]
    · intro e he
      rcases List.mem_append.mp he with he | he
      · exact hq1 e he
      · exact hq2 e he

theorem filePhaseStep_trace (cfg : Config) (env : List (String × String)) (cwd : AbsPath)
    (guess : String → Option String) (now : DT) (tnow : Int) (wR : AbsPath) (dry : Bool)
    (st : PassSt) (n : String) :
    ∃ l, (filePhaseStep cfg env cwd guess now tnow wR dry st n).2.2 = st.2.2 ++ l ∧
      ∀ e ∈ l, (∃ r ∈ cfg.rules, ∃ src dstR fin,
          e = Event.movedFile src dstR (build_target_name n r now 0) fin) ∨
        ∃ d, e = Event.marked d := by
  unfold filePhaseStep
  cases hcand : is_candidate_file_core (st.1.isFile (wR ++ [n])) n cfg.min_age_sec
      cfg.ignore_ext cfg.ignore_names (st.1.mtimeOf (wR ++ [n])) tnow
  · exact ⟨[], by simp [hcand], by simp⟩
  · cases hmr : match_rule guess n cfg.rules with
    | none => exact ⟨[], by simp [hcand, hmr], by simp⟩
    | some r =>
      have hrmem : r ∈ cfg.rules := by
        rw [match_rule_first_hit] at hmr
        exact List.mem_of_find?_eq_some hmr
      cases hdry : dry
      · refine ⟨[Event.movedFile (wR ++ [n]) (resolveP cwd (expand_path env r.to_dir now))
          (build_target_name n r now 0)
          (move_with_unique st.1 cwd (wR ++ [n]) (expand_path env r.to_dir now)
            (build_target_name n r now 0) r.ensure_unique tnow).2,
          Event.marked (resolveP cwd (expand_path env r.to_dir now))],
          by simp [hcand, hmr], ?_⟩
        intro e he
        rcases List.mem_cons.mp he with he | he
        · exact Or.inl ⟨r, hrmem, _, _, _, he⟩
        · simp only [List.mem_singleton] at he
          exact Or.inr ⟨_, he⟩
      · exact ⟨[], by simp [hcand, hmr], by simp⟩

theorem dirPhaseStep_trace (cfg : Config) (cwd : AbsPath) (tnow : Int) (wd : AbsPath)
    (excl : List AbsPath) (targetRoot : PyPath) (dry : Bool) (st : PassSt) (n : String) :
    ∃ l, (dirPhaseStep cfg cwd tnow wd excl targetRoot dry st n).2.2 = st.2.2 ++ l ∧
      ∀ e ∈ l, ∃ s f, e = Event.movedDir s f := by
  unfold dirPhaseStep
  cases hcand : is_candidate_dir_core (st.1.isDir (wd ++ [n])) cfg.min_age_sec
      (st.1.mtimeOf (wd ++ [n])) tnow
  · exact ⟨[], by simp [hcand], by simp⟩
  · cases hign : cfg.ignore_names.contains n
    · cases hdot : startsWithStr n "."
      · cases hman : is_managed_dir st.1 (wd ++ [n]) cfg.managed_marker
        · cases hexc : skipByExcludes excl (wd ++ [n])
          · cases hdry : dry
            · refine ⟨[Event.movedDir (wd ++ [n])
                (move_dir_with_unique st.1 cwd (wd ++ [n]) targetRoot tnow true).2],
                by simp [hcand, hign, hdot, hman, hexc], ?_⟩
              intro e he
              simp only [List.mem_singleton] at he
              exact ⟨_, _, he⟩
            · exact ⟨[], by simp [hcand, hign, hdot, hman, hexc, hdry], by simp⟩
          · exact ⟨[], by simp [hcand, hign, hdot, hman, hexc], by simp⟩
        · exact ⟨[], by simp [hcand, hign, hdot, hman], by simp⟩
      · exact ⟨[], by simp [hcand, hign, hdot], by simp⟩
    · exact ⟨[], by simp [hcand, hign], by simp⟩

theorem process_once_split (cfg : Config) (env : List (String × String)) (cwd : AbsPath)
    (guess : String → Option String) (now : DT) (tnow : Int) (fs : FS) (dry : Bool)
    (hx : fs.existsP (resolveP cwd (expand_path env cfg.watch_dir now)) = true) :
    ∃ l1 : List Event,
      (∀ e ∈ l1, (∃ n r, r ∈ cfg.rules ∧ ∃ src dstR fin,
          e = Event.movedFile src dstR (build_target_name n r now 0) fin) ∨
        ∃ d, e = Event.marked d) ∧
      (cfg.collect_unmanaged_dirs = false →
        (process_once cfg env cwd guess now tnow fs dry).2.2 =
          [Event.listDir (resolveP cwd (expand_path env cfg.watch_dir now))] ++ l1) ∧
      (cfg.collect_unmanaged_dirs = true →
        ∃ l2 : List Event,
          (∀ e ∈ l2, ∃ s f, e = Event.movedDir s f) ∧
          (process_once cfg env cwd guess now tnow fs dry).2.2 =
            (([Event.listDir (resolveP cwd (expand_path env cfg.watch_dir now))] ++ l1) ++
              [Event.listDir (resolveP cwd (expand_path env cfg.watch_dir now))]) ++ l2) := by
  obtain ⟨l1, hl1, hq1⟩ := foldl_trace_ext
    (filePhaseStep cfg env cwd guess now tnow
      (resolveP cwd (expand_path env cfg.watch_dir now)) dry)
    (fun ev => (∃ n r, r ∈ cfg.rules ∧ ∃ src dstR fin,
        ev = Event.movedFile src dstR (build_target_name n r now 0) fin) ∨
      ∃ d, ev = Event.marked d)
    (fun st2 n2 => by
      obtain ⟨l, hl, hq⟩ := filePhaseStep_trace cfg env cwd guess now tnow
        (resolveP cwd (expand_path env cfg.watch_dir now)) dry st2 n2
      refine ⟨l, hl, fun ev hev => ?_⟩
      rcases hq ev hev with ⟨r, hr, src, dstR, fin, hsh⟩ | hsh
      · exact Or.inl ⟨n2, r, hr, src, dstR, fin, hsh⟩
      · exact Or.inr hsh)
    (fs.childNames (resolveP cwd (expand_path env cfg.watch_dir now)))
    (fs, 0, [Event.listDir (resolveP cwd (expand_path env cfg.watch_dir now))])
  refine ⟨l1, hq1, ?_, ?_⟩
  · intro hcoll
    have hpo : (process_once cfg env cwd guess now tnow fs dry).2.2 =
        (List.foldl (filePhaseStep cfg env cwd guess now tnow
          (resolveP cwd (expand_path env cfg.watch_dir now)) dry)
          (fs, 0, [Event.listDir (resolveP cwd (expand_path env cfg.watch_dir now))])
          (fs.childNames (resolveP cwd (expand_path env cfg.watch_dir now)))).2.2 := by
      simp [process_once, hx, hcoll]
    rw [hpo]
    exact hl1
  · intro hcoll
    obtain ⟨l2, hl2, hq2⟩ := foldl_trace_ext
      (dirPhaseStep cfg cwd tnow (resolveP cwd (expand_path env cfg.watch_dir now))
        (build_unmanaged_exclude_paths cfg env cwd now
          (resolveP cwd (expand_path env cfg.watch_dir now)))
        (expand_path env (cfg.unmanaged_dir_target.getD defaultUnmanagedTarget) now) dry)
      (fun ev => ∃ s f, ev = Event.movedDir s f)
      (fun st2 n2 => dirPhaseStep_trace cfg cwd tnow
        (resolveP cwd (expand_path env cfg.watch_dir now))
        (build_unmanaged_exclude_paths cfg env cwd now
          (resolveP cwd (expand_path env cfg.watch_dir now)))
        (expand_path env (cfg.unmanaged_dir_target.getD defaultUnmanagedTarget) now)
        dry st2 n2)
      ((List.foldl (filePhaseStep cfg env cwd guess now tnow
          (resolveP cwd (expand_path env cfg.watch_dir now)) dry)
          (fs, 0, [Event.listDir (resolveP cwd (expand_path env cfg.watch_dir now))])
          (fs.childNames (resolveP cwd (expand_path env cfg.watch_dir now)))).1.childNames
        (resolveP cwd (expand_path env cfg.watch_dir now)))
      ((List.foldl (filePhaseStep cfg env cwd guess now tnow
          (resolveP cwd (expand_path env cfg.watch_dir now)) dry)
          (fs, 0, [Event.listDir (resolveP cwd (expand_path env cfg.watch_dir now))])
          (fs.childNames (resolveP cwd (expand_path env cfg.watch_dir now)))).1,
       (List.foldl (filePhaseStep cfg env cwd guess now tnow
          (resolveP cwd (expand_path env cfg.watch_dir now)) dry)
          (fs, 0, [Event.listDir (resolveP cwd (expand_path env cfg.watch_dir now))])
          (fs.childNames (resolveP cwd (expand_path env cfg.watch_dir now)))).2.1,
       (List.foldl (filePhaseStep cfg env cwd guess now tnow
          (resolveP cwd (expand_path env cfg.watch_dir now)) dry)
          (fs, 0, [Event.listDir (resolveP cwd (expand_path env cfg.watch_dir now))])
          (fs.childNames (resolveP cwd (expand_path env cfg.watch_dir now)))).2.2 ++
         [Event.listDir (resolveP cwd (expand_path env cfg.watch_dir now))])
    refine ⟨l2, hq2, ?_⟩
    have hpo : (process_once cfg env cwd guess now tnow fs dry).2.2 =
        (List.foldl (dirPhaseStep cfg cwd tnow
          (resolveP cwd (expand_path env cfg.watch_dir now))
          (build_unmanaged_exclude_paths cfg env cwd now
            (resolveP cwd (expand_path env cfg.watch_dir now)))
          (expand_path env (cfg.unmanaged_dir_target.getD defaultUnmanagedTarget) now) dry)
          ((List.foldl (filePhaseStep cfg env cwd guess now tnow
              (resolveP cwd (expand_path env cfg.watch_dir now)) dry)
              (fs, 0, [Event.listDir (resolveP cwd (expand_path env cfg.watch_dir now))])
              (fs.childNames (resolveP cwd (expand_path env cfg.watch_dir now)))).1,
           (List.foldl (filePhaseStep cfg env cwd guess now tnow
              (resolveP cwd (expand_path env cfg.watch_dir now)) dry)
              (fs, 0, [Event.listDir (resolveP cwd (expand_path env cfg.watch_dir now))])
              (fs.childNames (resolveP cwd (expand_path env cfg.watch_dir now)))).2.1,
           (List.foldl (filePhaseStep cfg env cwd guess now tnow
              (resolveP cwd (expand_path env cfg.watch_dir now)) dry)
              (fs, 0, [Event.listDir (resolveP cwd (expand_path env cfg.watch_dir now))])
              (fs.childNames (resolveP cwd (expand_path env cfg.watch_dir now)))).2.2 ++
             [Event.listDir (resolveP cwd (expand_path env cfg.watch_dir now))])
          ((List.foldl (filePhaseStep cfg env cwd guess now tnow
              (resolveP cwd (expand_path env cfg.watch_dir now)) dry)
              (fs, 0, [Event.listDir (resolveP cwd (expand_path env cfg.watch_dir now))])
              (fs.childNames (resolveP cwd (expand_path env cfg.watch_dir now)))).1.childNames
            (resolveP cwd (expand_path env cfg.watch_dir now)))).2.2 := by
      simp [process_once, hx, hcoll]
    rw [hpo, hl2]
    show (List.foldl (filePhaseStep cfg env cwd guess now tnow
        (resolveP cwd (expand_path env cfg.watch_dir now)) dry)
        (fs, 0, [Event.listDir (resolveP cwd (expand_path env cfg.watch_dir now))])
        (fs.childNames (resolveP cwd (expand_path env cfg.watch_dir now)))).2.2 ++
        [Event.listDir (resolveP cwd (expand_path env cfg.watch_dir now))] ++ l2 = _
    rw [hl1]

/-- C10: every file the pass processes has its target name built with
`counter = 0`: every file-move event carries a desired name of the form
`build_target_name n r now 0` for some listing entry `n` and configured
rule `r`, and with counter 0 the `\x7bcounter\x7d` placeholder expands to the
empty string (`build_target_name · · · 0` coincides with the variant whose
counter replacement is hard-wired empty); collision suffixes can therefore
come only from the mover's `_N` probing. -/
theorem counter_always_zero (cfg : Config) (env : List (String × String)) (cwd : AbsPath)
    (guess : String → Option String) (now : DT) (tnow : Int) (fs : FS) (dry : Bool) :
    (∀ srcName rule, build_target_name srcName rule now 0 = buildTargetNameZero srcName rule now) ∧
    (∀ e ∈ (process_once cfg env cwd guess now tnow fs dry).2.2, ∀ nm,
      eventDesired e = some nm →
      ∃ n r, r ∈ cfg.rules ∧ nm = build_target_name n r now 0) := by
  constructor
  · intro srcName rule
    rfl
  · intro e he nm hnm
    by_cases hx : fs.existsP (resolveP cwd (expand_path env cfg.watch_dir now)) = true
    · obtain ⟨l1, hq1, hfalse, htrue⟩ := process_once_split cfg env cwd guess now tnow fs dry hx
      have hfile : e ∈ l1 → ∃ n r, r ∈ cfg.rules ∧ nm = build_target_name n r now 0 := by
        intro hel
        rcases hq1 e hel with ⟨n2, r, hr, _, _, _, hsh⟩ | ⟨d, hsh⟩
        · refine ⟨n2, r, hr, ?_⟩
          rw [hsh] at hnm
          simp only [eventDesired, Option.some.injEq] at hnm
          exact hnm.symm
        · rw [hsh] at hnm
          cases hnm
      cases hcoll : cfg.collect_unmanaged_dirs
      · rw [hfalse hcoll] at he
        rcases List.mem_append.mp he with he | he
        · simp only [List.mem_singleton] at he
          rw [he] at hnm
          cases hnm
        · exact hfile he
      · obtain ⟨l2, hq2, heq⟩ := htrue hcoll
        rw [heq] at he
        rcases List.mem_append.mp he with he | he
        · rcases List.mem_append.mp he with he | he
          · rcases List.mem_append.mp he with he | he
            · simp only [List.mem_singleton] at he
              rw [he] at hnm
              cases hnm
            · exact hfile he
          · simp only [List.mem_singleton] at he
            rw [he] at hnm
            cases hnm
        · rcases hq2 e he with ⟨s, f, hsh⟩
          rw [hsh] at hnm
          cases hnm
    · have hx' : fs.existsP (resolveP cwd (expand_path env cfg.watch_dir now)) = false := by
        cases h : fs.existsP (resolveP cwd (expand_path env cfg.watch_dir now))
        · rfl
        · exact absurd h hx
      have hempty : (process_once cfg env cwd guess now tnow fs dry).2.2 = [] := by
        simp [process_once, hx']
      rw [hempty] at he
      cases he

/-- C8 counterexample: with the unmanaged sweep enabled, a single pass over a
watch directory containing one subdirectory records two directory-listing
events, not one: the watch directory is listed again for the directory phase
(source lines 196 and 230). -/
theorem listing_reread_cex :
    countListDir (process_once
      { watch_dir := "/w", collect_unmanaged_dirs := true,
        unmanaged_dir_target := some "/arch" }
      [] ["c"] (fun _ => none) ⟨2026, 10, 12, 3, 4, 5⟩ 100
      ⟨[(["w"], ⟨FKind.dir, 0⟩), (["w", "misc"], ⟨FKind.dir, 0⟩)]⟩ false).2.2 = 2 := by
  decide

/-- C4: in the unmanaged-directory sweep, an entry is skipped (state left
unchanged) exactly when it fails the age/candidate check, its name is in the
ignored-names list, its name starts with a dot, it is already marked
managed, or it equals / is an ancestor of / is a descendant of some
excluded path; every remaining directory is moved with `ensure_unique=true`
into the archive root (in dry mode only counted), and inside `process_once`
that archive root's template is expanded fresh from this pass's timestamp
`now`. -/
theorem dir_sweep_characterization (cfg : Config) (env : List (String × String))
    (cwd : AbsPath) (guess : String → Option String) (now : DT) (tnow : Int)
    (fs : FS) (dry : Bool) :
    (∀ (wd : AbsPath) (excl : List AbsPath) (targetRoot : PyPath) (st : PassSt) (n : String),
      dirPhaseStep cfg cwd tnow wd excl targetRoot dry st n =
        if dirSkipCond cfg st.1 tnow excl wd n then st
        else if dry then (st.1, st.2.1 + 1, st.2.2)
        else
          ((move_dir_with_unique st.1 cwd (wd ++ [n]) targetRoot tnow true).1,
           st.2.1 + 1,
           st.2.2 ++ [Event.movedDir (wd ++ [n])
             (move_dir_with_unique st.1 cwd (wd ++ [n]) targetRoot tnow true).2])) ∧
    (fs.existsP (resolveP cwd (expand_path env cfg.watch_dir now)) = true →
     cfg.collect_unmanaged_dirs = true →
     process_once cfg env cwd guess now tnow fs dry =
       (let wR := resolveP cwd (expand_path env cfg.watch_dir now)
        let st1 := (fs.childNames wR).foldl
          (filePhaseStep cfg env cwd guess now tnow wR dry) (fs, 0, [Event.listDir wR])
        (st1.1.childNames wR).foldl
          (dirPhaseStep cfg cwd tnow wR (build_unmanaged_exclude_paths cfg env cwd now wR)
            (expand_path env (cfg.unmanaged_dir_target.getD defaultUnmanagedTarget) now) dry)
          (st1.1, st1.2.1, st1.2.2 ++ [Event.listDir wR]))) := by
  constructor
  · intro wd excl targetRoot st n
    cases h1 : is_candidate_dir_core (st.1.isDir (wd ++ [n])) cfg.min_age_sec
        (st.1.mtimeOf (wd ++ [n])) tnow
    · simp [dirPhaseStep, dirSkipCond, h1]
    · by_cases h2 : n ∈ cfg.ignore_names
      · simp [dirPhaseStep, dirSkipCond, h1, h2]
      · cases h3 : startsWithStr n "."
        · cases h4 : is_managed_dir st.1 (wd ++ [n]) cfg.managed_marker
          · cases h5 : skipByExcludes excl (wd ++ [n])
            · simp [dirPhaseStep, dirSkipCond, h1, h2, h3, h4, h5]
            · simp [dirPhaseStep, dirSkipCond, h1, h2, h3, h4, h5]
          · simp [dirPhaseStep, dirSkipCond, h1, h2, h3, h4]
        · simp [dirPhaseStep, dirSkipCond, h1, h2, h3]
  · intro hx hcoll
    simp [process_once, hx, hcoll]

/-- C8 (amended): whenever the resolved watch directory exists, a pass reads
its listing exactly twice when the unmanaged sweep is enabled and exactly
once otherwise; the directory phase therefore operates on a fresh listing
taken after the file phase's moves, not on the listing the file phase
consumed. -/
theorem listing_read_count (cfg : Config) (env : List (String × String)) (cwd : AbsPath)
    (guess : String → Option String) (now : DT) (tnow : Int) (fs : FS) (dry : Bool)
    (hx : fs.existsP (resolveP cwd (expand_path env cfg.watch_dir now)) = true) :
    countListDir (process_once cfg env cwd guess now tnow fs dry).2.2 =
      if cfg.collect_unmanaged_dirs then 2 else 1 := by
  obtain ⟨l1, hq1, hfalse, htrue⟩ := process_once_split cfg env cwd guess now tnow fs dry hx
  have hl1z : countListDir l1 = 0 := by
    unfold countListDir
    rw [List.countP_eq_zero]
    intro a ha
    rcases hq1 a ha with ⟨n, r, hr, src, dstR, fin, hsh⟩ | ⟨d, hsh⟩ <;> rw [hsh] <;> simp
  cases hcoll : cfg.collect_unmanaged_dirs
  · rw [hfalse hcoll]
    unfold countListDir at hl1z ⊢
    rw [List.countP_append, hl1z]
    rfl
  · obtain ⟨l2, hq2, heq⟩ := htrue hcoll
    have hl2z : countListDir l2 = 0 := by
      unfold countListDir
      rw [List.countP_eq_zero]
      intro a ha
      rcases hq2 a ha with ⟨s, f, hsh⟩
      rw [hsh]
      simp
    rw [heq]
    unfold countListDir at hl1z hl2z ⊢
    rw [List.countP_append, List.countP_append, List.countP_append, hl1z, hl2z]
    rfl

theorem listing_read_count_witness :
    (FS.existsP ⟨[(["w"], ⟨FKind.dir, 0⟩), (["w", "misc"], ⟨FKind.dir, 0⟩)]⟩
      (resolveP ["c"] (expand_path [] "/w" ⟨2026, 10, 12, 3, 4, 5⟩)) = true) ∧
    countListDir (process_once
      { watch_dir := "/w", collect_unmanaged_dirs := true,
        unmanaged_dir_target := some "/arch" }
      [] ["c"] (fun _ => none) ⟨2026, 10, 12, 3, 4, 5⟩ 100
      ⟨[(["w"], ⟨FKind.dir, 0⟩), (["w", "misc"], ⟨FKind.dir, 0⟩)]⟩ true).2.2 = 2 :=
  ⟨by decide,
   listing_read_count
     { watch_dir := "/w", collect_unmanaged_dirs := true,
       unmanaged_dir_target := some "/arch" }
     [] ["c"] (fun _ => none) ⟨2026, 10, 12, 3, 4, 5⟩ 100
     ⟨[(["w"], ⟨FKind.dir, 0⟩), (["w", "misc"], ⟨FKind.dir, 0⟩)]⟩ true (by decide)⟩

theorem lexLe_total (a : List Char) : ∀ b, lexLe a b = true ∨ lexLe b a = true := by
  induction a with
  | nil => intro b; exact Or.inl rfl
  | cons x xs ih =>
    intro b
    cases b with
    | nil => exact Or.inr rfl
    | cons y ys =>
      by_cases hxy : x = y
      · subst hxy
        rcases ih ys with h | h
        · exact Or.inl (by simp [lexLe, h])
        · exact Or.inr (by simp [lexLe, h])
      · rcases lt_trichotomy x y with h | h | h
        · exact Or.inl (by simp [lexLe, hxy, h])
        · exact absurd h hxy
        · exact Or.inr (by simp [lexLe, Ne.symm hxy, h])

theorem lexLe_antisymm (a : List Char) : ∀ b, lexLe a b = true → lexLe b a = true → a = b := by
  induction a with
  | nil =>
    intro b h1 h2
    cases b with
    | nil => rfl
    | cons y ys => simp [lexLe] at h2
  | cons x xs ih =>
    intro b h1 h2
    cases b with
    | nil => simp [lexLe] at h1
    | cons y ys =>
      by_cases hxy : x = y
      · subst hxy
        simp only [lexLe, if_pos rfl] at h1 h2
        rw [ih ys h1 h2]
      · have h1' : x < y := by simp [lexLe, hxy] at h1; exact h1
        have h2' : y < x := by simp [lexLe, Ne.symm hxy] at h2; exact h2
        exact absurd (lt_trans h1' h2') (lt_irrefl x)

theorem lexLe_trans (a : List Char) : ∀ b c, lexLe a b = true → lexLe b c = true →
    lexLe a c = true := by
  induction a with
  | nil => intro b c _ _; rfl
  | cons x xs ih =>
    intro b c h1 h2
    cases b with
    | nil => simp [lexLe] at h1
    | cons y ys =>
      cases c with
      | nil => simp [lexLe] at h2
      | cons z zs =>
        by_cases hxy : x = y
        · subst hxy
          by_cases hyz : x = z
          · subst hyz
            simp only [lexLe, if_pos rfl] at h1 h2 ⊢
            exact ih ys zs h1 h2
          · have h2' : x < z := by simp [lexLe, hyz] at h2; exact h2
            simp [lexLe, hyz, h2']
        · have h1' : x < y := by simp [lexLe, hxy] at h1; exact h1
          by_cases hyz : y = z
          · subst hyz
            simp [lexLe, hxy, h1']
          · have h2' : y < z := by simp [lexLe, hyz] at h2; exact h2
            have h3 : x < z := lt_trans h1' h2'
            have hxz : ¬ x = z := fun he => absurd (he ▸ h3) (lt_irrefl _)
            simp [lexLe, hxz, h3]

theorem strLe_total (a b : String) : strLe a b = true ∨ strLe b a = true :=
  lexLe_total a.data b.data

theorem strLe_antisymm (a b : String) (h1 : strLe a b = true) (h2 : strLe b a = true) :
    a = b :=
  str_ext a b (lexLe_antisymm a.data b.data h1 h2)

theorem strLe_trans (a b c : String) (h1 : strLe a b = true) (h2 : strLe b c = true) :
    strLe a c = true :=
  lexLe_trans a.data b.data c.data h1 h2

theorem mem_insSorted (a x : String) : ∀ l, x ∈ insSorted a l ↔ x = a ∨ x ∈ l := by
  intro l
  induction l with
  | nil => simp [insSorted]
  | cons b bs ih =>
    by_cases h : strLe a b = true
    · simp [insSorted, h]
    · simp [insSorted, h, ih]
      tauto

theorem insSorted_sorted (a : String) : ∀ l, l.Pairwise (fun p q => strLe p q = true) →
    (insSorted a l).Pairwise (fun p q => strLe p q = true) := by
  intro l
  induction l with
  | nil => intro _; simp [insSorted]
  | cons b bs ih =>
    intro hp
    rcases List.pairwise_cons.mp hp with ⟨hb, hbs⟩
    by_cases h : strLe a b = true
    · simp only [insSorted, if_pos h]
      refine List.pairwise_cons.mpr ⟨?_, hp⟩
      intro x hx
      rcases List.mem_cons.mp hx with rfl | hx
      · exact h
      · exact strLe_trans a b x h (hb x hx)
    · simp only [insSorted, if_neg h]
      refine List.pairwise_cons.mpr ⟨?_, ih hbs⟩
      intro x hx
      rcases (mem_insSorted a x bs).mp hx with rfl | hx
      · rcases strLe_total x b with h' | h'
        · exact absurd h' h
        · exact h'
      · exact hb x hx

theorem insSorted_nodup (a : String) : ∀ l, a ∉ l → l.Nodup → (insSorted a l).Nodup := by
  intro l
  induction l with
  | nil => intro _ _; simp [insSorted]
  | cons b bs ih =>
    intro ha hnd
    rcases List.nodup_cons.mp hnd with ⟨hb, hbs⟩
    by_cases h : strLe a b = true
    · simp only [insSorted, if_pos h]
      exact List.nodup_cons.mpr ⟨ha, hnd⟩
    · simp only [insSorted, if_neg h]
      refine List.nodup_cons.mpr ⟨?_, ih (fun hm => ha (List.mem_cons_of_mem b hm)) hbs⟩
      intro hmem
      rcases (mem_insSorted a b bs).mp hmem with he | hm
      · exact ha (he ▸ List.mem_cons_self b bs)
      · exact hb hm

theorem mem_sortNames (x : String) : ∀ l, x ∈ sortNames l ↔ x ∈ l := by
  intro l
  unfold sortNames
  induction l with
  | nil => simp
  | cons a as ih =>
    rw [List.foldr_cons, mem_insSorted, ih]
    simp

theorem sortNames_sorted (l : List String) :
    (sortNames l).Pairwise (fun p q => strLe p q = true) := by
  unfold sortNames
  induction l with
  | nil => simp
  | cons a as ih => exact insSorted_sorted a _ ih

theorem sortNames_nodup (l : List String) (h : l.Nodup) : (sortNames l).Nodup := by
  unfold sortNames
  induction l with
  | nil => simp
  | cons a as ih =>
    rcases List.nodup_cons.mp h with ⟨ha, has⟩
    exact insSorted_nodup a _ (fun hm => ha ((mem_sortNames a as).mp hm)) (ih has)

theorem mem_dedupGo (x : String) : ∀ l seen, x ∈ dedupGo seen l ↔ x ∈ l ∧ x ∉ seen := by
  intro l
  induction l with
  | nil => intro seen; simp [dedupGo]
  | cons a as ih =>
    intro seen
    by_cases h : a ∈ seen
    · simp only [dedupGo]
      rw [if_pos (by simpa using h), ih]
      constructor
      · rintro ⟨hx, hs⟩
        exact ⟨List.mem_cons_of_mem a hx, hs⟩
      · rintro ⟨hx, hs⟩
        rcases List.mem_cons.mp hx with rfl | hx
        · exact absurd h hs
        · exact ⟨hx, hs⟩
    · simp only [dedupGo]
      rw [if_neg (by simpa using h)]
      constructor
      · intro hm
        rcases List.mem_cons.mp hm with rfl | hm
        · exact ⟨List.mem_cons_self x as, h⟩
        · rcases (ih (a :: seen)).mp hm with ⟨hx, hs⟩
          exact ⟨List.mem_cons_of_mem a hx, fun hc => hs (List.mem_cons_of_mem a hc)⟩
      · rintro ⟨hx, hs⟩
        rcases List.mem_cons.mp hx with rfl | hx
        · exact List.mem_cons_self x _
        · by_cases hxa : x = a
          · subst hxa
            exact List.mem_cons_self x _
          · refine List.mem_cons_of_mem a ((ih (a :: seen)).mpr ⟨hx, ?_⟩)
            intro hc
            rcases List.mem_cons.mp hc with h' | h'
            · exact hxa h'
            · exact hs h'

theorem dedupGo_nodup : ∀ (l seen : List String), (dedupGo seen l).Nodup := by
  intro l
  induction l with
  | nil => intro seen; simp [dedupGo]
  | cons a as ih =>
    intro seen
    by_cases h : a ∈ seen
    · simp only [dedupGo]
      rw [if_pos (by simpa using h)]
      exact ih seen
    · simp only [dedupGo]
      rw [if_neg (by simpa using h)]
      refine List.nodup_cons.mpr ⟨?_, ih (a :: seen)⟩
      intro hm
      exact ((mem_dedupGo a as (a :: seen)).mp hm).2 (List.mem_cons_self a seen)

theorem mem_dedupNames (x : String) (l : List String) : x ∈ dedupNames l ↔ x ∈ l := by
  unfold dedupNames
  rw [mem_dedupGo]
  simp

theorem dedupNames_nodup (l : List String) : (dedupNames l).Nodup :=
  dedupGo_nodup l []

theorem sorted_nodup_ext : ∀ (l m : List String),
    l.Pairwise (fun p q => strLe p q = true) → m.Pairwise (fun p q => strLe p q = true) →
    l.Nodup → m.Nodup → (∀ x, x ∈ l ↔ x ∈ m) → l = m := by
  intro l
  induction l with
  | nil =>
    intro m _ _ _ _ hiff
    cases m with
    | nil => rfl
    | cons b bs => exact absurd ((hiff b).mpr (List.mem_cons_self b bs)) (List.not_mem_nil b)
  | cons a as ih =>
    intro m hl hm hnl hnm hiff
    cases m with
    | nil => exact absurd ((hiff a).mp (List.mem_cons_self a as)) (List.not_mem_nil a)
    | cons b bs =>
      have hab : a = b := by
        have ham : a ∈ b :: bs := (hiff a).mp (List.mem_cons_self a as)
        have hbm : b ∈ a :: as := (hiff b).mpr (List.mem_cons_self b bs)
        rcases List.mem_cons.mp ham with h | h
        · exact h
        · rcases List.mem_cons.mp hbm with h' | h'
          · exact h'.symm
          · exact strLe_antisymm a b ((List.pairwise_cons.mp hl).1 b h')
              ((List.pairwise_cons.mp hm).1 a h)
      subst hab
      have htail : ∀ x, x ∈ as ↔ x ∈ bs := by
        intro x
        constructor
        · intro hx
          rcases List.mem_cons.mp ((hiff x).mp (List.mem_cons_of_mem a hx)) with rfl | h
          · exact absurd hx (List.nodup_cons.mp hnl).1
          · exact h
        · intro hx
          rcases List.mem_cons.mp ((hiff x).mpr (List.mem_cons_of_mem a hx)) with rfl | h
          · exact absurd hx (List.nodup_cons.mp hnm).1
          · exact h
      rw [ih bs (List.pairwise_cons.mp hl).2 (List.pairwise_cons.mp hm).2
        (List.nodup_cons.mp hnl).2 (List.nodup_cons.mp hnm).2 htail]

theorem preB_iff (a : AbsPath) : ∀ b, preB a b = true ↔ a <+: b := by
  induction a with
  | nil =>
    intro b
    simp [preB]
  | cons x xs ih =>
    intro b
    cases b with
    | nil =>
      simp only [preB]
      constructor
      · intro h; cases h
      · intro h
        exact absurd (List.IsPrefix.length_le h) (by simp)
    | cons y ys =>
      by_cases hxy : x = y
      · subst hxy
        have hred : preB (x :: xs) (x :: ys) = preB xs ys := by
          simp [preB]
        rw [hred, ih ys, List.cons_prefix_cons]
        simp
      · simp only [preB, if_neg hxy]
        constructor
        · intro h; cases h
        · intro h
          rcases h with ⟨t, ht⟩
          injection ht with h1 _
          exact absurd h1 hxy

theorem preB_false_iff (a b : AbsPath) : preB a b = false ↔ ¬ a <+: b := by
  constructor
  · intro h hc
    rw [(preB_iff a b).mpr hc] at h
    cases h
  · intro h
    cases hp : preB a b
    · rfl
    · exact absurd ((preB_iff a b).mp hp) h

theorem strictPreB_iff (a b : AbsPath) : strictPreB a b = true ↔ a <+: b ∧ a ≠ b := by
  unfold strictPreB
  by_cases h : a = b
  · simp [h]
  · rw [if_neg h, preB_iff]
    simp [h]

theorem prefix_snoc_cases (l r : List String) (a : String) (h : l <+: r ++ [a]) :
    l <+: r ∨ l = r ++ [a] := by
  rcases List.prefix_or_prefix_of_prefix h (List.prefix_append r [a]) with h' | h'
  · exact Or.inl h'
  · rcases h' with ⟨t, rfl⟩
    rcases t with _ | ⟨x, t'⟩
    · exact Or.inl (by simp)
    · right
      have hlen : (r ++ x :: t').length ≤ (r ++ [a]).length := h.length_le
      rw [List.length_append, List.length_append, List.length_cons, List.length_cons,
        List.length_nil] at hlen
      have ht' : t' = [] := List.eq_nil_of_length_eq_zero (by omega)
      subst ht'
      exact h.eq_of_length (by simp)

theorem append_single_eq_of_pre (wR : AbsPath) (m n : String)
    (h : (wR ++ [m]) <+: (wR ++ [n])) : m = n := by
  have he := h.eq_of_length (by simp)
  have h2 : [m] = [n] := List.append_cancel_left he
  simpa using h2

theorem append_single_of_preB_len (d l : AbsPath) (h : d <+: l)
    (hl : l.length = d.length + 1) : ∃ x, l = d ++ [x] := by
  rcases h with ⟨t, rfl⟩
  rcases t with _ | ⟨x, t'⟩
  · simp at hl
  · rcases t' with _ | ⟨y, t''⟩
    · exact ⟨x, rfl⟩
    · simp [List.length_append] at hl

theorem mem_childNames (fs : FS) (d : AbsPath) (n : String) :
    n ∈ fs.childNames d ↔ fs.existsP (d ++ [n]) = true := by
  unfold FS.childNames
  rw [mem_sortNames, mem_dedupNames, existsP_iff]
  constructor
  · intro h
    rcases List.mem_filterMap.mp h with ⟨e, he, hcond⟩
    by_cases h1 : e.1.length = d.length + 1
    · by_cases h2 : preB d e.1 = true
      · rw [if_pos (by simp [h1, h2])] at hcond
        rcases append_single_of_preB_len d e.1 ((preB_iff d e.1).mp h2) h1 with ⟨x, hx⟩
        rw [hx] at hcond
        simp only [List.getLast?_concat, Option.some.injEq] at hcond
        subst hcond
        rw [List.mem_map]
        exact ⟨e, he, hx⟩
      · rw [if_neg (by simp [h2])] at hcond
        cases hcond
    · rw [if_neg (by simp [h1])] at hcond
      cases hcond
  · intro h
    rcases List.mem_map.mp h with ⟨e, he, hp⟩
    refine List.mem_filterMap.mpr ⟨e, he, ?_⟩
    rw [hp]
    rw [if_pos (by simp [(preB_iff d (d ++ [n])).mpr (List.prefix_append d [n])])]
    simp [List.getLast?_concat]

theorem childNames_sorted (fs : FS) (d : AbsPath) :
    (fs.childNames d).Pairwise (fun p q => strLe p q = true) :=
  sortNames_sorted _

theorem childNames_nodup (fs : FS) (d : AbsPath) : (fs.childNames d).Nodup :=
  sortNames_nodup _ (dedupNames_nodup _)

theorem countP_split (p q : String → Bool) : ∀ l : List String,
    l.countP p = (l.filter q).countP p + (l.filter (fun a => !q a)).countP p := by
  intro l
  induction l with
  | nil => rfl
  | cons a as ih =>
    cases h : q a <;> cases hp : p a <;>
      simp [List.countP_cons, List.filter_cons, h, hp, ih] <;> omega

theorem find?_filter_comm {α : Type} (p keep : α → Bool) :
    ∀ l : List α, (∀ x, p x = true → keep x = true) →
      (l.filter keep).find? p = l.find? p := by
  intro l hk
  induction l with
  | nil => rfl
  | cons a as ih =>
    rw [List.filter_cons]
    cases hka : keep a
    · rw [if_neg (by simp)]
      have hpa : p a = false := by
        cases hpa : p a
        · rfl
        · rw [hk a hpa] at hka
          cases hka
      rw [List.find?_cons_of_neg _ (by simp [hpa])]
      exact ih
    · rw [if_pos rfl]
      cases hpa : p a
      · rw [List.find?_cons_of_neg _ (by simp [hpa]), List.find?_cons_of_neg _ (by simp [hpa])]
        exact ih
      · rw [List.find?_cons_of_pos _ (by simp [hpa]), List.find?_cons_of_pos _ (by simp [hpa])]

theorem lookup_addEntry (fs : FS) (p q : AbsPath) (i : FInfo) :
    (fs.addEntry p i).lookup q = if q = p then some i else fs.lookup q := by
  unfold FS.addEntry FS.lookup
  by_cases h : q = p
  · subst h
    rw [if_pos rfl]
    rw [List.find?_cons_of_pos _ (by simp)]
    rfl
  · rw [if_neg h]
    rw [List.find?_cons_of_neg _ (by simp [Ne.symm h])]
    rw [find?_filter_comm _ _ _ (fun x hx => ?_)]
    have hxq : x.1 = q := by simpa using hx
    simp [hxq, h]

theorem lookup_renameTree_off (fs : FS) (s d q : AbsPath)
    (h1 : ¬ s <+: q) (h2 : ¬ d <+: q) :
    (fs.renameTree s d).lookup q = fs.lookup q := by
  unfold FS.renameTree FS.lookup
  rw [List.find?_append]
  have hfirst : (fs.entries.filterMap (fun e =>
      if preB s e.1 then some (d ++ e.1.drop s.length, e.2) else none)).find?
      (fun e => e.1 == q) = none := by
    rw [List.find?_eq_none]
    intro x hx hpx
    rcases List.mem_filterMap.mp hx with ⟨e, _, hcond⟩
    by_cases hpre : preB s e.1 = true
    · rw [if_pos hpre] at hcond
      cases hcond
      have hq : d ++ e.1.drop s.length = q := by simpa using hpx
      exact h2 (hq ▸ List.prefix_append d _)
    · rw [if_neg hpre] at hcond
      cases hcond
  rw [hfirst]
  simp only [Option.none_or]
  rw [find?_filter_comm _ _ _ (fun x hx => ?_)]
  have hxq : x.1 = q := by simpa using hx
  rw [hxq]
  rw [(preB_false_iff s q).mpr h1, (preB_false_iff d q).mpr h2]
  rfl

theorem lookup_renameTree_src (fs : FS) (s d q : AbsPath)
    (h1 : s <+: q) (h2 : ¬ d <+: q) :
    (fs.renameTree s d).lookup q = none := by
  unfold FS.renameTree FS.lookup
  rw [List.find?_append]
  have hfirst : (fs.entries.filterMap (fun e =>
      if preB s e.1 then some (d ++ e.1.drop s.length, e.2) else none)).find?
      (fun e => e.1 == q) = none := by
    rw [List.find?_eq_none]
    intro x hx hpx
    rcases List.mem_filterMap.mp hx with ⟨e, _, hcond⟩
    by_cases hpre : preB s e.1 = true
    · rw [if_pos hpre] at hcond
      cases hcond
      have hq : d ++ e.1.drop s.length = q := by simpa using hpx
      exact h2 (hq ▸ List.prefix_append d _)
    · rw [if_neg hpre] at hcond
      cases hcond
  have hsecond : (fs.entries.filter (fun e => !(preB s e.1) && !(preB d e.1))).find?
      (fun e => e.1 == q) = none := by
    rw [List.find?_eq_none]
    intro x hx hpx
    have hq : x.1 = q := by simpa using hpx
    have hkeep := List.of_mem_filter hx
    rw [hq, (preB_iff s q).mpr h1] at hkeep
    simp at hkeep
  rw [hfirst, hsecond]
  rfl

theorem lookup_shutilMove_off (fs : FS) (s d q : AbsPath)
    (h1 : ¬ s <+: q) (h2 : ¬ d <+: q) :
    (shutilMove fs s d).lookup q = fs.lookup q := by
  unfold shutilMove
  by_cases hd : fs.isDir d = true
  · simp only [hd, if_pos]
    refine lookup_renameTree_off fs s _ q h1 (fun hc => h2 ?_)
    exact (List.prefix_append d [s.getLastD ""]).trans hc
  · simp only [hd]
    rw [if_neg (by simp [hd])]
    exact lookup_renameTree_off fs s d q h1 h2

theorem lookup_shutilMove_src (fs : FS) (s d q : AbsPath)
    (h1 : s <+: q) (h2 : ¬ d <+: q) :
    (shutilMove fs s d).lookup q = none := by
  unfold shutilMove
  by_cases hd : fs.isDir d = true
  · simp only [hd, if_pos]
    refine lookup_renameTree_src fs s _ q h1 (fun hc => h2 ?_)
    exact (List.prefix_append d [s.getLastD ""]).trans hc
  · simp only [hd]
    rw [if_neg (by simp [hd])]
    exact lookup_renameTree_src fs s d q h1 h2

theorem lookup_mkdirAux (t : Int) (q : AbsPath) :
    ∀ (l : List AbsPath) (fs : FS), q ∉ l →
      (l.foldl (fun acc r => if acc.existsP r then acc else acc.addEntry r ⟨FKind.dir, t⟩)
        fs).lookup q = fs.lookup q := by
  intro l
  induction l with
  | nil => intro fs _; rfl
  | cons r rs ih =>
    intro fs hq
    have hqr : q ≠ r := fun he => hq (he ▸ List.mem_cons_self r rs)
    have hq' : q ∉ rs := fun hm => hq (List.mem_cons_of_mem r hm)
    rw [List.foldl_cons]
    cases hex : fs.existsP r
    · rw [if_neg (by simp)]
      rw [ih _ hq', lookup_addEntry, if_neg hqr]
    · rw [if_pos rfl]
      exact ih _ hq'

theorem mem_nonemptyInits_pre (r p : AbsPath) (h : r ∈ nonemptyInits p) : r <+: p := by
  unfold nonemptyInits at h
  rcases List.mem_map.mp h with ⟨i, _, rfl⟩
  exact List.take_prefix _ _

theorem lookup_mkdirParents_off (fs : FS) (p : AbsPath) (t : Int) (q : AbsPath)
    (h : ∀ r ∈ nonemptyInits p, q ≠ r) :
    (fs.mkdirParents p t).lookup q = fs.lookup q := by
  unfold FS.mkdirParents
  exact lookup_mkdirAux t q _ fs (fun hm => h q hm rfl)

theorem lookup_mark_off (fs : FS) (dR : AbsPath) (mk : String) (t : Int) (q : AbsPath)
    (h : q ≠ joinUnder dR mk) :
    (mark_managed_dir fs dR mk t).lookup q = fs.lookup q := by
  cases hm : fs.lookup (joinUnder dR mk) with
  | some i =>
    simp only [mark_managed_dir, hm]
    by_cases hk : i.kind = FKind.dir
    · rw [if_pos hk]
    · rw [if_neg hk, lookup_addEntry, if_neg h]
  | none =>
    simp only [mark_managed_dir, hm]
    by_cases hd : fs.isDir (joinUnder dR mk).dropLast = true
    · rw [if_pos hd, lookup_addEntry, if_neg h]
    · rw [if_neg hd]

theorem isFile_congr (g g' : FS) (p : AbsPath) (h : g.lookup p = g'.lookup p) :
    g.isFile p = g'.isFile p := by
  unfold FS.isFile
  rw [h]

theorem isDir_congr (g g' : FS) (p : AbsPath) (h : g.lookup p = g'.lookup p) :
    g.isDir p = g'.isDir p := by
  unfold FS.isDir
  rw [h]

theorem mtimeOf_congr (g g' : FS) (p : AbsPath) (h : g.lookup p = g'.lookup p) :
    g.mtimeOf p = g'.mtimeOf p := by
  unfold FS.mtimeOf
  rw [h]

theorem existsP_congr (g g' : FS) (p : AbsPath) (h : g.lookup p = g'.lookup p) :
    g.existsP p = g'.existsP p := by
  unfold FS.existsP
  rw [h]

theorem validSeg_spec (s : String) (h : validSeg s = true) :
    s ≠ "" ∧ s ≠ "." ∧ s ≠ ".." ∧ '/' ∉ s.data := by
  simp only [validSeg, Bool.and_eq_true, Bool.not_eq_true', decide_eq_true_eq] at h
  exact ⟨h.1.1.1, h.1.1.2, h.1.2, by simpa using h.2⟩

theorem validSeg_of_parts (s : String) (h1 : s ≠ "") (h2 : s ≠ ".") (h3 : s ≠ "..")
    (h4 : '/' ∉ s.data) : validSeg s = true := by
  simp [validSeg, h1, h2, h3, h4]

theorem joinUnder_valid (d : AbsPath) (hd : normalize d = d) (s : String)
    (hv : validSeg s = true) : joinUnder d s = d ++ [s] := by
  obtain ⟨h1, h2, h3, h4⟩ := validSeg_spec s hv
  exact joinUnder_single d hd s h4 h1 h2 h3

theorem underscore_name_valid (nm : String) (hns : '/' ∉ nm.data) (i : Nat) :
    validSeg (nm ++ "_" ++ natRepr i) = true := by
  have hu : '_' ∈ (nm ++ "_" ++ natRepr i).data := by
    rw [dataAppend, dataAppend]
    simp [show ("_" : String).data = ['_'] from rfl]
  apply validSeg_of_parts
  · intro he
    rw [he] at hu
    exact absurd hu (by decide)
  · intro he
    rw [he] at hu
    exact absurd hu (by decide)
  · intro he
    rw [he] at hu
    exact absurd hu (by decide)
  · intro hm
    rw [dataAppend, dataAppend] at hm
    rcases List.mem_append.mp hm with hm | hm
    · rcases List.mem_append.mp hm with hm | hm
      · exact hns hm
      · exact absurd hm (by decide)
    · exact absurd (natRepr_chars i '/' hm) (by decide)

theorem sfx_validSeg (tn : String) (hv : validSeg tn = true) (i : Nat) :
    validSeg (sfxName (splitextPy tn).1 (splitextPy tn).2 i) = true := by
  obtain ⟨h1, h2, h3, h4⟩ := validSeg_spec tn hv
  have hu := sfxName_has_underscore (splitextPy tn).1 (splitextPy tn).2 i
  apply validSeg_of_parts
  · intro he
    rw [he] at hu
    exact absurd hu (by decide)
  · intro he
    rw [he] at hu
    exact absurd hu (by decide)
  · intro he
    rw [he] at hu
    exact absurd hu (by decide)
  · intro hm
    rcases sfxName_chars _ _ i '/' hm with hc | hc | hc | hc
    · exact h4 (splitextPy_chars_1 tn '/' hc)
    · exact absurd hc (by decide)
    · exact absurd (natRepr_chars i '/' hc) (by decide)
    · exact h4 (splitextPy_chars_2 tn '/' hc)

theorem candAt_shape (dstR : AbsPath) (hnorm : normalize dstR = dstR) (tn : String)
    (hv : validSeg tn = true) (i : Nat) :
    ∃ s, validSeg s = true ∧
      (if i = 0 then joinUnder dstR tn
       else joinUnder dstR (sfxName (splitextPy ((joinUnder dstR tn).getLastD "")).1
         (splitextPy ((joinUnder dstR tn).getLastD "")).2 i)) = dstR ++ [s] := by
  have hcand0 := joinUnder_valid dstR hnorm tn hv
  by_cases hi : i = 0
  · exact ⟨tn, hv, by rw [if_pos hi, hcand0]⟩
  · have hlast : (joinUnder dstR tn).getLastD "" = tn := by
      rw [hcand0]
      simp
    refine ⟨_, sfx_validSeg tn hv i, ?_⟩
    rw [if_neg hi, hlast]
    exact joinUnder_valid dstR hnorm _ (sfx_validSeg tn hv i)

theorem dirCandAt_shape (dstR : AbsPath) (hnorm : normalize dstR = dstR) (nm : String)
    (hv : validSeg nm = true) (i : Nat) :
    ∃ s, validSeg s = true ∧
      (if i = 0 then joinUnder dstR nm else joinUnder dstR (nm ++ "_" ++ natRepr i)) =
        dstR ++ [s] := by
  by_cases hi : i = 0
  · exact ⟨nm, hv, by rw [if_pos hi, joinUnder_valid dstR hnorm nm hv]⟩
  · have hval := underscore_name_valid nm (validSeg_spec nm hv).2.2.2 i
    refine ⟨_, hval, ?_⟩
    rw [if_neg hi]
    exact joinUnder_valid dstR hnorm _ hval

theorem lookup_move_core (fs0 fs1 : FS) (srcR dstR FP q : AbsPath)
    (hfs1 : fs1.lookup q = fs0.lookup q)
    (hFP : ∃ s, validSeg s = true ∧ FP = dstR ++ [s])
    (hq1 : ¬ srcR <+: q) (hq2 : ¬ dstR <+: q) :
    (shutilMove fs1 srcR FP).lookup q = fs0.lookup q := by
  rcases hFP with ⟨s, _, rfl⟩
  rw [lookup_shutilMove_off fs1 srcR _ q hq1
    (fun hc => hq2 ((List.prefix_append dstR [s]).trans hc))]
  exact hfs1

theorem lookup_move_core_src (fs1 : FS) (srcR dstR FP q : AbsPath)
    (hFP : ∃ s, validSeg s = true ∧ FP = dstR ++ [s])
    (hq1 : srcR <+: q) (hq2 : ¬ dstR <+: q) :
    (shutilMove fs1 srcR FP).lookup q = none := by
  rcases hFP with ⟨s, _, rfl⟩
  exact lookup_shutilMove_src fs1 srcR _ q hq1
    (fun hc => hq2 ((List.prefix_append dstR [s]).trans hc))

theorem move_with_unique_lookup_off (fs : FS) (cwd srcR : AbsPath) (dstDir : PyPath)
    (tn : String) (eu : Bool) (t : Int) (q : AbsPath)
    (hv : validSeg tn = true)
    (hq1 : ¬ srcR <+: q)
    (hq2 : ¬ resolveP cwd dstDir <+: q)
    (hq3 : ∀ r ∈ nonemptyInits (resolveP cwd dstDir), q ≠ r) :
    (move_with_unique fs cwd srcR dstDir tn eu t).1.lookup q = fs.lookup q := by
  unfold move_with_unique
  refine lookup_move_core fs (fs.mkdirParents (resolveP cwd dstDir) t) srcR
    (resolveP cwd dstDir) _ q (lookup_mkdirParents_off fs _ t q hq3) ?_ hq1 hq2
  cases eu with
  | false => exact ⟨tn, hv, joinUnder_valid _ (resolveP_normalized cwd dstDir) tn hv⟩
  | true => exact candAt_shape _ (resolveP_normalized cwd dstDir) tn hv _

theorem move_with_unique_lookup_src (fs : FS) (cwd srcR : AbsPath) (dstDir : PyPath)
    (tn : String) (eu : Bool) (t : Int) (q : AbsPath)
    (hv : validSeg tn = true)
    (hq1 : srcR <+: q)
    (hq2 : ¬ resolveP cwd dstDir <+: q) :
    (move_with_unique fs cwd srcR dstDir tn eu t).1.lookup q = none := by
  unfold move_with_unique
  refine lookup_move_core_src (fs.mkdirParents (resolveP cwd dstDir) t) srcR
    (resolveP cwd dstDir) _ q ?_ hq1 hq2
  cases eu with
  | false => exact ⟨tn, hv, joinUnder_valid _ (resolveP_normalized cwd dstDir) tn hv⟩
  | true => exact candAt_shape _ (resolveP_normalized cwd dstDir) tn hv _

theorem move_dir_with_unique_lookup_off (fs : FS) (cwd srcR : AbsPath) (dstDir : PyPath)
    (t : Int) (eu : Bool) (q : AbsPath)
    (hv : validSeg (srcR.getLastD "") = true)
    (hq1 : ¬ srcR <+: q)
    (hq2 : ¬ resolveP cwd dstDir <+: q)
    (hq3 : ∀ r ∈ nonemptyInits (resolveP cwd dstDir), q ≠ r) :
    (move_dir_with_unique fs cwd srcR dstDir t eu).1.lookup q = fs.lookup q := by
  unfold move_dir_with_unique
  refine lookup_move_core fs (fs.mkdirParents (resolveP cwd dstDir) t) srcR
    (resolveP cwd dstDir) _ q (lookup_mkdirParents_off fs _ t q hq3) ?_ hq1 hq2
  cases eu with
  | false =>
    exact ⟨srcR.getLastD "", hv, joinUnder_valid _ (resolveP_normalized cwd dstDir) _ hv⟩
  | true => exact dirCandAt_shape _ (resolveP_normalized cwd dstDir) _ hv _

theorem move_dir_with_unique_lookup_src (fs : FS) (cwd srcR : AbsPath) (dstDir : PyPath)
    (t : Int) (eu : Bool) (q : AbsPath)
    (hv : validSeg (srcR.getLastD "") = true)
    (hq1 : srcR <+: q)
    (hq2 : ¬ resolveP cwd dstDir <+: q) :
    (move_dir_with_unique fs cwd srcR dstDir t eu).1.lookup q = none := by
  unfold move_dir_with_unique
  refine lookup_move_core_src (fs.mkdirParents (resolveP cwd dstDir) t) srcR
    (resolveP cwd dstDir) _ q ?_ hq1 hq2
  cases eu with
  | false =>
    exact ⟨srcR.getLastD "", hv, joinUnder_valid _ (resolveP_normalized cwd dstDir) _ hv⟩
  | true => exact dirCandAt_shape _ (resolveP_normalized cwd dstDir) _ hv _

theorem filePhaseStep_eq (cfg : Config) (env : List (String × String)) (cwd : AbsPath)
    (guess : String → Option String) (now : DT) (tnow : Int) (wR : AbsPath)
    (dry : Bool) (st : PassSt) (n : String) :
    filePhaseStep cfg env cwd guess now tnow wR dry st n =
      if is_candidate_file_core (st.1.isFile (wR ++ [n])) n cfg.min_age_sec cfg.ignore_ext
          cfg.ignore_names (st.1.mtimeOf (wR ++ [n])) tnow then
        match match_rule guess n cfg.rules with
        | none => st
        | some r =>
          if dry then (st.1, st.2.1 + 1, st.2.2)
          else
            ((mark_managed_dir (move_with_unique st.1 cwd (wR ++ [n])
                (expand_path env r.to_dir now) (build_target_name n r now 0)
                r.ensure_unique tnow).1
              (resolveP cwd (expand_path env r.to_dir now)) cfg.managed_marker tnow),
             st.2.1 + 1,
             st.2.2 ++ [Event.movedFile (wR ++ [n])
                 (resolveP cwd (expand_path env r.to_dir now))
                 (build_target_name n r now 0)
                 (move_with_unique st.1 cwd (wR ++ [n]) (expand_path env r.to_dir now)
                   (build_target_name n r now 0) r.ensure_unique tnow).2,
               Event.marked (resolveP cwd (expand_path env r.to_dir now))])
      else st := by
  cases hc : is_candidate_file_core (st.1.isFile (wR ++ [n])) n cfg.min_age_sec
      cfg.ignore_ext cfg.ignore_names (st.1.mtimeOf (wR ++ [n])) tnow
  · simp [filePhaseStep, hc]
  · cases hmr : match_rule guess n cfg.rules with
    | none => simp [filePhaseStep, hc, hmr]
    | some r =>
      cases dry
      · simp [filePhaseStep, hc, hmr]
      · simp [filePhaseStep, hc, hmr]

theorem dirPhaseStep_eq (cfg : Config) (cwd : AbsPath) (tnow : Int) (wd : AbsPath)
    (excl : List AbsPath) (targetRoot : PyPath) (dry : Bool) (st : PassSt) (n : String) :
    dirPhaseStep cfg cwd tnow wd excl targetRoot dry st n =
      if dirSkipCond cfg st.1 tnow excl wd n then st
      else if dry then (st.1, st.2.1 + 1, st.2.2)
      else
        ((move_dir_with_unique st.1 cwd (wd ++ [n]) targetRoot tnow true).1,
         st.2.1 + 1,
         st.2.2 ++ [Event.movedDir (wd ++ [n])
           (move_dir_with_unique st.1 cwd (wd ++ [n]) targetRoot tnow true).2]) := by
  cases h1 : is_candidate_dir_core (st.1.isDir (wd ++ [n])) cfg.min_age_sec
      (st.1.mtimeOf (wd ++ [n])) tnow
  · simp [dirPhaseStep, dirSkipCond, h1]
  · by_cases h2 : n ∈ cfg.ignore_names
    · simp [dirPhaseStep, dirSkipCond, h1, h2]
    · cases h3 : startsWithStr n "."
      · cases h4 : is_managed_dir st.1 (wd ++ [n]) cfg.managed_marker
        · cases h5 : skipByExcludes excl (wd ++ [n])
          · simp [dirPhaseStep, dirSkipCond, h1, h2, h3, h4, h5]
          · simp [dirPhaseStep, dirSkipCond, h1, h2, h3, h4, h5]
        · simp [dirPhaseStep, dirSkipCond, h1, h2, h3, h4]
      · simp [dirPhaseStep, dirSkipCond, h1, h2, h3]

theorem bool_skip_hit (a b c d e : Bool) :
    (!a || b || c || d || e) = !(a && !b && !c && !d && !e) := by
  cases a <;> cases b <;> cases c <;> cases d <;> cases e <;> rfl

theorem dirSkipCond_not_hit (cfg : Config) (fs : FS) (tnow : Int) (excl : List AbsPath)
    (wd : AbsPath) (n : String) :
    dirSkipCond cfg fs tnow excl wd n = !(dirHit cfg tnow excl fs wd n) := by
  unfold dirSkipCond dirHit
  exact bool_skip_hit _ _ _ _ _

theorem matchRuleGo_mem (name ext : String) (mime : Option String) (r : Rule) :
    ∀ rules, matchRuleGo name ext mime rules = some r → r ∈ rules := by
  intro rules
  induction rules with
  | nil => intro h; cases h
  | cons a rs ih =>
    intro h
    unfold matchRuleGo at h
    repeat' split at h
    all_goals
      first
        | (cases h; exact List.mem_cons_self _ _)
        | (exact List.mem_cons_of_mem _ (ih h))

theorem match_rule_mem (guess : String → Option String) (n : String) (rules : List Rule)
    (r : Rule) (h : match_rule guess n rules = some r) : r ∈ rules :=
  matchRuleGo_mem n (extOf n) (guess n) r rules h

theorem fileFold_dry (cfg : Config) (env : List (String × String)) (cwd : AbsPath)
    (guess : String → Option String) (now : DT) (tnow : Int) (wR : AbsPath) :
    ∀ (rest : List String) (st : PassSt),
      (List.foldl (filePhaseStep cfg env cwd guess now tnow wR true) st rest).1 = st.1 ∧
      (List.foldl (filePhaseStep cfg env cwd guess now tnow wR true) st rest).2.1 =
        st.2.1 + rest.countP (fileHit cfg guess tnow st.1 wR) := by
  intro rest
  induction rest with
  | nil => intro st; exact ⟨rfl, by simp⟩
  | cons n rest' ih =>
    intro st
    rw [List.foldl_cons]
    have hstep : (filePhaseStep cfg env cwd guess now tnow wR true st n).1 = st.1 ∧
        (filePhaseStep cfg env cwd guess now tnow wR true st n).2.1 =
          st.2.1 + (if fileHit cfg guess tnow st.1 wR n then 1 else 0) := by
      rw [filePhaseStep_eq]
      unfold fileHit
      cases hc : is_candidate_file_core (st.1.isFile (wR ++ [n])) n cfg.min_age_sec
          cfg.ignore_ext cfg.ignore_names (st.1.mtimeOf (wR ++ [n])) tnow
      · rw [if_neg (by simp)]
        simp
      · rw [if_pos rfl]
        cases hmr : match_rule guess n cfg.rules with
        | none => simp [hmr]
        | some r => simp [hmr]
    refine ⟨?_, ?_⟩
    · rw [(ih _).1, hstep.1]
    · rw [(ih _).2, hstep.1, hstep.2, List.countP_cons]
      cases hh : fileHit cfg guess tnow st.1 wR n <;> simp [hh] <;> omega

theorem dirFold_dry (cfg : Config) (cwd : AbsPath) (tnow : Int) (wd : AbsPath)
    (excl : List AbsPath) (targetRoot : PyPath) :
    ∀ (rest : List String) (st : PassSt),
      (List.foldl (dirPhaseStep cfg cwd tnow wd excl targetRoot true) st rest).1 = st.1 ∧
      (List.foldl (dirPhaseStep cfg cwd tnow wd excl targetRoot true) st rest).2.1 =
        st.2.1 + rest.countP (dirHit cfg tnow excl st.1 wd) := by
  intro rest
  induction rest with
  | nil => intro st; exact ⟨rfl, by simp⟩
  | cons n rest' ih =>
    intro st
    rw [List.foldl_cons]
    have hstep : (dirPhaseStep cfg cwd tnow wd excl targetRoot true st n).1 = st.1 ∧
        (dirPhaseStep cfg cwd tnow wd excl targetRoot true st n).2.1 =
          st.2.1 + (if dirHit cfg tnow excl st.1 wd n then 1 else 0) := by
      rw [dirPhaseStep_eq, dirSkipCond_not_hit]
      cases hh : dirHit cfg tnow excl st.1 wd n
      · rw [if_pos (by simp [hh])]
        simp
      · rw [if_neg (by simp [hh])]
        simp
    refine ⟨?_, ?_⟩
    · rw [(ih _).1, hstep.1]
    · rw [(ih _).2, hstep.1, hstep.2, List.countP_cons]
      cases hh : dirHit cfg tnow excl st.1 wd n <;> simp [hh] <;> omega

theorem filePhase_hit_lookup (cfg : Config) (env : List (String × String)) (cwd : AbsPath)
    (now : DT) (tnow : Int) (wR : AbsPath) (g : FS) (n : String) (r : Rule)
    (hr1 : ¬ wR <+: resolveP cwd (expand_path env r.to_dir now))
    (hr2 : ¬ resolveP cwd (expand_path env r.to_dir now) <+: wR)
    (hmk : validSeg cfg.managed_marker = true)
    (hbt : validSeg (build_target_name n r now 0) = true)
    (q : AbsPath) (hq1 : wR <+: q) (hq2 : q ≠ wR) :
    ((¬ (wR ++ [n]) <+: q) →
      (mark_managed_dir (move_with_unique g cwd (wR ++ [n]) (expand_path env r.to_dir now)
          (build_target_name n r now 0) r.ensure_unique tnow).1
        (resolveP cwd (expand_path env r.to_dir now)) cfg.managed_marker tnow).lookup q =
      g.lookup q) ∧
    ((wR ++ [n]) <+: q →
      (mark_managed_dir (move_with_unique g cwd (wR ++ [n]) (expand_path env r.to_dir now)
          (build_target_name n r now 0) r.ensure_unique tnow).1
        (resolveP cwd (expand_path env r.to_dir now)) cfg.managed_marker tnow).lookup q =
      none) := by
  have hqdst : ¬ resolveP cwd (expand_path env r.to_dir now) <+: q := by
    intro hc
    rcases List.prefix_or_prefix_of_prefix hc hq1 with h | h
    · exact hr2 h
    · exact hr1 h
  have hqinits : ∀ p ∈ nonemptyInits (resolveP cwd (expand_path env r.to_dir now)), q ≠ p := by
    intro p hp he
    exact hr1 ((he ▸ hq1 : wR <+: p).trans (mem_nonemptyInits_pre p _ hp))
  have hmark : q ≠ joinUnder (resolveP cwd (expand_path env r.to_dir now))
      cfg.managed_marker := by
    rw [joinUnder_valid _ (resolveP_normalized cwd _) _ hmk]
    intro he
    rcases prefix_snoc_cases wR _ cfg.managed_marker (he ▸ hq1) with h | h
    · exact hr1 h
    · exact hq2 (he.trans h.symm)
  constructor
  · intro hns
    rw [lookup_mark_off _ _ _ _ _ hmark,
      move_with_unique_lookup_off g cwd (wR ++ [n]) _ _ _ tnow q hbt hns hqdst hqinits]
  · intro hs
    rw [lookup_mark_off _ _ _ _ _ hmark,
      move_with_unique_lookup_src g cwd (wR ++ [n]) _ _ _ tnow q hbt hs hqdst]

set_option maxHeartbeats 1000000 in
theorem fileFold_real (cfg : Config) (env : List (String × String)) (cwd : AbsPath)
    (guess : String → Option String) (now : DT) (tnow : Int) (fs : FS) (wR : AbsPath)
    (hrules : ∀ r ∈ cfg.rules, ¬ wR <+: resolveP cwd (expand_path env r.to_dir now) ∧
      ¬ resolveP cwd (expand_path env r.to_dir now) <+: wR)
    (hmk : validSeg cfg.managed_marker = true) :
    ∀ (rest : List String) (M : List String) (st : PassSt),
      fsAgreeOutside fs wR M st.1 →
      rest.Nodup → (∀ x ∈ rest, x ∉ M) →
      (∀ x ∈ rest, ∀ r ∈ cfg.rules, validSeg (build_target_name x r now 0) = true) →
      (List.foldl (filePhaseStep cfg env cwd guess now tnow wR false) st rest).2.1 =
          st.2.1 + rest.countP (fileHit cfg guess tnow fs wR) ∧
      fsAgreeOutside fs wR (M ++ rest.filter (fileHit cfg guess tnow fs wR))
        (List.foldl (filePhaseStep cfg env cwd guess now tnow wR false) st rest).1 := by
  intro rest
  induction rest with
  | nil =>
    intro M st hinv _ _ _
    exact ⟨by simp, by simpa using hinv⟩
  | cons n rest' ih =>
    intro M st hinv hnd hdisj hbt
    have hnM : n ∉ M := hdisj n (List.mem_cons_self n rest')
    have hqn : st.1.lookup (wR ++ [n]) = fs.lookup (wR ++ [n]) := by
      refine (hinv (wR ++ [n]) (List.prefix_append wR [n]) ?_).2 ?_
      · intro he
        have := congrArg List.length he
        simp at this
      · intro m hm hpre
        exact hnM (append_single_eq_of_pre wR m n hpre ▸ hm)
    have hdec : is_candidate_file_core (st.1.isFile (wR ++ [n])) n cfg.min_age_sec
        cfg.ignore_ext cfg.ignore_names (st.1.mtimeOf (wR ++ [n])) tnow =
        is_candidate_file_core (fs.isFile (wR ++ [n])) n cfg.min_age_sec
        cfg.ignore_ext cfg.ignore_names (fs.mtimeOf (wR ++ [n])) tnow := by
      rw [isFile_congr st.1 fs _ hqn, mtimeOf_congr st.1 fs _ hqn]
    rw [List.foldl_cons]
    have hndt := (List.nodup_cons.mp hnd).2
    have hdisjt := fun x hx => hdisj x (List.mem_cons_of_mem n hx)
    have hbtt := fun x hx => hbt x (List.mem_cons_of_mem n hx)
    cases hc : is_candidate_file_core (fs.isFile (wR ++ [n])) n cfg.min_age_sec
        cfg.ignore_ext cfg.ignore_names (fs.mtimeOf (wR ++ [n])) tnow
    · have hcand : is_candidate_file_core (st.1.isFile (wR ++ [n])) n cfg.min_age_sec
          cfg.ignore_ext cfg.ignore_names (st.1.mtimeOf (wR ++ [n])) tnow = false := by
        rw [hdec]
        exact hc
      have hstep : filePhaseStep cfg env cwd guess now tnow wR false st n = st := by
        simp [filePhaseStep, hcand]
      have hhit : fileHit cfg guess tnow fs wR n = false := by
        unfold fileHit
        rw [hc]
        rfl
      rw [hstep]
      obtain ⟨hcount, hinv'⟩ := ih M st hinv hndt hdisjt hbtt
      refine ⟨?_, ?_⟩
      · rw [hcount, List.countP_cons, hhit]
        simp
      · rw [List.filter_cons, hhit]
        simpa using hinv'
    · have hcand : is_candidate_file_core (st.1.isFile (wR ++ [n])) n cfg.min_age_sec
          cfg.ignore_ext cfg.ignore_names (st.1.mtimeOf (wR ++ [n])) tnow = true := by
        rw [hdec]
        exact hc
      cases hmr : match_rule guess n cfg.rules with
      | none =>
        have hstep : filePhaseStep cfg env cwd guess now tnow wR false st n = st := by
          simp [filePhaseStep, hcand, hmr]
        have hhit : fileHit cfg guess tnow fs wR n = false := by
          unfold fileHit
          rw [hc, hmr]
          rfl
        rw [hstep]
        obtain ⟨hcount, hinv'⟩ := ih M st hinv hndt hdisjt hbtt
        refine ⟨?_, ?_⟩
        · rw [hcount, List.countP_cons, hhit]
          simp
        · rw [List.filter_cons, hhit]
          simpa using hinv'
      | some r =>
        have hrmem : r ∈ cfg.rules := match_rule_mem guess n cfg.rules r hmr
        have hhit : fileHit cfg guess tnow fs wR n = true := by
          unfold fileHit
          rw [hc, hmr]
          rfl
        have hstep1 : (filePhaseStep cfg env cwd guess now tnow wR false st n).1 =
            mark_managed_dir (move_with_unique st.1 cwd (wR ++ [n])
                (expand_path env r.to_dir now) (build_target_name n r now 0)
                r.ensure_unique tnow).1
              (resolveP cwd (expand_path env r.to_dir now)) cfg.managed_marker tnow := by
          simp [filePhaseStep, hcand, hmr]
        have hstep21 : (filePhaseStep cfg env cwd guess now tnow wR false st n).2.1 =
            st.2.1 + 1 := by
          simp [filePhaseStep, hcand, hmr]
        have hinv2 : fsAgreeOutside fs wR (M ++ [n])
            (mark_managed_dir (move_with_unique st.1 cwd (wR ++ [n])
                (expand_path env r.to_dir now) (build_target_name n r now 0)
                r.ensure_unique tnow).1
              (resolveP cwd (expand_path env r.to_dir now)) cfg.managed_marker tnow) := by
          intro q hq1 hq2
          obtain ⟨hA, hB⟩ := hinv q hq1 hq2
          obtain ⟨hoff, hsrc⟩ := filePhase_hit_lookup cfg env cwd now tnow wR st.1 n r
            (hrules r hrmem).1 (hrules r hrmem).2 hmk
            (hbt n (List.mem_cons_self n rest') r hrmem) q hq1 hq2
          constructor
          · rintro ⟨m, hm, hpre⟩
            rcases List.mem_append.mp hm with hmM | hmn
            · have hnn : ¬ (wR ++ [n]) <+: q := by
                intro hcpre
                rcases List.prefix_or_prefix_of_prefix hpre hcpre with h | h
                · exact hnM (append_single_eq_of_pre wR m n h ▸ hmM)
                · exact hnM ((append_single_eq_of_pre wR n m h).symm ▸ hmM)
              rw [hoff hnn]
              exact hA ⟨m, hmM, hpre⟩
            · have hmn' : m = n := by simpa using hmn
              exact hsrc (hmn' ▸ hpre)
          · intro hall
            have hnn : ¬ (wR ++ [n]) <+: q :=
              hall n (List.mem_append.mpr (Or.inr (List.mem_cons_self n [])))
            rw [hoff hnn]
            exact hB (fun m hm => hall m (List.mem_append.mpr (Or.inl hm)))
        have hdisj2 : ∀ x ∈ rest', x ∉ M ++ [n] := by
          intro x hx hmem
          rcases List.mem_append.mp hmem with h | h
          · exact hdisjt x hx h
          · have hxn : x = n := by simpa using h
            exact (List.nodup_cons.mp hnd).1 (hxn ▸ hx)
        obtain ⟨hcount, hinvf⟩ := ih (M ++ [n])
          (filePhaseStep cfg env cwd guess now tnow wR false st n)
          (by rw [hstep1]; exact hinv2) hndt hdisj2 hbtt
        refine ⟨?_, ?_⟩
        · rw [hcount, hstep21, List.countP_cons, hhit, if_pos rfl]
          omega
        · rw [List.filter_cons, hhit]
          have hassoc : M ++ (n :: rest'.filter (fileHit cfg guess tnow fs wR)) =
              (M ++ [n]) ++ rest'.filter (fileHit cfg guess tnow fs wR) := by
            simp
          rw [if_pos rfl, hassoc]
          exact hinvf

theorem not_excluded_not_prefix (excl : List AbsPath) (tR : AbsPath) (htR : tR ∈ excl)
    (dR : AbsPath) (hne : skipByExcludes excl dR = false) :
    ¬ tR <+: dR ∧ ¬ dR <+: tR := by
  constructor
  · intro hc
    have hany : skipByExcludes excl dR = true := by
      unfold skipByExcludes
      rw [List.any_eq_true]
      refine ⟨tR, htR, ?_⟩
      by_cases he : dR = tR
      · simp [he]
      · have hs : strictPreB tR dR = true :=
          (strictPreB_iff tR dR).mpr ⟨hc, fun h => he h.symm⟩
        simp [hs]
    rw [hany] at hne
    cases hne
  · intro hc
    have hany : skipByExcludes excl dR = true := by
      unfold skipByExcludes
      rw [List.any_eq_true]
      refine ⟨tR, htR, ?_⟩
      by_cases he : dR = tR
      · simp [he]
      · have hs : strictPreB dR tR = true := (strictPreB_iff dR tR).mpr ⟨hc, he⟩
        simp [hs]
    rw [hany] at hne
    cases hne

theorem dirHit_congr (cfg : Config) (tnow : Int) (excl : List AbsPath) (g g' : FS)
    (wR : AbsPath) (n : String)
    (h1 : g.isDir (wR ++ [n]) = g'.isDir (wR ++ [n]))
    (h2 : g.mtimeOf (wR ++ [n]) = g'.mtimeOf (wR ++ [n]))
    (h3 : is_managed_dir g (wR ++ [n]) cfg.managed_marker =
      is_managed_dir g' (wR ++ [n]) cfg.managed_marker) :
    dirHit cfg tnow excl g wR n = dirHit cfg tnow excl g' wR n := by
  unfold dirHit
  rw [h1, h2, h3]

set_option maxHeartbeats 1000000 in
theorem dirFold_real (cfg : Config) (cwd : AbsPath) (tnow : Int) (wR : AbsPath)
    (excl : List AbsPath) (targetRoot : PyPath) (g0 : FS)
    (htR : resolveP cwd targetRoot ∈ excl)
    (hwRnorm : normalize wR = wR)
    (hmk : validSeg cfg.managed_marker = true) :
    ∀ (rest : List String) (M : List String) (st : PassSt),
      dirReadsAgree g0 wR cfg.managed_marker excl M st.1 →
      rest.Nodup → (∀ x ∈ rest, x ∉ M) → (∀ x ∈ rest, validSeg x = true) →
      (List.foldl (dirPhaseStep cfg cwd tnow wR excl targetRoot false) st rest).2.1 =
          st.2.1 + rest.countP (dirHit cfg tnow excl g0 wR) ∧
      dirReadsAgree g0 wR cfg.managed_marker excl
        (M ++ rest.filter (dirHit cfg tnow excl g0 wR))
        (List.foldl (dirPhaseStep cfg cwd tnow wR excl targetRoot false) st rest).1 := by
  intro rest
  induction rest with
  | nil =>
    intro M st hinv _ _ _
    exact ⟨by simp, by simpa using hinv⟩
  | cons n rest' ih =>
    intro M st hinv hnd hdisj hval
    have hnM : n ∉ M := hdisj n (List.mem_cons_self n rest')
    have hvn : validSeg n = true := hval n (List.mem_cons_self n rest')
    have hndt := (List.nodup_cons.mp hnd).2
    have hdisjt := fun x hx => hdisj x (List.mem_cons_of_mem n hx)
    have hvalt := fun x hx => hval x (List.mem_cons_of_mem n hx)
    rw [List.foldl_cons]
    by_cases hex : skipByExcludes excl (wR ++ [n]) = true
    · have hskip : dirSkipCond cfg st.1 tnow excl wR n = true := by
        unfold dirSkipCond
        rw [hex]
        simp
      have hstep : dirPhaseStep cfg cwd tnow wR excl targetRoot false st n = st := by
        rw [dirPhaseStep_eq, if_pos hskip]
      have hhitn : dirHit cfg tnow excl g0 wR n = false := by
        unfold dirHit
        rw [hex]
        simp
      rw [hstep]
      obtain ⟨hcount, hinvf⟩ := ih M st hinv hndt hdisjt hvalt
      refine ⟨?_, ?_⟩
      · rw [hcount, List.countP_cons, hhitn]
        simp
      · rw [List.filter_cons, hhitn, if_neg (by simp)]
        exact hinvf
    · have hex' : skipByExcludes excl (wR ++ [n]) = false := by
        cases h : skipByExcludes excl (wR ++ [n])
        · rfl
        · exact absurd h hex
      obtain ⟨hq1eq, hq2eq⟩ := hinv n hnM hex'
      have hnorm2 : normalize (wR ++ [n]) = wR ++ [n] := by
        rw [normalize_append_single wR n (validSeg_spec n hvn).2.2.1, hwRnorm]
      have hd1 : st.1.isDir (wR ++ [n]) = g0.isDir (wR ++ [n]) := isDir_congr _ _ _ hq1eq
      have hd2 : st.1.mtimeOf (wR ++ [n]) = g0.mtimeOf (wR ++ [n]) := mtimeOf_congr _ _ _ hq1eq
      have hd3 : is_managed_dir st.1 (wR ++ [n]) cfg.managed_marker =
          is_managed_dir g0 (wR ++ [n]) cfg.managed_marker := by
        unfold is_managed_dir
        rw [joinUnder_valid _ hnorm2 _ hmk]
        exact existsP_congr _ _ _ hq2eq
      have hcongr : dirHit cfg tnow excl st.1 wR n = dirHit cfg tnow excl g0 wR n :=
        dirHit_congr cfg tnow excl st.1 g0 wR n hd1 hd2 hd3
      cases hhitn : dirHit cfg tnow excl g0 wR n
      · have hhit_st : dirHit cfg tnow excl st.1 wR n = false := by
          rw [hcongr, hhitn]
        have hskip : dirSkipCond cfg st.1 tnow excl wR n = true := by
          rw [dirSkipCond_not_hit, hhit_st]
          rfl
        have hstep : dirPhaseStep cfg cwd tnow wR excl targetRoot false st n = st := by
          rw [dirPhaseStep_eq, if_pos hskip]
        rw [hstep]
        obtain ⟨hcount, hinvf⟩ := ih M st hinv hndt hdisjt hvalt
        refine ⟨?_, ?_⟩
        · rw [hcount, List.countP_cons, hhitn]
          simp
        · rw [List.filter_cons, hhitn, if_neg (by simp)]
          exact hinvf
      · have hhit_st : dirHit cfg tnow excl st.1 wR n = true := by
          rw [hcongr, hhitn]
        have hparts := by simpa [dirHit, Bool.and_eq_true, Bool.not_eq_true'] using hhit_st
        obtain ⟨⟨⟨⟨hb1, hb2⟩, hb3⟩, hb4⟩, hb5⟩ := hparts
        have hstep1 : (dirPhaseStep cfg cwd tnow wR excl targetRoot false st n).1 =
            (move_dir_with_unique st.1 cwd (wR ++ [n]) targetRoot tnow true).1 := by
          simp [dirPhaseStep, hb1, hb2, hb3, hb4, hb5]
        have hstep21 : (dirPhaseStep cfg cwd tnow wR excl targetRoot false st n).2.1 =
            st.2.1 + 1 := by
          simp [dirPhaseStep, hb1, hb2, hb3, hb4, hb5]
        have hvdisp : validSeg ((wR ++ [n]).getLastD "") = true := by
          have hget : (wR ++ [n]).getLastD "" = n := by simp
          rw [hget]
          exact hvn
        have hinv2 : dirReadsAgree g0 wR cfg.managed_marker excl (M ++ [n])
            (move_dir_with_unique st.1 cwd (wR ++ [n]) targetRoot tnow true).1 := by
          intro n2 hn2 hnex2
          have hn2M : n2 ∉ M := fun h => hn2 (List.mem_append.mpr (Or.inl h))
          have hnn : n2 ≠ n := fun he =>
            hn2 (List.mem_append.mpr (Or.inr (he ▸ List.mem_cons_self n [])))
          obtain ⟨ha, hb⟩ := hinv n2 hn2M hnex2
          obtain ⟨hnp1, hnp2⟩ := not_excluded_not_prefix excl (resolveP cwd targetRoot)
            htR (wR ++ [n2]) hnex2
          constructor
          · have hq1 : ¬ (wR ++ [n]) <+: (wR ++ [n2]) := fun hc =>
              hnn (append_single_eq_of_pre wR n n2 hc).symm
            have hq3 : ∀ p ∈ nonemptyInits (resolveP cwd targetRoot), wR ++ [n2] ≠ p :=
              fun p hp he => hnp2 (he ▸ mem_nonemptyInits_pre p _ hp)
            rw [move_dir_with_unique_lookup_off st.1 cwd (wR ++ [n]) targetRoot tnow true
              (wR ++ [n2]) hvdisp hq1 hnp1 hq3]
            exact ha
          · have hq1 : ¬ (wR ++ [n]) <+: ((wR ++ [n2]) ++ [cfg.managed_marker]) := by
              intro hc
              rcases prefix_snoc_cases _ _ _ hc with h | h
              · exact hnn (append_single_eq_of_pre wR n n2 h).symm
              · have := congrArg List.length h
                simp at this
            have hq2 : ¬ resolveP cwd targetRoot <+: ((wR ++ [n2]) ++ [cfg.managed_marker]) := by
              intro hc
              rcases prefix_snoc_cases _ _ _ hc with h | h
              · exact hnp1 h
              · exact hnp2 (h ▸ List.prefix_append (wR ++ [n2]) [cfg.managed_marker])
            have hq3 : ∀ p ∈ nonemptyInits (resolveP cwd targetRoot),
                (wR ++ [n2]) ++ [cfg.managed_marker] ≠ p := by
              intro p hp he
              exact hnp2 ((he ▸ List.prefix_append (wR ++ [n2]) [cfg.managed_marker]).trans
                (mem_nonemptyInits_pre p _ hp))
            rw [move_dir_with_unique_lookup_off st.1 cwd (wR ++ [n]) targetRoot tnow true
              ((wR ++ [n2]) ++ [cfg.managed_marker]) hvdisp hq1 hq2 hq3]
            exact hb
        have hdisj2 : ∀ x ∈ rest', x ∉ M ++ [n] := by
          intro x hx hmem
          rcases List.mem_append.mp hmem with h | h
          · exact hdisjt x hx h
          · have hxn : x = n := by simpa using h
            exact (List.nodup_cons.mp hnd).1 (hxn ▸ hx)
        obtain ⟨hcount, hinvf⟩ := ih (M ++ [n])
          (dirPhaseStep cfg cwd tnow wR excl targetRoot false st n)
          (by rw [hstep1]; exact hinv2) hndt hdisj2 hvalt
        refine ⟨?_, ?_⟩
        · rw [hcount, hstep21, List.countP_cons, hhitn, if_pos rfl]
          omega
        · rw [List.filter_cons, hhitn]
          have hassoc : M ++ (n :: rest'.filter (dirHit cfg tnow excl g0 wR)) =
              (M ++ [n]) ++ rest'.filter (dirHit cfg tnow excl g0 wR) := by
            simp
          rw [if_pos rfl, hassoc]
          exact hinvf

theorem childNames_valid (fs : FS) (hwf : FS.wf fs = true) (d : AbsPath) :
    ∀ n ∈ fs.childNames d, validSeg n = true := by
  intro n hn
  have hex := (mem_childNames fs d n).mp hn
  rw [existsP_iff] at hex
  rcases List.mem_map.mp hex with ⟨e, he, hp⟩
  have hall := (List.all_eq_true.mp hwf) e he
  refine (List.all_eq_true.mp hall) n ?_
  rw [hp]
  simp

theorem is_candidate_file_core_isFile (isFile : Bool) (name : String) (ma : Int)
    (ie inn : List String) (mt : Option Int) (tnow : Int)
    (h : is_candidate_file_core isFile name ma ie inn mt tnow = true) : isFile = true := by
  cases isFile
  · rw [show is_candidate_file_core false name ma ie inn mt tnow = false from rfl] at h
    cases h
  · rfl

theorem isFile_isDir_false (fs : FS) (p : AbsPath) (h : fs.isFile p = true) :
    fs.isDir p = false := by
  unfold FS.isFile at h
  unfold FS.isDir
  cases hl : fs.lookup p with
  | none =>
    rw [hl] at h
  | some i =>
    rw [hl] at h
    simp only [decide_eq_true_eq] at h
    simp [h]

theorem fileHit_not_dirHit (cfg : Config) (guess : String → Option String) (tnow : Int)
    (excl : List AbsPath) (fs : FS) (wR : AbsPath) (n : String)
    (h : fileHit cfg guess tnow fs wR n = true) :
    dirHit cfg tnow excl fs wR n = false := by
  have hf : fs.isFile (wR ++ [n]) = true := by
    unfold fileHit at h
    rw [Bool.and_eq_true] at h
    exact is_candidate_file_core_isFile _ _ _ _ _ _ _ h.1
  have hd : fs.isDir (wR ++ [n]) = false := isFile_isDir_false fs _ hf
  unfold dirHit
  rw [hd]
  rfl

theorem process_once_dry_pure (cfg : Config) (env : List (String × String)) (cwd : AbsPath)
    (guess : String → Option String) (now : DT) (tnow : Int) (fs : FS) :
    (process_once cfg env cwd guess now tnow fs true).1 = fs := by
  by_cases hx : fs.existsP (resolveP cwd (expand_path env cfg.watch_dir now)) = true
  · have hst1 := (fileFold_dry cfg env cwd guess now tnow
      (resolveP cwd (expand_path env cfg.watch_dir now))
      (fs.childNames (resolveP cwd (expand_path env cfg.watch_dir now)))
      (fs, 0, [Event.listDir (resolveP cwd (expand_path env cfg.watch_dir now))])).1
    cases hcoll : cfg.collect_unmanaged_dirs
    · have hpo : (process_once cfg env cwd guess now tnow fs true).1 =
          (List.foldl (filePhaseStep cfg env cwd guess now tnow
            (resolveP cwd (expand_path env cfg.watch_dir now)) true)
            (fs, 0, [Event.listDir (resolveP cwd (expand_path env cfg.watch_dir now))])
            (fs.childNames (resolveP cwd (expand_path env cfg.watch_dir now)))).1 := by
        simp [process_once, hx, hcoll]
      rw [hpo, hst1]
    · have hpo : (process_once cfg env cwd guess now tnow fs true).1 =
          (List.foldl (dirPhaseStep cfg cwd tnow
            (resolveP cwd (expand_path env cfg.watch_dir now))
            (build_unmanaged_exclude_paths cfg env cwd now
              (resolveP cwd (expand_path env cfg.watch_dir now)))
            (expand_path env (cfg.unmanaged_dir_target.getD defaultUnmanagedTarget) now) true)
            ((List.foldl (filePhaseStep cfg env cwd guess now tnow
                (resolveP cwd (expand_path env cfg.watch_dir now)) true)
                (fs, 0, [Event.listDir (resolveP cwd (expand_path env cfg.watch_dir now))])
                (fs.childNames (resolveP cwd (expand_path env cfg.watch_dir now)))).1,
             (List.foldl (filePhaseStep cfg env cwd guess now tnow
                (resolveP cwd (expand_path env cfg.watch_dir now)) true)
                (fs, 0, [Event.listDir (resolveP cwd (expand_path env cfg.watch_dir now))])
                (fs.childNames (resolveP cwd (expand_path env cfg.watch_dir now)))).2.1,
             (List.foldl (filePhaseStep cfg env cwd guess now tnow
                (resolveP cwd (expand_path env cfg.watch_dir now)) true)
                (fs, 0, [Event.listDir (resolveP cwd (expand_path env cfg.watch_dir now))])
                (fs.childNames (resolveP cwd (expand_path env cfg.watch_dir now)))).2.2 ++
               [Event.listDir (resolveP cwd (expand_path env cfg.watch_dir now))])
            ((List.foldl (filePhaseStep cfg env cwd guess now tnow
                (resolveP cwd (expand_path env cfg.watch_dir now)) true)
                (fs, 0, [Event.listDir (resolveP cwd (expand_path env cfg.watch_dir now))])
                (fs.childNames (resolveP cwd (expand_path env cfg.watch_dir now)))).1.childNames
              (resolveP cwd (expand_path env cfg.watch_dir now)))).1 := by
        simp [process_once, hx, hcoll]
      rw [hpo]
      rw [(dirFold_dry cfg cwd tnow (resolveP cwd (expand_path env cfg.watch_dir now)) _ _ _ _).1]
      exact hst1
  · have hx' : fs.existsP (resolveP cwd (expand_path env cfg.watch_dir now)) = false := by
      cases h : fs.existsP (resolveP cwd (expand_path env cfg.watch_dir now))
      · rfl
      · exact absurd h hx
    simp [process_once, hx']

set_option maxHeartbeats 2000000 in
theorem dry_real_counts_eq (cfg : Config) (env : List (String × String)) (cwd : AbsPath)
    (guess : String → Option String) (now : DT) (tnow : Int) (fs : FS)
    (hwf : FS.wf fs = true)
    (hrule : rulesAvoidWatch cfg env cwd now
      (resolveP cwd (expand_path env cfg.watch_dir now)) = true)
    (hmk : markerIsName cfg = true)
    (hbt : renamesOk cfg now
      (fs.childNames (resolveP cwd (expand_path env cfg.watch_dir now))) = true) :
    (process_once cfg env cwd guess now tnow fs true).2.1 =
      (process_once cfg env cwd guess now tnow fs false).2.1 := by
  by_cases hx : fs.existsP (resolveP cwd (expand_path env cfg.watch_dir now)) = true
  case neg =>
    have hx' : fs.existsP (resolveP cwd (expand_path env cfg.watch_dir now)) = false := by
      cases h : fs.existsP (resolveP cwd (expand_path env cfg.watch_dir now))
      · rfl
      · exact absurd h hx
    simp [process_once, hx']
  case pos =>
  have hmkv : validSeg cfg.managed_marker = true := hmk
  have hrules' : ∀ r ∈ cfg.rules,
      ¬ (resolveP cwd (expand_path env cfg.watch_dir now)) <+:
        resolveP cwd (expand_path env r.to_dir now) ∧
      ¬ resolveP cwd (expand_path env r.to_dir now) <+:
        (resolveP cwd (expand_path env cfg.watch_dir now)) := by
    intro r hr
    have hall := (List.all_eq_true.mp hrule) r hr
    rw [Bool.and_eq_true] at hall
    obtain ⟨h1, h2⟩ := hall
    constructor
    · exact (preB_false_iff _ _).mp (by simpa using h1)
    · exact (preB_false_iff _ _).mp (by simpa using h2)
  have hval := childNames_valid fs hwf (resolveP cwd (expand_path env cfg.watch_dir now))
  have hbt' : ∀ n ∈ fs.childNames (resolveP cwd (expand_path env cfg.watch_dir now)),
      ∀ r ∈ cfg.rules, validSeg (build_target_name n r now 0) = true := by
    intro n hn r hr
    exact (List.all_eq_true.mp ((List.all_eq_true.mp hbt) n hn)) r hr
  have hnd := childNames_nodup fs (resolveP cwd (expand_path env cfg.watch_dir now))
  have hinv0 : fsAgreeOutside fs (resolveP cwd (expand_path env cfg.watch_dir now)) []
      ((fs, 0, [Event.listDir (resolveP cwd (expand_path env cfg.watch_dir now))]) : PassSt).1 := by
    intro q _ _
    constructor
    · rintro ⟨m, hm, _⟩
      cases hm
    · intro _
      rfl
  obtain ⟨hrc, hrinv⟩ := fileFold_real cfg env cwd guess now tnow fs
    (resolveP cwd (expand_path env cfg.watch_dir now)) hrules' hmkv
    (fs.childNames (resolveP cwd (expand_path env cfg.watch_dir now))) []
    (fs, 0, [Event.listDir (resolveP cwd (expand_path env cfg.watch_dir now))])
    hinv0 hnd (fun x _ h => (List.not_mem_nil x) h) hbt'
  have hdryf := fileFold_dry cfg env cwd guess now tnow
    (resolveP cwd (expand_path env cfg.watch_dir now))
    (fs.childNames (resolveP cwd (expand_path env cfg.watch_dir now)))
    (fs, 0, [Event.listDir (resolveP cwd (expand_path env cfg.watch_dir now))])
  cases hcoll : cfg.collect_unmanaged_dirs
  · have hpoD : (process_once cfg env cwd guess now tnow fs true).2.1 =
        (List.foldl (filePhaseStep cfg env cwd guess now tnow
          (resolveP cwd (expand_path env cfg.watch_dir now)) true)
          (fs, 0, [Event.listDir (resolveP cwd (expand_path env cfg.watch_dir now))])
          (fs.childNames (resolveP cwd (expand_path env cfg.watch_dir now)))).2.1 := by
      simp [process_once, hx, hcoll]
    have hpoR : (process_once cfg env cwd guess now tnow fs false).2.1 =
        (List.foldl (filePhaseStep cfg env cwd guess now tnow
          (resolveP cwd (expand_path env cfg.watch_dir now)) false)
          (fs, 0, [Event.listDir (resolveP cwd (expand_path env cfg.watch_dir now))])
          (fs.childNames (resolveP cwd (expand_path env cfg.watch_dir now)))).2.1 := by
      simp [process_once, hx, hcoll]
    rw [hpoD, hpoR, hrc, hdryf.2]
  · -- unmanaged sweep enabled
    have hmem2 : ∀ x, x ∈ (List.foldl (filePhaseStep cfg env cwd guess now tnow
          (resolveP cwd (expand_path env cfg.watch_dir now)) false)
          (fs, 0, [Event.listDir (resolveP cwd (expand_path env cfg.watch_dir now))])
          (fs.childNames (resolveP cwd (expand_path env cfg.watch_dir now)))).1.childNames
          (resolveP cwd (expand_path env cfg.watch_dir now)) ↔
        (x ∈ fs.childNames (resolveP cwd (expand_path env cfg.watch_dir now)) ∧
          fileHit cfg guess tnow fs (resolveP cwd (expand_path env cfg.watch_dir now)) x
            = false) := by
      intro x
      rw [mem_childNames]
      have hlen : (resolveP cwd (expand_path env cfg.watch_dir now)) ++ [x] ≠
          resolveP cwd (expand_path env cfg.watch_dir now) := by
        intro he
        have := congrArg List.length he
        simp at this
      by_cases hxM : x ∈ fs.childNames (resolveP cwd (expand_path env cfg.watch_dir now)) ∧
          fileHit cfg guess tnow fs (resolveP cwd (expand_path env cfg.watch_dir now)) x = true
      · have hxf : x ∈ (fs.childNames (resolveP cwd (expand_path env cfg.watch_dir now))).filter
            (fileHit cfg guess tnow fs (resolveP cwd (expand_path env cfg.watch_dir now))) :=
          List.mem_filter.mpr ⟨hxM.1, hxM.2⟩
        have hnone := (hrinv ((resolveP cwd (expand_path env cfg.watch_dir now)) ++ [x])
          (List.prefix_append _ _) hlen).1 ⟨x, by simpa using hxf, List.prefix_refl _⟩
        constructor
        · intro hex
          unfold FS.existsP at hex
          rw [hnone] at hex
          cases hex
        · rintro ⟨_, hf⟩
          rw [hxM.2] at hf
          cases hf
      · have hnotm : ∀ m ∈ ([] : List String) ++
            (fs.childNames (resolveP cwd (expand_path env cfg.watch_dir now))).filter
              (fileHit cfg guess tnow fs (resolveP cwd (expand_path env cfg.watch_dir now))),
            ¬ ((resolveP cwd (expand_path env cfg.watch_dir now)) ++ [m]) <+:
              ((resolveP cwd (expand_path env cfg.watch_dir now)) ++ [x]) := by
          intro m hm hpre
          have hmx : m = x := append_single_eq_of_pre _ m x hpre
          have hmf : m ∈ (fs.childNames (resolveP cwd (expand_path env cfg.watch_dir now))).filter
              (fileHit cfg guess tnow fs (resolveP cwd (expand_path env cfg.watch_dir now))) := by
            simpa using hm
          obtain ⟨hmn, hmh⟩ := List.mem_filter.mp hmf
          exact hxM ⟨hmx ▸ hmn, hmx ▸ hmh⟩
        have hB := (hrinv ((resolveP cwd (expand_path env cfg.watch_dir now)) ++ [x])
          (List.prefix_append _ _) hlen).2 hnotm
        rw [show (List.foldl (filePhaseStep cfg env cwd guess now tnow
            (resolveP cwd (expand_path env cfg.watch_dir now)) false)
            (fs, 0, [Event.listDir (resolveP cwd (expand_path env cfg.watch_dir now))])
            (fs.childNames (resolveP cwd (expand_path env cfg.watch_dir now)))).1.existsP
            ((resolveP cwd (expand_path env cfg.watch_dir now)) ++ [x]) =
            fs.existsP ((resolveP cwd (expand_path env cfg.watch_dir now)) ++ [x]) from
          existsP_congr _ _ _ hB, ← mem_childNames]
        constructor
        · intro hxn
          refine ⟨hxn, ?_⟩
          cases hh : fileHit cfg guess tnow fs
            (resolveP cwd (expand_path env cfg.watch_dir now)) x
          · rfl
          · exact absurd ⟨hxn, hh⟩ hxM
        · exact fun h => h.1
    have hnames2 : (List.foldl (filePhaseStep cfg env cwd guess now tnow
          (resolveP cwd (expand_path env cfg.watch_dir now)) false)
          (fs, 0, [Event.listDir (resolveP cwd (expand_path env cfg.watch_dir now))])
          (fs.childNames (resolveP cwd (expand_path env cfg.watch_dir now)))).1.childNames
          (resolveP cwd (expand_path env cfg.watch_dir now)) =
        (fs.childNames (resolveP cwd (expand_path env cfg.watch_dir now))).filter
          (fun n => !(fileHit cfg guess tnow fs
            (resolveP cwd (expand_path env cfg.watch_dir now)) n)) := by
      apply sorted_nodup_ext _ _ (childNames_sorted _ _)
        ((childNames_sorted fs _).filter _) (childNames_nodup _ _) (hnd.filter _)
      intro x
      rw [hmem2 x, List.mem_filter]
      simp [Bool.not_eq_true']
    have hdirs : ∀ n ∈ (List.foldl (filePhaseStep cfg env cwd guess now tnow
          (resolveP cwd (expand_path env cfg.watch_dir now)) false)
          (fs, 0, [Event.listDir (resolveP cwd (expand_path env cfg.watch_dir now))])
          (fs.childNames (resolveP cwd (expand_path env cfg.watch_dir now)))).1.childNames
          (resolveP cwd (expand_path env cfg.watch_dir now)),
        dirHit cfg tnow (build_unmanaged_exclude_paths cfg env cwd now
            (resolveP cwd (expand_path env cfg.watch_dir now)))
          (List.foldl (filePhaseStep cfg env cwd guess now tnow
            (resolveP cwd (expand_path env cfg.watch_dir now)) false)
            (fs, 0, [Event.listDir (resolveP cwd (expand_path env cfg.watch_dir now))])
            (fs.childNames (resolveP cwd (expand_path env cfg.watch_dir now)))).1
          (resolveP cwd (expand_path env cfg.watch_dir now)) n =
        dirHit cfg tnow (build_unmanaged_exclude_paths cfg env cwd now
            (resolveP cwd (expand_path env cfg.watch_dir now)))
          fs (resolveP cwd (expand_path env cfg.watch_dir now)) n := by
      intro n hn
      obtain ⟨hnn, hnh⟩ := (hmem2 n).mp hn
      have hvn := hval n hnn
      have hnotpre : ∀ m ∈ ([] : List String) ++
          (fs.childNames (resolveP cwd (expand_path env cfg.watch_dir now))).filter
            (fileHit cfg guess tnow fs (resolveP cwd (expand_path env cfg.watch_dir now))),
          ∀ q : AbsPath, ((resolveP cwd (expand_path env cfg.watch_dir now)) ++ [n]) <+: q →
          q.length ≤ (resolveP cwd (expand_path env cfg.watch_dir now)).length + 2 →
          ¬ ((resolveP cwd (expand_path env cfg.watch_dir now)) ++ [m]) <+: q := by
        intro m hm q hpren hlenq hprem
        have hmf : m ∈ (fs.childNames (resolveP cwd (expand_path env cfg.watch_dir now))).filter
            (fileHit cfg guess tnow fs (resolveP cwd (expand_path env cfg.watch_dir now))) := by
          simpa using hm
        obtain ⟨hmn, hmh⟩ := List.mem_filter.mp hmf
        have hcomp := List.prefix_or_prefix_of_prefix hprem hpren
        have hmeq : m = n := by
          rcases hcomp with h | h
          · exact append_single_eq_of_pre _ m n h
          · exact (append_single_eq_of_pre _ n m h).symm
        rw [hmeq] at hmh
        rw [hmh] at hnh
        cases hnh
      have hB1 : (List.foldl (filePhaseStep cfg env cwd guess now tnow
            (resolveP cwd (expand_path env cfg.watch_dir now)) false)
            (fs, 0, [Event.listDir (resolveP cwd (expand_path env cfg.watch_dir now))])
            (fs.childNames (resolveP cwd (expand_path env cfg.watch_dir now)))).1.lookup
            ((resolveP cwd (expand_path env cfg.watch_dir now)) ++ [n]) =
          fs.lookup ((resolveP cwd (expand_path env cfg.watch_dir now)) ++ [n]) := by
        refine (hrinv _ (List.prefix_append _ _) ?_).2 ?_
        · intro he
          have := congrArg List.length he
          simp at this
        · intro m hm hpre
          exact hnotpre m hm _ (List.prefix_refl _) (by simp) hpre
      have hB2 : (List.foldl (filePhaseStep cfg env cwd guess now tnow
            (resolveP cwd (expand_path env cfg.watch_dir now)) false)
            (fs, 0, [Event.listDir (resolveP cwd (expand_path env cfg.watch_dir now))])
            (fs.childNames (resolveP cwd (expand_path env cfg.watch_dir now)))).1.lookup
            (((resolveP cwd (expand_path env cfg.watch_dir now)) ++ [n]) ++
              [cfg.managed_marker]) =
          fs.lookup (((resolveP cwd (expand_path env cfg.watch_dir now)) ++ [n]) ++
            [cfg.managed_marker]) := by
        refine (hrinv _ ((List.prefix_append _ [n]).trans (List.prefix_append _ _)) ?_).2 ?_
        · intro he
          have := congrArg List.length he
          simp at this
        · intro m hm hpre
          exact hnotpre m hm _ (List.prefix_append _ _) (by simp) hpre
      apply dirHit_congr
      · exact isDir_congr _ _ _ hB1
      · exact mtimeOf_congr _ _ _ hB1
      · unfold is_managed_dir
        have hnorm2 : normalize ((resolveP cwd (expand_path env cfg.watch_dir now)) ++ [n]) =
            (resolveP cwd (expand_path env cfg.watch_dir now)) ++ [n] := by
          rw [normalize_append_single _ n (validSeg_spec n hvn).2.2.1, resolveP_normalized]
        rw [joinUnder_valid _ hnorm2 _ hmkv]
        exact existsP_congr _ _ _ hB2
    have htR : resolveP cwd (expand_path env
          (cfg.unmanaged_dir_target.getD defaultUnmanagedTarget) now) ∈
        build_unmanaged_exclude_paths cfg env cwd now
          (resolveP cwd (expand_path env cfg.watch_dir now)) := by
      unfold build_unmanaged_exclude_paths
      simp
    have hinvD0 : dirReadsAgree (List.foldl (filePhaseStep cfg env cwd guess now tnow
          (resolveP cwd (expand_path env cfg.watch_dir now)) false)
          (fs, 0, [Event.listDir (resolveP cwd (expand_path env cfg.watch_dir now))])
          (fs.childNames (resolveP cwd (expand_path env cfg.watch_dir now)))).1
        (resolveP cwd (expand_path env cfg.watch_dir now)) cfg.managed_marker
        (build_unmanaged_exclude_paths cfg env cwd now
          (resolveP cwd (expand_path env cfg.watch_dir now))) []
        ((List.foldl (filePhaseStep cfg env cwd guess now tnow
            (resolveP cwd (expand_path env cfg.watch_dir now)) false)
            (fs, 0, [Event.listDir (resolveP cwd (expand_path env cfg.watch_dir now))])
            (fs.childNames (resolveP cwd (expand_path env cfg.watch_dir now)))).1,
         (List.foldl (filePhaseStep cfg env cwd guess now tnow
            (resolveP cwd (expand_path env cfg.watch_dir now)) false)
            (fs, 0, [Event.listDir (resolveP cwd (expand_path env cfg.watch_dir now))])
            (fs.childNames (resolveP cwd (expand_path env cfg.watch_dir now)))).2.1,
         (List.foldl (filePhaseStep cfg env cwd guess now tnow
            (resolveP cwd (expand_path env cfg.watch_dir now)) false)
            (fs, 0, [Event.listDir (resolveP cwd (expand_path env cfg.watch_dir now))])
            (fs.childNames (resolveP cwd (expand_path env cfg.watch_dir now)))).2.2 ++
           [Event.listDir (resolveP cwd (expand_path env cfg.watch_dir now))]).1 := by
      intro n2 _ _
      exact ⟨rfl, rfl⟩
    obtain ⟨hdcR, _⟩ := dirFold_real cfg cwd tnow
      (resolveP cwd (expand_path env cfg.watch_dir now))
      (build_unmanaged_exclude_paths cfg env cwd now
        (resolveP cwd (expand_path env cfg.watch_dir now)))
      (expand_path env (cfg.unmanaged_dir_target.getD defaultUnmanagedTarget) now)
      (List.foldl (filePhaseStep cfg env cwd guess now tnow
        (resolveP cwd (expand_path env cfg.watch_dir now)) false)
        (fs, 0, [Event.listDir (resolveP cwd (expand_path env cfg.watch_dir now))])
        (fs.childNames (resolveP cwd (expand_path env cfg.watch_dir now)))).1
      htR (resolveP_normalized cwd _) hmkv
      ((List.foldl (filePhaseStep cfg env cwd guess now tnow
        (resolveP cwd (expand_path env cfg.watch_dir now)) false)
        (fs, 0, [Event.listDir (resolveP cwd (expand_path env cfg.watch_dir now))])
        (fs.childNames (resolveP cwd (expand_path env cfg.watch_dir now)))).1.childNames
        (resolveP cwd (expand_path env cfg.watch_dir now))) []
      ((List.foldl (filePhaseStep cfg env cwd guess now tnow
          (resolveP cwd (expand_path env cfg.watch_dir now)) false)
          (fs, 0, [Event.listDir (resolveP cwd (expand_path env cfg.watch_dir now))])
          (fs.childNames (resolveP cwd (expand_path env cfg.watch_dir now)))).1,
       (List.foldl (filePhaseStep cfg env cwd guess now tnow
          (resolveP cwd (expand_path env cfg.watch_dir now)) false)
          (fs, 0, [Event.listDir (resolveP cwd (expand_path env cfg.watch_dir now))])
          (fs.childNames (resolveP cwd (expand_path env cfg.watch_dir now)))).2.1,
       (List.foldl (filePhaseStep cfg env cwd guess now tnow
          (resolveP cwd (expand_path env cfg.watch_dir now)) false)
          (fs, 0, [Event.listDir (resolveP cwd (expand_path env cfg.watch_dir now))])
          (fs.childNames (resolveP cwd (expand_path env cfg.watch_dir now)))).2.2 ++
         [Event.listDir (resolveP cwd (expand_path env cfg.watch_dir now))])
      hinvD0 (childNames_nodup _ _) (fun x _ h => (List.not_mem_nil x) h)
      (fun x hxm => hval x ((hmem2 x).mp hxm).1)
    have hdryd := dirFold_dry cfg cwd tnow
      (resolveP cwd (expand_path env cfg.watch_dir now))
      (build_unmanaged_exclude_paths cfg env cwd now
        (resolveP cwd (expand_path env cfg.watch_dir now)))
      (expand_path env (cfg.unmanaged_dir_target.getD defaultUnmanagedTarget) now)
      ((List.foldl (filePhaseStep cfg env cwd guess now tnow
        (resolveP cwd (expand_path env cfg.watch_dir now)) true)
        (fs, 0, [Event.listDir (resolveP cwd (expand_path env cfg.watch_dir now))])
        (fs.childNames (resolveP cwd (expand_path env cfg.watch_dir now)))).1.childNames
        (resolveP cwd (expand_path env cfg.watch_dir now)))
      ((List.foldl (filePhaseStep cfg env cwd guess now tnow
          (resolveP cwd (expand_path env cfg.watch_dir now)) true)
          (fs, 0, [Event.listDir (resolveP cwd (expand_path env cfg.watch_dir now))])
          (fs.childNames (resolveP cwd (expand_path env cfg.watch_dir now)))).1,
       (List.foldl (filePhaseStep cfg env cwd guess now tnow
          (resolveP cwd (expand_path env cfg.watch_dir now)) true)
          (fs, 0, [Event.listDir (resolveP cwd (expand_path env cfg.watch_dir now))])
          (fs.childNames (resolveP cwd (expand_path env cfg.watch_dir now)))).2.1,
       (List.foldl (filePhaseStep cfg env cwd guess now tnow
          (resolveP cwd (expand_path env cfg.watch_dir now)) true)
          (fs, 0, [Event.listDir (resolveP cwd (expand_path env cfg.watch_dir now))])
          (fs.childNames (resolveP cwd (expand_path env cfg.watch_dir now)))).2.2 ++
         [Event.listDir (resolveP cwd (expand_path env cfg.watch_dir now))])
    have hpoD : (process_once cfg env cwd guess now tnow fs true).2.1 =
        (List.foldl (dirPhaseStep cfg cwd tnow
          (resolveP cwd (expand_path env cfg.watch_dir now))
          (build_unmanaged_exclude_paths cfg env cwd now
            (resolveP cwd (expand_path env cfg.watch_dir now)))
          (expand_path env (cfg.unmanaged_dir_target.getD defaultUnmanagedTarget) now) true)
          ((List.foldl (filePhaseStep cfg env cwd guess now tnow
              (resolveP cwd (expand_path env cfg.watch_dir now)) true)
              (fs, 0, [Event.listDir (resolveP cwd (expand_path env cfg.watch_dir now))])
              (fs.childNames (resolveP cwd (expand_path env cfg.watch_dir now)))).1,
           (List.foldl (filePhaseStep cfg env cwd guess now tnow
              (resolveP cwd (expand_path env cfg.watch_dir now)) true)
              (fs, 0, [Event.listDir (resolveP cwd (expand_path env cfg.watch_dir now))])
              (fs.childNames (resolveP cwd (expand_path env cfg.watch_dir now)))).2.1,
           (List.foldl (filePhaseStep cfg env cwd guess now tnow
              (resolveP cwd (expand_path env cfg.watch_dir now)) true)
              (fs, 0, [Event.listDir (resolveP cwd (expand_path env cfg.watch_dir now))])
              (fs.childNames (resolveP cwd (expand_path env cfg.watch_dir now)))).2.2 ++
             [Event.listDir (resolveP cwd (expand_path env cfg.watch_dir now))])
          ((List.foldl (filePhaseStep cfg env cwd guess now tnow
              (resolveP cwd (expand_path env cfg.watch_dir now)) true)
              (fs, 0, [Event.listDir (resolveP cwd (expand_path env cfg.watch_dir now))])
              (fs.childNames (resolveP cwd (expand_path env cfg.watch_dir now)))).1.childNames
            (resolveP cwd (expand_path env cfg.watch_dir now)))).2.1 := by
      simp [process_once, hx, hcoll]
    have hpoR : (process_once cfg env cwd guess now tnow fs false).2.1 =
        (List.foldl (dirPhaseStep cfg cwd tnow
          (resolveP cwd (expand_path env cfg.watch_dir now))
          (build_unmanaged_exclude_paths cfg env cwd now
            (resolveP cwd (expand_path env cfg.watch_dir now)))
          (expand_path env (cfg.unmanaged_dir_target.getD defaultUnmanagedTarget) now) false)
          ((List.foldl (filePhaseStep cfg env cwd guess now tnow
              (resolveP cwd (expand_path env cfg.watch_dir now)) false)
              (fs, 0, [Event.listDir (resolveP cwd (expand_path env cfg.watch_dir now))])
              (fs.childNames (resolveP cwd (expand_path env cfg.watch_dir now)))).1,
           (List.foldl (filePhaseStep cfg env cwd guess now tnow
              (resolveP cwd (expand_path env cfg.watch_dir now)) false)
              (fs, 0, [Event.listDir (resolveP cwd (expand_path env cfg.watch_dir now))])
              (fs.childNames (resolveP cwd (expand_path env cfg.watch_dir now)))).2.1,
           (List.foldl (filePhaseStep cfg env cwd guess now tnow
              (resolveP cwd (expand_path env cfg.watch_dir now)) false)
              (fs, 0, [Event.listDir (resolveP cwd (expand_path env cfg.watch_dir now))])
              (fs.childNames (resolveP cwd (expand_path env cfg.watch_dir now)))).2.2 ++
             [Event.listDir (resolveP cwd (expand_path env cfg.watch_dir now))])
          ((List.foldl (filePhaseStep cfg env cwd guess now tnow
              (resolveP cwd (expand_path env cfg.watch_dir now)) false)
              (fs, 0, [Event.listDir (resolveP cwd (expand_path env cfg.watch_dir now))])
              (fs.childNames (resolveP cwd (expand_path env cfg.watch_dir now)))).1.childNames
            (resolveP cwd (expand_path env cfg.watch_dir now)))).2.1 := by
      simp [process_once, hx, hcoll]
    rw [hpoD, hpoR, hdcR, (hdryd).2]
    -- normalise the dry side: the dry file fold leaves the snapshot unchanged
    rw [hdryf.1, hdryf.2]
    -- counting argument
    have hcnt2 : ((List.foldl (filePhaseStep cfg env cwd guess now tnow
          (resolveP cwd (expand_path env cfg.watch_dir now)) false)
          (fs, 0, [Event.listDir (resolveP cwd (expand_path env cfg.watch_dir now))])
          (fs.childNames (resolveP cwd (expand_path env cfg.watch_dir now)))).1.childNames
          (resolveP cwd (expand_path env cfg.watch_dir now))).countP
          (dirHit cfg tnow (build_unmanaged_exclude_paths cfg env cwd now
            (resolveP cwd (expand_path env cfg.watch_dir now)))
            (List.foldl (filePhaseStep cfg env cwd guess now tnow
              (resolveP cwd (expand_path env cfg.watch_dir now)) false)
              (fs, 0, [Event.listDir (resolveP cwd (expand_path env cfg.watch_dir now))])
              (fs.childNames (resolveP cwd (expand_path env cfg.watch_dir now)))).1
            (resolveP cwd (expand_path env cfg.watch_dir now))) =
        (fs.childNames (resolveP cwd (expand_path env cfg.watch_dir now))).countP
          (dirHit cfg tnow (build_unmanaged_exclude_paths cfg env cwd now
            (resolveP cwd (expand_path env cfg.watch_dir now))) fs
            (resolveP cwd (expand_path env cfg.watch_dir now))) := by
      rw [List.countP_congr (fun a ha => by rw [hdirs a ha])]
      rw [hnames2]
      rw [countP_split (dirHit cfg tnow (build_unmanaged_exclude_paths cfg env cwd now
          (resolveP cwd (expand_path env cfg.watch_dir now))) fs
          (resolveP cwd (expand_path env cfg.watch_dir now)))
        (fileHit cfg guess tnow fs (resolveP cwd (expand_path env cfg.watch_dir now)))
        (fs.childNames (resolveP cwd (expand_path env cfg.watch_dir now)))]
      have hzero : ((fs.childNames (resolveP cwd (expand_path env cfg.watch_dir now))).filter
          (fileHit cfg guess tnow fs (resolveP cwd (expand_path env cfg.watch_dir now)))).countP
          (dirHit cfg tnow (build_unmanaged_exclude_paths cfg env cwd now
            (resolveP cwd (expand_path env cfg.watch_dir now))) fs
            (resolveP cwd (expand_path env cfg.watch_dir now))) = 0 := by
        rw [List.countP_eq_zero]
        intro a ha
        obtain ⟨_, hah⟩ := List.mem_filter.mp ha
        rw [fileHit_not_dirHit cfg guess tnow _ fs _ a hah]
        simp
      rw [hzero]
      simp
    rw [hrc, hcnt2]

/-- C5 counterexample: with a rule whose destination is the watch directory
itself (`to_dir = "/w"`, `ensure_unique = false`, rename `b`), the real run
overwrites the too-young `b.txt` with the old `a.txt` and then processes the
overwritten entry as well, so the real pass counts 2 while the dry pass
counts 1: dry-run and real-run processed counts differ on an identical
snapshot. -/
theorem dry_run_count_cex :
    (process_once
      { watch_dir := "/w", min_age_sec := 50,
        rules := [{ name := "r", match_ext := ["txt"], to_dir := "/w", rename := "b",
                    ensure_unique := false }] }
      [] ["c"] (fun _ => none) ⟨2026, 10, 12, 3, 4, 5⟩ 100
      ⟨[(["w"], ⟨FKind.dir, 0⟩), (["w", "a.txt"], ⟨FKind.file, 0⟩),
        (["w", "b.txt"], ⟨FKind.file, 90⟩)]⟩ true).2.1 = 1 ∧
    (process_once
      { watch_dir := "/w", min_age_sec := 50,
        rules := [{ name := "r", match_ext := ["txt"], to_dir := "/w", rename := "b",
                    ensure_unique := false }] }
      [] ["c"] (fun _ => none) ⟨2026, 10, 12, 3, 4, 5⟩ 100
      ⟨[(["w"], ⟨FKind.dir, 0⟩), (["w", "a.txt"], ⟨FKind.file, 0⟩),
        (["w", "b.txt"], ⟨FKind.file, 90⟩)]⟩ false).2.1 = 2 := by
  constructor
  · decide
  · decide

/-- C5 (amended): a dry-run pass performs zero filesystem mutations — the
snapshot it returns is the input snapshot, unconditionally; and whenever the
snapshot's entries are made of valid path segments, every rule destination
resolves neither to, below, nor above the watch directory, the managed
marker is a plain file name, and every target name built for a listed entry
is a valid single segment, the dry-run pass returns the same processed
count as the real pass on the identical snapshot. -/
theorem dry_run_faithful (cfg : Config) (env : List (String × String)) (cwd : AbsPath)
    (guess : String → Option String) (now : DT) (tnow : Int) (fs : FS)
    (hwf : FS.wf fs = true)
    (hrule : rulesAvoidWatch cfg env cwd now
      (resolveP cwd (expand_path env cfg.watch_dir now)) = true)
    (hmk : markerIsName cfg = true)
    (hbt : renamesOk cfg now
      (fs.childNames (resolveP cwd (expand_path env cfg.watch_dir now))) = true) :
    (process_once cfg env cwd guess now tnow fs true).1 = fs ∧
    (process_once cfg env cwd guess now tnow fs true).2.1 =
      (process_once cfg env cwd guess now tnow fs false).2.1 :=
  ⟨process_once_dry_pure cfg env cwd guess now tnow fs,
   dry_real_counts_eq cfg env cwd guess now tnow fs hwf hrule hmk hbt⟩

theorem dry_run_faithful_witness :
    FS.wf ⟨[(["w"], ⟨FKind.dir, 0⟩), (["w", "report.pdf"], ⟨FKind.file, 0⟩),
      (["w", "misc"], ⟨FKind.dir, 0⟩)]⟩ = true ∧
    ((process_once
        { watch_dir := "/w", collect_unmanaged_dirs := true,
          unmanaged_dir_target := some "/arch",
          rules := [{ name := "pdf", match_ext := ["pdf"], to_dir := "/out" }] }
        [] ["c"] (fun _ => none) ⟨2026, 10, 12, 3, 4, 5⟩ 100
        ⟨[(["w"], ⟨FKind.dir, 0⟩), (["w", "report.pdf"], ⟨FKind.file, 0⟩),
          (["w", "misc"], ⟨FKind.dir, 0⟩)]⟩ true).1 =
      ⟨[(["w"], ⟨FKind.dir, 0⟩), (["w", "report.pdf"], ⟨FKind.file, 0⟩),
        (["w", "misc"], ⟨FKind.dir, 0⟩)]⟩ ∧
     (process_once
        { watch_dir := "/w", collect_unmanaged_dirs := true,
          unmanaged_dir_target := some "/arch",
          rules := [{ name := "pdf", match_ext := ["pdf"], to_dir := "/out" }] }
        [] ["c"] (fun _ => none) ⟨2026, 10, 12, 3, 4, 5⟩ 100
        ⟨[(["w"], ⟨FKind.dir, 0⟩), (["w", "report.pdf"], ⟨FKind.file, 0⟩),
          (["w", "misc"], ⟨FKind.dir, 0⟩)]⟩ true).2.1 =
       (process_once
        { watch_dir := "/w", collect_unmanaged_dirs := true,
          unmanaged_dir_target := some "/arch",
          rules := [{ name := "pdf", match_ext := ["pdf"], to_dir := "/out" }] }
        [] ["c"] (fun _ => none) ⟨2026, 10, 12, 3, 4, 5⟩ 100
        ⟨[(["w"], ⟨FKind.dir, 0⟩), (["w", "report.pdf"], ⟨FKind.file, 0⟩),
          (["w", "misc"], ⟨FKind.dir, 0⟩)]⟩ false).2.1) :=
  ⟨by decide,
   dry_run_faithful
     { watch_dir := "/w", collect_unmanaged_dirs := true,
       unmanaged_dir_target := some "/arch",
       rules := [{ name := "pdf", match_ext := ["pdf"], to_dir := "/out" }] }
     [] ["c"] (fun _ => none) ⟨2026, 10, 12, 3, 4, 5⟩ 100
     ⟨[(["w"], ⟨FKind.dir, 0⟩), (["w", "report.pdf"], ⟨FKind.file, 0⟩),
       (["w", "misc"], ⟨FKind.dir, 0⟩)]⟩
     (by decide) (by decide) (by decide) (by decide)⟩

end DOrg
